import Mathlib

/-!
Verification development for the VPMM → VRC-Wiki synchronization engine
(Go sources: `pkg/mediawiki`, `pkg/mediawiki/summary.go`, `cmd/wiki-sync/main.go`).

The Go code is shallowly embedded: pure functions become Lean functions,
the stateful wiki client becomes explicit state passing over a page store,
and fallible network calls are driven by explicit failure oracles.
-/

set_option maxRecDepth 8000

/-! ## Semantic versions (model of the vendored Masterminds/semver v3 library,
    as used by `ComputeLatestStableUnstable` and `ProcessSpecificVersionPage`) -/

/-- A parsed semantic version: numeric components plus the raw prerelease and
metadata strings, as stored by `semver.Version`. -/
structure SemVer where
  major : Nat
  minor : Nat
  patch : Nat
  pre : String
  meta : String
deriving DecidableEq, Repr

/-- Model of Go `strconv.ParseUint(s, 10, 64)`: decimal digits only, no sign,
value must fit in 64 bits. -/
def parseUint64 (s : String) : Option Nat :=
  let cs := s.toList
  if cs = [] then none
  else if cs.all Char.isDigit then
    let n := cs.foldl (fun acc c => 10 * acc + (c.toNat - 48)) 0
    if n < 18446744073709551616 then some n else none
  else none

/-- Character class `[0-9A-Za-z-]` of the semver regular expression. -/
def isIdentChar (c : Char) : Bool := c.isAlphanum || c = '-'

/-- Model of Go `unicode.IsSpace` restricted to the Latin-1 white space
characters (the engine's inputs contain no exotic Unicode spaces). -/
def goIsSpace (c : Char) : Bool :=
  c = ' ' || c = '\t' || c = '\n' || c = '\x0b' || c = '\x0c' || c = '\r' ||
  c = '\u0085' || c = '\u00A0'

/-- Model of Go `strings.TrimSpace`: drop white space from both ends. -/
def goTrim (s : String) : String :=
  String.mk (((s.toList.dropWhile goIsSpace).reverse.dropWhile goIsSpace).reverse)

/-- Lower-cases a string character-wise (ASCII, modelling `strings.ToLower`
on the engine's inputs). -/
def strToLower (s : String) : String :=
  String.mk (s.toList.map Char.toLower)

/-- Splits a character list at a separator character; models Go
`strings.Split` for a one-character separator. -/
def splitCharsAux (sep : Char) : List Char → List Char → List (List Char)
  | [], acc => [acc.reverse]
  | c :: cs, acc =>
    if c = sep then acc.reverse :: splitCharsAux sep cs []
    else splitCharsAux sep cs (c :: acc)

/-- `splitChars sep cs` is Go `strings.Split (String.mk cs) (String.mk [sep])`. -/
def splitChars (sep : Char) (cs : List Char) : List (List Char) :=
  splitCharsAux sep cs []

/-- Parses the dotted-identifier body `[0-9A-Za-z-]+(\.[0-9A-Za-z-]+)*` used for
the prerelease and build-metadata groups of the semver regular expression,
greedily, returning the matched text and the unconsumed remainder. -/
def parsePreBody (cs : List Char) : Option (String × List Char) :=
  let body := cs.takeWhile (fun c => isIdentChar c || c = '.')
  let rest := cs.dropWhile (fun c => isIdentChar c || c = '.')
  if body = [] then none
  else if (splitChars '.' body).all (fun p => p ≠ []) then
    some (String.mk body, rest)
  else none

/-- Parses the optional `(\.[0-9]+)?(\.[0-9]+)?` minor/patch groups (absent
groups default to 0, as in `semver.NewVersion`). -/
def parseMinorPatch (r : List Char) : Option (Nat × Nat × List Char) :=
  match r with
  | '.' :: r2 =>
    let minD := r2.takeWhile Char.isDigit
    let r3 := r2.dropWhile Char.isDigit
    match parseUint64 (String.mk minD) with
    | none => none
    | some minor =>
      match r3 with
      | '.' :: r4 =>
        let patD := r4.takeWhile Char.isDigit
        let r5 := r4.dropWhile Char.isDigit
        match parseUint64 (String.mk patD) with
        | none => none
        | some patch => some (minor, patch, r5)
      | _ => some (minor, 0, r3)
  | _ => some (0, 0, r)

/-- Model of `semver.NewVersion`: the anchored lenient regular expression
`v?([0-9]+)(\.[0-9]+)?(\.[0-9]+)?(-pre)?(\+meta)?` with 64-bit numeric parts. -/
def newVersion (s : String) : Option SemVer :=
  let cs0 := s.toList
  let cs := match cs0 with | 'v' :: rest => rest | _ => cs0
  let majD := cs.takeWhile Char.isDigit
  let r1 := cs.dropWhile Char.isDigit
  match parseUint64 (String.mk majD) with
  | none => none
  | some major =>
    match parseMinorPatch r1 with
    | none => none
    | some (minor, patch, r3) =>
      match (match r3 with
             | '-' :: r4 =>
               match parsePreBody r4 with
               | none => none
               | some (p, rest) => some (p, rest)
             | _ => some ("", r3)) with
      | none => none
      | some (pre, r4) =>
        match (match r4 with
               | '+' :: r5 =>
                 match parsePreBody r5 with
                 | none => none
                 | some (m, rest) => some (m, rest)
               | _ => some ("", r4)) with
        | none => none
        | some (meta, r5) =>
          if r5 = [] then some ⟨major, minor, patch, pre, meta⟩ else none

/-- Model of the library's `compareSegment` on numeric components. -/
def compareSegment (v o : Nat) : Int :=
  if v < o then -1 else if o < v then 1 else 0

/-- Model of the library's `comparePrePart` on individual prerelease
identifiers (numeric identifiers are lower than alphanumeric ones). -/
def comparePrePart (s o : String) : Int :=
  if s = o then 0
  else if s = "" then (if o ≠ "" then -1 else 1)
  else if o = "" then (if s ≠ "" then 1 else -1)
  else
    match parseUint64 o, parseUint64 s with
    | none, none => if o < s then 1 else -1
    | none, some _ => -1
    | some _, none => 1
    | some oi, some si => if oi < si then 1 else -1

/-- Model of the library's padded part-by-part prerelease comparison loop
(missing parts are compared as the empty string). -/
def comparePreParts : List String → List String → Int
  | [], [] => 0
  | [], o :: os =>
    let d := comparePrePart "" o
    if d = 0 then comparePreParts [] os else d
  | s :: ss, [] =>
    let d := comparePrePart s ""
    if d = 0 then comparePreParts ss [] else d
  | s :: ss, o :: os =>
    let d := comparePrePart s o
    if d = 0 then comparePreParts ss os else d

/-- Model of the library's `comparePrerelease`: split both prerelease strings
on `.` and compare part by part. -/
def comparePrerelease (v o : String) : Int :=
  comparePreParts
    ((splitChars '.' v.toList).map String.mk)
    ((splitChars '.' o.toList).map String.mk)

/-- Model of `semver.Version.Compare`: major, minor, patch, then prerelease
(an empty prerelease is greater than a non-empty one). -/
def svCompare (v o : SemVer) : Int :=
  let d1 := compareSegment v.major o.major
  if d1 ≠ 0 then d1 else
  let d2 := compareSegment v.minor o.minor
  if d2 ≠ 0 then d2 else
  let d3 := compareSegment v.patch o.patch
  if d3 ≠ 0 then d3 else
  if v.pre = "" && o.pre = "" then 0
  else if v.pre = "" then 1
  else if o.pre = "" then -1
  else comparePrerelease v.pre o.pre

/-- Model of `semver.Version.GreaterThan`. -/
def svGreaterThan (v o : SemVer) : Bool := 0 < svCompare v o

/-! ## SSE reconnect backoff (the goroutine in `cmd/wiki-sync/main.go`) -/

/-- `backoffSeq k` is the sleep used after the `k`-th consecutive SSE transport
failure (0-based).  The code sleeps first and then doubles the value while it
is still below 30 seconds: `time.Sleep(backoff); if backoff < 30*time.Second
{ backoff *= 2 }`, starting from 1 second.  Values are in seconds. -/
def backoffSeq : Nat → Nat
  | 0 => 1
  | k + 1 =>
    let b := backoffSeq k
    if b < 30 then 2 * b else b

/-! ## Data model (generated API client types used by the engine) -/

/-- Model of the generated `apiclient.Package` record: `Name`, `Version`,
`DisplayName` (plain strings), optional `Description`, `License`, `Urls`,
and `Author.Name` (pointers, modelled as `Option`). -/
structure Package where
  name : String
  version : String
  displayName : String
  description : Option String
  license : Option String
  urls : Option (List String)
  authorName : Option String
deriving DecidableEq, Repr

/-- Go pointer dereference helper `str` from the engine: `nil` becomes `""`. -/
def strOpt : Option String → String
  | none => ""
  | some s => s

/-- Model of `firstListingURL`: first entry whose trimmed form is non-empty
(returned untrimmed), else `""`. -/
def firstListingURL (urls : Option (List String)) : String :=
  match urls with
  | none => ""
  | some l =>
    match l.find? (fun entry => goTrim entry != "") with
    | some entry => entry
    | none => ""

/-- Replaces every occurrence of one character by a string; models Go
`strings.ReplaceAll` for a one-character pattern. -/
def replaceChar (s : String) (c : Char) (r : String) : String :=
  String.mk (s.toList.foldr (fun ch acc => if ch = c then r.toList ++ acc else ch :: acc) [])

/-- Model of `sanitizeForWiki`: `|` becomes `\x7b\x7b!\x7d\x7d` and `=` becomes
`\x7b\x7b=\x7d\x7d` so interpolated text cannot break table markup. -/
def sanitizeForWiki (text : String) : String :=
  replaceChar (replaceChar text '|' "\x7b\x7b!\x7d\x7d") '=' "\x7b\x7b=\x7d\x7d"

/-! ## Version resolver (`ComputeLatestStableUnstable` in summary.go) -/

/-- The three running maxima tracked by the per-package loop of
`ComputeLatestStableUnstable`. -/
structure TrioState where
  bestLatest : Option (SemVer × Package)
  bestStable : Option (SemVer × Package)
  bestUnstable : Option (SemVer × Package)
deriving DecidableEq, Repr

/-- One iteration of the version loop: parse (discarding failures), then update
`latest` always, `stable` when the prerelease is empty, `unstable` otherwise. -/
def trioStep (st : TrioState) (v : Package) : TrioState :=
  match newVersion (goTrim v.version) with
  | none => st
  | some sv =>
    let l := match st.bestLatest with
      | none => some (sv, v)
      | some (b, _) => if svGreaterThan sv b then some (sv, v) else st.bestLatest
    if sv.pre = "" then
      let s := match st.bestStable with
        | none => some (sv, v)
        | some (b, _) => if svGreaterThan sv b then some (sv, v) else st.bestStable
      ⟨l, s, st.bestUnstable⟩
    else
      let u := match st.bestUnstable with
        | none => some (sv, v)
        | some (b, _) => if svGreaterThan sv b then some (sv, v) else st.bestUnstable
      ⟨l, st.bestStable, u⟩

/-- The inner loop of `ComputeLatestStableUnstable` for one package's version
list. -/
def computeTrio (versions : List Package) : TrioState :=
  versions.foldl trioStep ⟨none, none, none⟩

/-- Association-list lookup, modelling Go map indexing `m[k]` with an `ok`
flag. -/
def lookupAssoc {α : Type} (m : List (String × α)) (k : String) : Option α :=
  match m.find? (fun e => e.1 == k) with
  | some e => some e.2
  | none => none

/-- Association-list upsert, modelling Go map assignment `m[k] = v`. -/
def putAssoc {α : Type} (m : List (String × α)) (k : String) (v : α) : List (String × α) :=
  if (m.find? (fun e => e.1 == k)).isSome then
    m.map (fun e => if e.1 == k then (k, v) else e)
  else m ++ [(k, v)]

/-- Models Go `m[k] = append(m[k], v)` for a map of slices. -/
def appendAssoc {α : Type} (m : List (String × List α)) (k : String) (v : α) :
    List (String × List α) :=
  if (m.find? (fun e => e.1 == k)).isSome then
    m.map (fun e => if e.1 == k then (e.1, e.2 ++ [v]) else e)
  else m ++ [(k, [v])]

/-- Models Go map-of-slices read `m[k]` (`nil` slice when the key is absent). -/
def lookupListA {α : Type} (m : List (String × List α)) (k : String) : List α :=
  match m.find? (fun e => e.1 == k) with
  | some e => e.2
  | none => []

/-- Model of `ComputeLatestStableUnstable`: the Go maps become association
lists (iteration order of the input map is the list order). -/
def ComputeLatestStableUnstable (allVersions : List (String × List Package)) :
    List (String × Package) × List (String × Package) × List (String × Package) :=
  allVersions.foldl
    (fun acc kv =>
      let t := computeTrio kv.2
      (match t.bestLatest with
       | none => acc.1
       | some (_, p) => putAssoc acc.1 kv.1 p,
       match t.bestStable with
       | none => acc.2.1
       | some (_, p) => putAssoc acc.2.1 kv.1 p,
       match t.bestUnstable with
       | none => acc.2.2
       | some (_, p) => putAssoc acc.2.2 kv.1 p))
    ([], [], [])

/-- The loop body of `ComputeLatestStableUnstable`, named for the proofs. -/
def clsuStep
    (acc : List (String × Package) × List (String × Package) × List (String × Package))
    (kv : String × List Package) :
    List (String × Package) × List (String × Package) × List (String × Package) :=
  let t := computeTrio kv.2
  (match t.bestLatest with
   | none => acc.1
   | some (_, p) => putAssoc acc.1 kv.1 p,
   match t.bestStable with
   | none => acc.2.1
   | some (_, p) => putAssoc acc.2.1 kv.1 p,
   match t.bestUnstable with
   | none => acc.2.2
   | some (_, p) => putAssoc acc.2.2 kv.1 p)

/-- Model of `BuildAllVersionsMapFromAPI`: group packages by name. -/
def BuildAllVersionsMapFromAPI (pkgs : List Package) : List (String × List Package) :=
  pkgs.foldl (fun m p => appendAssoc m p.name p) []

/-! ## Wiki content gateway (state-passing model of `MediaWikiClient`)

The wiki is a store of pages (title-to-content association list); network and
filesystem failures are driven by an explicit oracle `WikiEnv`.  Successful
writes and deletions are journalled in `editLog`/`delLog` so that theorems can
speak about which operations a call performed.  Edit summaries, the bot flag
and log output do not influence page state and are not tracked. -/

/-- Failure oracle for wiki operations: which titles fail to read (other than
by being missing), fail to write, fail to delete, and whether page listing
fails. -/
structure WikiEnv where
  readFails : String → Bool
  editFails : String → Bool
  deleteFails : String → Bool
  listFails : Bool

/-- The environment in which every wiki operation succeeds (e.g. offline mode
with a healthy filesystem). -/
def honestEnv : WikiEnv :=
  ⟨fun _ => false, fun _ => false, fun _ => false, false⟩

/-- Wiki state: current pages plus journals of successful writes (title, text)
and successful deletions (title, reason). -/
structure WikiSt where
  pages : List (String × String)
  editLog : List (String × String)
  delLog : List (String × String)
deriving DecidableEq, Repr

/-- Result of `getPageContent`: the content, a "page does not exist" error, or
any other (transport/API/filesystem) error. -/
inductive ReadRes
  | content (s : String)
  | missing
  | fail
deriving DecidableEq, Repr

/-- Model of `getPageContent` (live or offline): oracle-driven failure,
otherwise the stored content or `missing`. -/
def getPageContent (env : WikiEnv) (pages : List (String × String)) (title : String) : ReadRes :=
  if env.readFails title then .fail
  else
    match lookupAssoc pages title with
    | some c => .content c
    | none => .missing

/-- Model of `EditPage`: read current content; a read failure aborts; a
trim-equal current content no-ops successfully; otherwise the page is written
(and journalled) unless the write fails.  The edit summary and bot flag do not
affect state.  The `bot` parameter is kept for signature fidelity. -/
def EditPage (env : WikiEnv) (st : WikiSt) (title text : String) (bot : Bool) :
    WikiSt × Option String :=
  match getPageContent env st.pages title with
  | .fail => (st, some ("get current content for page " ++ title))
  | .missing =>
    if env.editFails title then (st, some ("edit request failed: " ++ title))
    else ({ st with pages := putAssoc st.pages title text,
                    editLog := st.editLog ++ [(title, text)] }, none)
  | .content c =>
    if goTrim c = goTrim text then (st, none)
    else if env.editFails title then (st, some ("edit request failed: " ++ title))
    else ({ st with pages := putAssoc st.pages title text,
                    editLog := st.editLog ++ [(title, text)] }, none)

/-- Model of `DeletePage`.  In offline mode removing a missing file is not an
error; callers only delete after a successful existence check, so the model
does not distinguish that case. -/
def DeletePage (env : WikiEnv) (st : WikiSt) (title reason : String) :
    WikiSt × Option String :=
  if env.deleteFails title then (st, some ("delete request failed: " ++ title))
  else ({ st with pages := st.pages.filter (fun e => e.1 != title),
                  delLog := st.delLog ++ [(title, reason)] }, none)

/-- Model of `getAllPages`: all stored titles with the given text prefix (the
namespace/apprefix split in the Go code amounts to exactly this on titles). -/
def getAllPages (env : WikiEnv) (pages : List (String × String)) (pref : String) :
    Option (List String) :=
  if env.listFails then none
  else some ((pages.map (fun e => e.1)).filter (fun t => pref.toList.isPrefixOf t.toList))

/-! ## Page title parser / scanner -/

/-- `dropPre p l` models `strings.HasPrefix` plus `strings.TrimPrefix`:
`some rest` when `l = p ++ rest`, otherwise `none`. -/
def dropPre : List Char → List Char → Option (List Char)
  | [], cs => some cs
  | _ :: _, [] => none
  | p :: ps, c :: cs => if c = p then dropPre ps cs else none

/-- Model of the `normalize` closure in `parseVPMPageTitle`:
`strings.ReplaceAll(s, "_", " ")`. -/
def normalizeSeg (s : String) : String :=
  String.mk (s.toList.map (fun c => if c = '_' then ' ' else c))

/-- Model of `parseVPMPageTitle`: strip the `Template:VPM/` prefix, split on
`/`, classify the second segment (after underscore normalisation, by exact
string match) and return (packageName, pageType, versionTag). -/
def parseVPMPageTitle (title : String) : String × String × String :=
  match dropPre "Template:VPM/".toList title.toList with
  | none => ("", "", "")
  | some remainder =>
    match (splitChars '/' remainder).map String.mk with
    | p0 :: p1 :: rest =>
      let second := normalizeSeg p1
      if second = "Latest version" then
        match rest with
        | [] => (p0, "latest_version", "")
        | r0 :: _ => (p0, "latest_version_subpage", r0)
      else if second = "Latest stable version" then
        match rest with
        | [] => (p0, "latest_stable_version", "")
        | r0 :: _ => (p0, "latest_stable_version_subpage", r0)
      else if second = "Latest unstable version" then
        match rest with
        | [] => (p0, "latest_unstable_version", "")
        | r0 :: _ => (p0, "latest_unstable_version_subpage", r0)
      else
        match rest with
        | [] => (p0, "version", p1)
        | _ :: _ => (p0, "version_subpage", p1)
    | _ => ("", "", "")

/-- One page of the `ScanVpmPages` loop: ignore unparsable titles, collect the
title under its package, and collect deduplicated non-blank `version` tags. -/
def scanStep (acc : List (String × List String) × List (String × List String))
    (p : String) : List (String × List String) × List (String × List String) :=
  let parsed := parseVPMPageTitle p
  let pkg := parsed.1
  let pageType := parsed.2.1
  let versionTag := parsed.2.2
  if pkg = "" then acc
  else
    let pp := appendAssoc acc.1 pkg p
    let wv :=
      if pageType = "version" && goTrim versionTag != "" &&
         !((lookupListA acc.2 pkg).contains versionTag) then
        appendAssoc acc.2 pkg versionTag
      else acc.2
    (pp, wv)

/-- Model of `ScanVpmPages`: list all `Template:VPM/` pages and fold them into
(package page index, known version tags); `none` when listing fails. -/
def ScanVpmPages (env : WikiEnv) (st : WikiSt) :
    Option (List (String × List String) × List (String × List String)) :=
  match getAllPages env st.pages "Template:VPM/" with
  | none => none
  | some pages => some (pages.foldl scanStep ([], []))

/-! ## Strict semver parsing (model of `semver.StrictNewVersion`, used for
    specific-version page content) -/

/-- `cutChar sep cs` models Go `strings.SplitN(s, sep, 2)`: `some` (before,
after) around the first separator, or `none` when the separator is absent. -/
def cutChar (sep : Char) (cs : List Char) : Option (List Char × List Char) :=
  let before := cs.takeWhile (· != sep)
  let rest := cs.dropWhile (· != sep)
  match rest with
  | [] => none
  | _ :: after => some (before, after)

/-- Leading-zero test used by `StrictNewVersion` on numeric segments. -/
def startsZero (p : List Char) : Bool :=
  decide (1 < p.length) && p.headI == '0'

/-- Model of the library's `validatePrerelease`: each dot-separated part is
non-empty, and numeric parts have no leading zero, others only
`[0-9A-Za-z-]`. -/
def validatePre (p : String) : Bool :=
  (splitChars '.' p.toList).all (fun part =>
    !(part.isEmpty) &&
    (if part.all Char.isDigit then !(startsZero part) else part.all isIdentChar))

/-- Model of the library's `validateMetadata`: each dot-separated part is
non-empty and contains only `[0-9A-Za-z-]`. -/
def validateMeta (m : String) : Bool :=
  (splitChars '.' m.toList).all (fun part =>
    !(part.isEmpty) && part.all isIdentChar)

/-- Model of `semver.StrictNewVersion`: exactly three dot-separated numeric
segments without leading zeros, with optional `+metadata` then `-prerelease`
peeled off the third segment and validated. -/
def strictNewVersion (s : String) : Option SemVer :=
  let cs := s.toList
  match cutChar '.' cs with
  | none => none
  | some (p1, r1) =>
    match cutChar '.' r1 with
    | none => none
    | some (p2, p3full) =>
      let (p3a, meta) := match cutChar '+' p3full with
        | some (before, after) => (before, String.mk after)
        | none => (p3full, "")
      let (p3, pre) := match cutChar '-' p3a with
        | some (before, after) => (before, String.mk after)
        | none => (p3a, "")
      if p1.all Char.isDigit && p2.all Char.isDigit && p3.all Char.isDigit &&
         !(startsZero p1) && !(startsZero p2) && !(startsZero p3) then
        match parseUint64 (String.mk p1), parseUint64 (String.mk p2),
              parseUint64 (String.mk p3) with
        | some major, some minor, some patch =>
          if pre = "" && meta = "" then some ⟨major, minor, patch, "", ""⟩
          else if (pre != "" → validatePre pre) &&
                  (meta != "" → validateMeta meta) then
            some ⟨major, minor, patch, pre, meta⟩
          else none
        | _, _, _ => none
      else none

/-- Model of `semver.Version.String`: canonical rendering from components. -/
def svString (v : SemVer) : String :=
  toString v.major ++ "." ++ toString v.minor ++ "." ++ toString v.patch ++
  (if v.pre = "" then "" else "-" ++ v.pre) ++
  (if v.meta = "" then "" else "+" ++ v.meta)

/-! ## Gated update engine -/

/-- Subpage title `Template:VPM/<package>/<path>/<sub>`. -/
def subTitle (packageName versionPath sub : String) : String :=
  "Template:VPM/" ++ packageName ++ "/" ++ versionPath ++ "/" ++ sub

/-- Author-slot subpage title (`Author_1` … `Author_4`). -/
def authorTitle (packageName versionPath : String) (i : Nat) : String :=
  subTitle packageName versionPath ("Author_" ++ toString i)

/-- Main-page title `Template:VPM/<package>/<path>`. -/
def mainTitle (packageName versionPath : String) : String :=
  "Template:VPM/" ++ packageName ++ "/" ++ versionPath

/-- Author list of `updateVersionSubpages`: split on commas, trim each entry,
cap at four. -/
def authorsOf (authorName : String) : List String :=
  ((((splitChars ',' authorName.toList).map String.mk).map goTrim)).take 4

/-- The stale-slot cleanup body: if the author subpage still reads
successfully, delete it (the delete result is discarded by the code). -/
def cleanupAuthorSlot (env : WikiEnv) (packageName versionPath : String)
    (st : WikiSt) (i : Nat) : WikiSt :=
  let aTitle := authorTitle packageName versionPath i
  match getPageContent env st.pages aTitle with
  | .content _ => (DeletePage env st aTitle "Author removed from package").1
  | _ => st

/-- The author write loop: skip empty entries, write slot `i+1` for entry `i`,
abort on the first edit error. -/
def writeAuthors (env : WikiEnv) (packageName versionPath : String) :
    WikiSt → Nat → List String → WikiSt × Option String
  | st, _, [] => (st, none)
  | st, i, a :: rest =>
    if a = "" then writeAuthors env packageName versionPath st (i + 1) rest
    else
      match EditPage env st (authorTitle packageName versionPath (i + 1))
          (sanitizeForWiki a) true with
      | (st', some e) => (st', some ("update Author_" ++ toString (i + 1) ++ " page: " ++ e))
      | (st', none) => writeAuthors env packageName versionPath st' (i + 1) rest

/-- Model of `updateVersionSubpages`: write Description, DisplayName, License
and VPM subpages, then fan out authors and delete stale author slots. -/
def updateVersionSubpages (env : WikiEnv) (st : WikiSt)
    (packageName versionPath : String) (version : Package) : WikiSt × Option String :=
  match EditPage env st (subTitle packageName versionPath "Description")
      (sanitizeForWiki (strOpt version.description)) true with
  | (st1, some e) => (st1, some ("update description page: " ++ e))
  | (st1, none) =>
    match EditPage env st1 (subTitle packageName versionPath "DisplayName")
        (sanitizeForWiki version.displayName) true with
    | (st2, some e) => (st2, some ("update display name page: " ++ e))
    | (st2, none) =>
      match EditPage env st2 (subTitle packageName versionPath "License")
          (sanitizeForWiki (strOpt version.license)) true with
      | (st3, some e) => (st3, some ("update license page: " ++ e))
      | (st3, none) =>
        match EditPage env st3 (subTitle packageName versionPath "VPM")
            (sanitizeForWiki (firstListingURL version.urls)) true with
        | (st4, some e) => (st4, some ("update VPM page: " ++ e))
        | (st4, none) =>
          let authorName := strOpt version.authorName
          if goTrim authorName = "" then
            ((List.range' 1 4).foldl (cleanupAuthorSlot env packageName versionPath) st4, none)
          else
            let authors := authorsOf authorName
            match writeAuthors env packageName versionPath st4 0 authors with
            | (st5, some e) => (st5, some e)
            | (st5, none) =>
              ((List.range' (authors.length + 1) (4 - authors.length)).foldl
                (cleanupAuthorSlot env packageName versionPath) st5, none)

/-- Model of `UpdateLatestVersionPages`: gated on the `Latest_version` main
page already existing; if present, write the version and reconcile subpages. -/
def UpdateLatestVersionPages (env : WikiEnv) (st : WikiSt) (version : Package) :
    WikiSt × Option String :=
  let title := mainTitle version.name "Latest_version"
  match getPageContent env st.pages title with
  | .fail => (st, some ("check existence for " ++ title))
  | .missing => (st, none)
  | .content _ =>
    match EditPage env st title (sanitizeForWiki version.version) true with
    | (st1, some e) => (st1, some ("update latest version page: " ++ e))
    | (st1, none) => updateVersionSubpages env st1 version.name "Latest_version" version

/-- Model of `UpdateLatestStableVersionPages` (gated like the latest case). -/
def UpdateLatestStableVersionPages (env : WikiEnv) (st : WikiSt) (version : Package) :
    WikiSt × Option String :=
  let title := mainTitle version.name "Latest_stable_version"
  match getPageContent env st.pages title with
  | .fail => (st, some ("check existence for " ++ title))
  | .missing => (st, none)
  | .content _ =>
    match EditPage env st title (sanitizeForWiki version.version) true with
    | (st1, some e) => (st1, some ("update latest stable version page: " ++ e))
    | (st1, none) => updateVersionSubpages env st1 version.name "Latest_stable_version" version

/-- Model of `UpdateLatestUnstableVersionPages` (gated like the latest case). -/
def UpdateLatestUnstableVersionPages (env : WikiEnv) (st : WikiSt) (version : Package) :
    WikiSt × Option String :=
  let title := mainTitle version.name "Latest_unstable_version"
  match getPageContent env st.pages title with
  | .fail => (st, some ("check existence for " ++ title))
  | .missing => (st, none)
  | .content _ =>
    match EditPage env st title (sanitizeForWiki version.version) true with
    | (st1, some e) => (st1, some ("update latest unstable version page: " ++ e))
    | (st1, none) => updateVersionSubpages env st1 version.name "Latest_unstable_version" version

/-- Model of `ProcessSpecificVersionPage`: gated on the version page existing;
its content (not its title) is strictly parsed as a semver and, when known,
drives subpage reconciliation. -/
def ProcessSpecificVersionPage (env : WikiEnv) (st : WikiSt)
    (packageName versionTag : String) (knownVersions : List (String × Package)) :
    WikiSt × Option String :=
  let versionPageTitle := mainTitle packageName versionTag
  match getPageContent env st.pages versionPageTitle with
  | .fail => (st, some ("check existence for " ++ versionPageTitle))
  | .missing => (st, none)
  | .content _ =>
    match getPageContent env st.pages versionPageTitle with
    | .fail => (st, some ("read content from " ++ versionPageTitle))
    | .missing => (st, some ("read content from " ++ versionPageTitle))
    | .content content =>
      match strictNewVersion (goTrim content) with
      | none => (st, none)
      | some v =>
        match lookupAssoc knownVersions (svString v) with
        | some pkgVersion => updateVersionSubpages env st packageName versionTag pkgVersion
        | none => (st, none)

/-! ## Ungated single-package update (`UpdateSinglePackage`) -/

/-- The `pagesToUpdate` map of `UpdateSinglePackage` (a Go map whose keys are
pairwise distinct; the model fixes insertion order, which does not affect the
final state or return value).  Note: unlike `updateVersionSubpages`, authors
are capped at four before trimming. -/
def pagesToUpdate (pkg : Package) : List (String × String) :=
  let base := [
    (mainTitle pkg.name "Latest_version", sanitizeForWiki pkg.version),
    (subTitle pkg.name "Latest_version" "Description", sanitizeForWiki (strOpt pkg.description)),
    (subTitle pkg.name "Latest_version" "DisplayName", sanitizeForWiki pkg.displayName),
    (subTitle pkg.name "Latest_version" "License", sanitizeForWiki (strOpt pkg.license)),
    (subTitle pkg.name "Latest_version" "VPM", sanitizeForWiki (firstListingURL pkg.urls))]
  match pkg.authorName with
  | none => base
  | some an =>
    if an = "" then base
    else
      let authors := (((splitChars ',' an.toList).map String.mk)).take 4
      base ++ authors.enum.filterMap (fun ia =>
        let a := goTrim ia.2
        if a = "" then none
        else some (authorTitle pkg.name "Latest_version" (ia.1 + 1), sanitizeForWiki a))

/-- One iteration of the `UpdateSinglePackage` loop: read (errors collapse to
empty current content), write when the trimmed contents differ, count only
successful edits, swallow edit errors. -/
def singleStep (env : WikiEnv) (acc : WikiSt × Nat) (e : String × String) : WikiSt × Nat :=
  let current := match getPageContent env acc.1.pages e.1 with
    | .content c => c
    | _ => ""
  if goTrim current != goTrim e.2 then
    match EditPage env acc.1 e.1 e.2 true with
    | (st', none) => (st', acc.2 + 1)
    | (st', some _) => (st', acc.2)
  else acc

/-- Model of `UpdateSinglePackage`: create-or-update the whole
`Latest_version` subtree, ignoring per-page failures, always returning `nil`
(the third component is the returned error). -/
def UpdateSinglePackage (env : WikiEnv) (st : WikiSt) (pkg : Package) :
    WikiSt × Nat × Option String :=
  let r := (pagesToUpdate pkg).foldl (singleStep env) (st, 0)
  (r.1, r.2, none)

/-! ## `SyncExistingPages` -/

/-- The per-package body of the `SyncExistingPages` loop. -/
def syncPackageStep (env : WikiEnv) (latest stable unstable : List (String × Package))
    (allByPkg : List (String × List (String × Package)))
    (packagePages wikiVersionsMap : List (String × List String))
    (acc : WikiSt × List String) (name : String) : WikiSt × List String :=
  let pages := lookupListA packagePages name
  let acc1 := match lookupAssoc latest name with
    | some v =>
      if pages.contains (mainTitle name "Latest_version") then
        match UpdateLatestVersionPages env acc.1 v with
        | (st', some e) => (st', acc.2 ++ ["latest " ++ name ++ ": " ++ e])
        | (st', none) => (st', acc.2)
      else acc
    | none => acc
  let acc2 := match lookupAssoc stable name with
    | some v =>
      if pages.contains (mainTitle name "Latest_stable_version") then
        match UpdateLatestStableVersionPages env acc1.1 v with
        | (st', some e) => (st', acc1.2 ++ ["stable " ++ name ++ ": " ++ e])
        | (st', none) => (st', acc1.2)
      else acc1
    | none => acc1
  let acc3 := match lookupAssoc unstable name with
    | some v =>
      if pages.contains (mainTitle name "Latest_unstable_version") then
        match UpdateLatestUnstableVersionPages env acc2.1 v with
        | (st', some e) => (st', acc2.2 ++ ["unstable " ++ name ++ ": " ++ e])
        | (st', none) => (st', acc2.2)
      else acc2
    | none => acc2
  match lookupAssoc allByPkg name, lookupAssoc wikiVersionsMap name with
  | some known, some versions =>
    if versions.length > 0 then
      versions.foldl (fun a tag =>
        match ProcessSpecificVersionPage env a.1 name tag known with
        | (st', some e) => (st', a.2 ++ ["version " ++ name ++ "/" ++ tag ++ ": " ++ e])
        | (st', none) => (st', a.2)) acc3
    else acc3
  | _, _ => acc3

/-- Model of `SyncExistingPages`.  The iteration order of the Go name-set map
is unspecified; the model takes the name sequence as a parameter, subsuming
every possible order. -/
def SyncExistingPages (env : WikiEnv) (st : WikiSt)
    (latest stable unstable : List (String × Package))
    (allByPkg : List (String × List (String × Package)))
    (names : List String) : WikiSt × Option String :=
  match ScanVpmPages env st with
  | none => (st, some "get pages with prefix Template:VPM/")
  | some scan =>
    let r := names.foldl
      (syncPackageStep env latest stable unstable allByPkg scan.1 scan.2) (st, [])
    if r.2.length > 0 then
      (r.1, some ("sync existing pages: " ++ toString r.2.length ++ " errors"))
    else (r.1, none)

/-! ## Summary table renderer (summary.go) -/

/-- Model of the `PackageVersionSummary` row record. -/
structure PackageVersionSummary where
  name : String
  displayName : String
  latestVersion : Option Package
  latestStable : Option Package
  latestUnstable : Option Package
  wikiVersions : List String
deriving DecidableEq, Repr

/-- Insertion sort used to model Go `sort.Slice` (which is an unstable sort;
the model fixes one admissible sorted order). -/
def insertBy {α : Type} (le : α → α → Bool) (x : α) : List α → List α
  | [] => [x]
  | y :: ys => if le x y then x :: y :: ys else y :: insertBy le x ys

/-- Sorts a list with the given comparator (model of `sort.Slice`). -/
def sortBy {α : Type} (le : α → α → Bool) (l : List α) : List α :=
  l.foldr (insertBy le) []

/-- Comparator of the wiki-version sort in
`GetVersionSummaryTableWithWikiVersions`: semver order when both parse,
otherwise lexical order. -/
def wikiVersionLt (a b : String) : Bool :=
  match newVersion a, newVersion b with
  | some va, some vb => svCompare va vb < 0
  | _, _ => decide (a < b)

/-- Model of `GetVersionSummaryTableWithWikiVersions`.  Go sorts with
`sort.Slice` (unstable); the model sorts with the same comparator, realising
one admissible outcome; ties only arise between distinct strings that compare
equal. -/
def GetVersionSummaryTableWithWikiVersions
    (wikiVersionsMap : List (String × List String))
    (allVersionsMap : List (String × List Package)) : List PackageVersionSummary :=
  let maps := ComputeLatestStableUnstable allVersionsMap
  let nameSet := ((allVersionsMap.map (fun e => e.1)) ++ (wikiVersionsMap.map (fun e => e.1))).dedup
  let names := sortBy (fun a b => decide (strToLower a ≤ strToLower b)) nameSet
  names.map (fun name =>
    let vs := lookupListA allVersionsMap name
    let display := match vs with
      | v0 :: _ => if goTrim v0.displayName != "" then v0.displayName else name
      | [] => name
    { name := name
      displayName := display
      latestVersion := lookupAssoc maps.1 name
      latestStable := lookupAssoc maps.2.1 name
      latestUnstable := lookupAssoc maps.2.2 name
      wikiVersions :=
        match lookupAssoc wikiVersionsMap name with
        | none => []
        | some wikiV =>
          let known := vs.map (fun pv => pv.version)
          sortBy (fun a b => wikiVersionLt a b)
            (wikiV.filter (fun wv => known.contains wv)) })

/-- One row of the rendered summary table. -/
def summaryRow (s : PackageVersionSummary) : String :=
  "|-\n" ++
  "| " ++ sanitizeForWiki s.name ++ "\n" ++
  "| " ++ sanitizeForWiki s.displayName ++ "\n" ++
  "| style=\"white-space: nowrap;\" | \n" ++
  (match s.latestVersion with
   | some v =>
     "\n* [[Template:VPM/" ++ sanitizeForWiki s.name ++ "/Latest version|Latest version]] ([[Template:VPM/" ++
     sanitizeForWiki s.name ++ "/" ++ sanitizeForWiki v.version ++ "|" ++ sanitizeForWiki v.version ++ "]])\n"
   | none => "") ++
  (match s.latestStable with
   | some v =>
     "\n* [[Template:VPM/" ++ sanitizeForWiki s.name ++ "/Latest stable version|Latest stable version]] ([[Template:VPM/" ++
     sanitizeForWiki s.name ++ "/" ++ sanitizeForWiki v.version ++ "|" ++ sanitizeForWiki v.version ++ "]])\n"
   | none => "") ++
  (match s.latestUnstable with
   | some v =>
     "\n* [[Template:VPM/" ++ sanitizeForWiki s.name ++ "/Latest unstable version|Latest unstable version]] ([[Template:VPM/" ++
     sanitizeForWiki s.name ++ "/" ++ sanitizeForWiki v.version ++ "|" ++ sanitizeForWiki v.version ++ "]])\n"
   | none => "") ++
  String.join (s.wikiVersions.map (fun v =>
    "\n* [[Template:VPM/" ++ sanitizeForWiki s.name ++ "/" ++ sanitizeForWiki v ++ "|" ++ sanitizeForWiki v ++ "]]\n"))

/-- Model of `GenerateVersionSummaryWikiTableWithWikiVersions` (the error
result is always `nil` in the Go code, so the model is a plain string). -/
def GenerateVersionSummaryWikiTableWithWikiVersions
    (wikiVersionsMap : List (String × List String))
    (allVersionsMap : List (String × List Package)) : String :=
  let summaries := GetVersionSummaryTableWithWikiVersions wikiVersionsMap allVersionsMap
  "\x7b| class=\"wikitable sortable\"\n|-\n! Name\n! Display Name\n! Latest Version(s)\n" ++
  String.join (summaries.map summaryRow) ++ "|\x7d\n"

/-! ## Full-sync orchestration (`runFullSync` in cmd/wiki-sync/main.go) -/

/-- Outcome of `cli.ListPackagesWithResponse`: transport failure, a response
with no JSON body, or a package list. -/
inductive ListPackagesRes
  | fail
  | emptyBody
  | ok (pkgs : List Package)

/-- The per-package body of the `runFullSync` reconciliation loop (all errors
are logged and dropped). -/
def runFullSyncStep (env : WikiEnv)
    (latestMap stableMap unstableMap : List (String × Package))
    (allVersionsMap : List (String × List Package))
    (wikiVersionsMap : List (String × List String))
    (st : WikiSt) (name : String) : WikiSt :=
  let st1 := match lookupAssoc latestMap name with
    | some v => (UpdateLatestVersionPages env st v).1
    | none => st
  let st2 := match lookupAssoc stableMap name with
    | some v => (UpdateLatestStableVersionPages env st1 v).1
    | none => st1
  let st3 := match lookupAssoc unstableMap name with
    | some v => (UpdateLatestUnstableVersionPages env st2 v).1
    | none => st2
  let known := (lookupListA allVersionsMap name).foldl
    (fun m pv => putAssoc m pv.version pv) []
  match lookupAssoc wikiVersionsMap name with
  | some tags => tags.foldl
      (fun s tag => (ProcessSpecificVersionPage env s name tag known).1) st3
  | none => st3

/-- The part of `runFullSync` that runs after the package list has been
obtained, parameterised by the wiki-scan outcome (after a scan failure the
code continues with empty maps) and by the unspecified map iteration order
`names`. -/
def fullSyncBody (env : WikiEnv) (pkgs : List Package)
    (scan : List (String × List String) × List (String × List String))
    (names : List String) (st : WikiSt) : WikiSt :=
  let allVersionsMap := BuildAllVersionsMapFromAPI pkgs
  let maps := ComputeLatestStableUnstable allVersionsMap
  let st1 := names.foldl
    (runFullSyncStep env maps.1 maps.2.1 maps.2.2 allVersionsMap scan.2) st
  let table := GenerateVersionSummaryWikiTableWithWikiVersions scan.2 allVersionsMap
  (EditPage env st1 "Template:VPM/Version summary" table true).1

/-- Model of `runFullSync`: a package-list failure (or empty body) aborts the
pass; a wiki-scan failure is logged and the pass continues with empty scan
maps; the summary page is written at the end. -/
def runFullSync (lp : ListPackagesRes) (env : WikiEnv) (st : WikiSt)
    (names : List String) : WikiSt :=
  match lp with
  | .fail => st
  | .emptyBody => st
  | .ok pkgs =>
    match ScanVpmPages env st with
    | none => fullSyncBody env pkgs ([], []) names st
    | some scan => fullSyncBody env pkgs scan names st

/-! ## CSRF write retry (`withCSRFWriteRetry`, `reloginIfPossible`) -/

/-- Substring containment, modelling `strings.Contains`. -/
def containsSub (s pat : String) : Bool :=
  s.toList.tails.any (fun t => pat.toList.isPrefixOf t)

/-- Model of `isBadTokenError`: the error text contains `badtoken`
case-insensitively. -/
def isBadTokenError : Option String → Bool
  | none => false
  | some msg => containsSub (strToLower msg) "badtoken"

/-- Oracle for one `withCSRFWriteRetry` call: configuration plus the outcome
of the `k`-th CSRF-token fetch, the `k`-th invocation of the wrapped write
operation, and the `k`-th re-login attempt (`none` = success). -/
structure RetryEnv where
  offline : Bool
  username : String
  password : String
  csrfErr : Nat → Option String
  opErr : Nat → Option String
  loginErr : Nat → Option String

/-- Observable outcome of a `withCSRFWriteRetry` call: the returned error, the
number of times the wrapped operation ran, and the number of `Login` calls. -/
structure RetryResult where
  err : Option String
  attempts : Nat
  loginCalls : Nat
deriving DecidableEq, Repr

/-- Model of `reloginIfPossible`: a no-op (and no login call) when offline or
credentials are missing; otherwise one `Login` call whose failure is wrapped. -/
def reloginIfPossible (env : RetryEnv) (k : Nat) : Option String × Nat :=
  if env.offline || env.username == "" || env.password == "" then (none, 0)
  else
    match env.loginErr k with
    | none => (none, 1)
    | some e => (some ("re-login after badtoken: " ++ e), 1)

/-- The `for range maxAttempts` loop of `withCSRFWriteRetry`: fetch a CSRF
token, run the operation, return on success or on a non-auth error, otherwise
invalidate + re-login and iterate. -/
def withCSRFWriteRetryGo (env : RetryEnv) : Nat → Nat → Nat → Option String → RetryResult
  | 0, ops, logins, lastErr => ⟨lastErr, ops, logins⟩
  | r + 1, ops, logins, _ =>
    match env.csrfErr ops with
    | some e => ⟨some ("get csrf: " ++ e), ops, logins⟩
    | none =>
      match env.opErr ops with
      | none => ⟨none, ops + 1, logins⟩
      | some e =>
        if !isBadTokenError (some e) then ⟨some e, ops + 1, logins⟩
        else
          let rl := reloginIfPossible env logins
          match rl.1 with
          | some le => ⟨some le, ops + 1, logins + rl.2⟩
          | none => withCSRFWriteRetryGo env r (ops + 1) (logins + rl.2) (some e)

/-- Model of `withCSRFWriteRetry` with `maxAttempts = 2`. -/
def withCSRFWriteRetry (env : RetryEnv) : RetryResult :=
  withCSRFWriteRetryGo env 2 0 0 none

/-! ## Fixtures and claim-side predicates -/

/-- The condition under which `reloginIfPossible` actually performs a login. -/
def canRelogin (env : RetryEnv) : Bool :=
  !(env.offline || env.username == "" || env.password == "")

/-- The three gated main-page path segments. -/
def latestKinds : List String :=
  ["Latest_version", "Latest_stable_version", "Latest_unstable_version"]

/-- The metadata subpage names reconciled under a main page (including the
four author slots). -/
def metaSubNames : List String :=
  ["Description", "DisplayName", "License", "VPM",
   "Author_1", "Author_2", "Author_3", "Author_4"]

/-- All `Latest_*` main pages and `Latest_*` metadata subpages of a package:
the titles the gated engine must never create. -/
def forbiddenTitles (p : String) : List String :=
  latestKinds.map (mainTitle p) ++
  latestKinds.flatMap (fun k => metaSubNames.map (subTitle p k))

/-- The wiki holds no `Latest_*` main page and no `Latest_*` metadata subpage
for package `p`. -/
def noLatestPages (p : String) (st : WikiSt) : Prop :=
  ∀ t ∈ forbiddenTitles p, lookupAssoc st.pages t = none

/-- All metadata subpage titles written under `Template:VPM/<q>/<path>` are
outside the protected `Latest_*` title family of package `p`. -/
def safeSubWrites (q path p : String) : Prop :=
  ∀ s ∈ metaSubNames, subTitle q path s ∉ forbiddenTitles p

/-- The empty wiki. -/
def stEmpty : WikiSt := ⟨[], [], []⟩

/-- A minimal package fixture. -/
def mkPkg (n v : String) : Package := ⟨n, v, "", none, none, none, none⟩

/-- A package fixture with an author field. -/
def mkPkgA (n v a : String) : Package := ⟨n, v, "", none, none, none, some a⟩

/-- Environment in which only page listing fails. -/
def envScanFail : WikiEnv := ⟨fun _ => false, fun _ => false, fun _ => false, true⟩

/-- Environment in which every edit request fails. -/
def envAllEditsFail : WikiEnv := ⟨fun _ => false, fun _ => true, fun _ => false, false⟩

/-- Retry oracle: credentials configured, online, every write attempt fails
with a bad-token error, token fetches and logins succeed. -/
def envTwoBadTokens : RetryEnv :=
  ⟨false, "user", "pass", fun _ => none,
   fun _ => some "API error: badtoken - Invalid CSRF token.", fun _ => none⟩

/-- Retry oracle: the first write attempt fails with a bad-token error, the
second succeeds. -/
def envOneBadToken : RetryEnv :=
  ⟨false, "user", "pass", fun _ => none,
   fun k => if k = 0 then some "API error: badtoken - Invalid CSRF token." else none,
   fun _ => none⟩

/-- Wiki state produced by a sync of a three-author package record (the
`Latest_version` main page pre-exists, as the gate requires). -/
def c8Prior : WikiSt :=
  (updateVersionSubpages honestEnv ⟨[(mainTitle "Foo" "Latest_version", "1.0.0")], [], []⟩
    "Foo" "Latest_version" (mkPkgA "Foo" "1.0.0" "Alice, Bob, Carol")).1

/-- Re-sync of the same subtree after the author count shrank to one. -/
def c8After : WikiSt :=
  (updateVersionSubpages honestEnv ⟨c8Prior.pages, [], []⟩
    "Foo" "Latest_version" (mkPkgA "Foo" "2.0.0" "Alan")).1

/-- The common running-maximum pattern of the three `trioStep` branches:
parse the version (discarding failures), consider it when it satisfies `φ`,
and replace the current best only when strictly greater. -/
def updMax (φ : SemVer → Bool) (cur : Option (SemVer × Package)) (v : Package) :
    Option (SemVer × Package) :=
  match newVersion (goTrim v.version) with
  | none => cur
  | some sv =>
    if φ sv then
      match cur with
      | none => some (sv, v)
      | some (b, _) => if svGreaterThan sv b then some (sv, v) else cur
    else cur

/-- A deletion-journal entry of the only shape the engine ever produces:
an `Author_1` … `Author_4` subpage removed with the fixed cleanup reason. -/
def isAuthorSlotDeletion (e : String × String) : Prop :=
  e.2 = "Author removed from package" ∧
  ∃ q path i, 1 ≤ i ∧ i ≤ 4 ∧ e.1 = authorTitle q path i

/-- The deletion journal only grew, and only by author-slot cleanups. -/
def delExt (s s1 : WikiSt) : Prop :=
  ∃ ds, s1.delLog = s.delLog ++ ds ∧ ∀ e ∈ ds, isAuthorSlotDeletion e

/-! # Theorems

General-purpose lemmas first (association lists, strings, title grammar),
then one theorem per claim (with counterexamples and witnesses). -/

theorem lookupAssoc_cons {α : Type} (e : String × α) (m : List (String × α)) (k : String) :
    lookupAssoc (e :: m) k = if e.1 = k then some e.2 else lookupAssoc m k := by
  by_cases h : e.1 = k <;> simp [lookupAssoc, List.find?_cons, h]

theorem putAssoc_cons_ne {α : Type} (e : String × α) (m : List (String × α)) (k : String)
    (v : α) (h : e.1 ≠ k) : putAssoc (e :: m) k v = e :: putAssoc m k v := by
  have hbe : (e.1 == k) = false := by simp [h]
  by_cases hf : (m.find? (fun x => x.1 == k)).isSome <;>
    simp [putAssoc, List.find?_cons, hbe, hf, h]

theorem putAssoc_cons_eq {α : Type} (e : String × α) (m : List (String × α)) (k : String)
    (v : α) (h : e.1 = k) :
    putAssoc (e :: m) k v = (k, v) :: m.map (fun x => if x.1 == k then (k, v) else x) := by
  have hbe : (e.1 == k) = true := by simp [h]
  simp [putAssoc, List.find?_cons, hbe, h]

theorem lookupAssoc_map_ne {α : Type} (m : List (String × α)) (k k' : String) (v : α)
    (h : k' ≠ k) :
    lookupAssoc (m.map (fun x => if x.1 == k then (k, v) else x)) k' = lookupAssoc m k' := by
  induction m with
  | nil => rfl
  | cons e m ih =>
    by_cases he : e.1 = k
    · have hbe : (e.1 == k) = true := by simp [he]
      rw [List.map_cons]
      rw [if_pos hbe, lookupAssoc_cons, lookupAssoc_cons]
      simp only [he]
      rw [if_neg (by simpa using fun h' => h h'.symm), if_neg (by simpa using fun h' => h h'.symm)]
      exact ih
    · have hbe : ¬ ((e.1 == k) = true) := by simp [he]
      rw [List.map_cons]
      rw [if_neg hbe, lookupAssoc_cons, lookupAssoc_cons]
      by_cases he' : e.1 = k'
      · simp [he']
      · rw [if_neg he', if_neg he']
        exact ih

theorem lookupAssoc_putAssoc_self {α : Type} (m : List (String × α)) (k : String) (v : α) :
    lookupAssoc (putAssoc m k v) k = some v := by
  induction m with
  | nil => simp [putAssoc, lookupAssoc]
  | cons e m ih =>
    by_cases h : e.1 = k
    · rw [putAssoc_cons_eq e m k v h, lookupAssoc_cons]
      simp
    · rw [putAssoc_cons_ne e m k v h, lookupAssoc_cons, if_neg h]
      exact ih

theorem lookupAssoc_putAssoc_ne {α : Type} (m : List (String × α)) (k k' : String) (v : α)
    (h : k' ≠ k) : lookupAssoc (putAssoc m k v) k' = lookupAssoc m k' := by
  induction m with
  | nil =>
    have hk : (k == k') = false := by simp; exact fun h' => h h'.symm
    simp [putAssoc, lookupAssoc, List.find?_cons, hk]
  | cons e m ih =>
    by_cases he : e.1 = k
    · rw [putAssoc_cons_eq e m k v he, lookupAssoc_cons]
      simp only
      rw [if_neg (by simpa using fun h' => h h'.symm), lookupAssoc_cons, if_neg (he ▸ fun h' => h h'.symm)]
      exact lookupAssoc_map_ne m k k' v h
    · rw [putAssoc_cons_ne e m k v he, lookupAssoc_cons, lookupAssoc_cons]
      by_cases he' : e.1 = k'
      · simp [he']
      · rw [if_neg he', if_neg he']
        exact ih

theorem filter_ne_cons {α : Type} (e : String × α) (m : List (String × α)) (t : String) :
    (e :: m).filter (fun x => x.1 != t) =
      if e.1 = t then m.filter (fun x => x.1 != t) else e :: m.filter (fun x => x.1 != t) := by
  by_cases h : e.1 = t <;> simp [List.filter_cons, h]

theorem lookupAssoc_filter_self {α : Type} (m : List (String × α)) (t : String) :
    lookupAssoc (m.filter (fun e => e.1 != t)) t = none := by
  induction m with
  | nil => rfl
  | cons e m ih =>
    rw [filter_ne_cons]
    by_cases h : e.1 = t
    · rw [if_pos h]; exact ih
    · rw [if_neg h, lookupAssoc_cons, if_neg h]; exact ih

theorem lookupAssoc_filter_ne {α : Type} (m : List (String × α)) (t t' : String) (h : t' ≠ t) :
    lookupAssoc (m.filter (fun e => e.1 != t)) t' = lookupAssoc m t' := by
  induction m with
  | nil => rfl
  | cons e m ih =>
    rw [filter_ne_cons, lookupAssoc_cons]
    by_cases he : e.1 = t
    · rw [if_pos he, if_neg (he ▸ fun h' => h h'.symm)]
      exact ih
    · rw [if_neg he, lookupAssoc_cons]
      by_cases he' : e.1 = t'
      · rw [if_pos he', if_pos he']
      · rw [if_neg he', if_neg he']
        exact ih

theorem foldl_preserve {α β : Type} (P : α → Prop) (f : α → β → α) (l : List β) (a : α)
    (hstep : ∀ x b, P x → P (f x b)) (ha : P a) : P (l.foldl f a) := by
  induction l generalizing a with
  | nil => exact ha
  | cons b l ih => exact ih (f a b) (hstep a b ha)

theorem string_ext {a b : String} (h : a.data = b.data) : a = b := by
  cases a; cases b; exact congrArg String.mk h

theorem splitCharsAux_no_sep (sep : Char) (cs acc : List Char) (h : ∀ c ∈ cs, c ≠ sep) :
    splitCharsAux sep cs acc = [acc.reverse ++ cs] := by
  induction cs generalizing acc with
  | nil => simp [splitCharsAux]
  | cons c cs ih =>
    have hc : c ≠ sep := h c (by simp)
    rw [splitCharsAux, if_neg hc, ih (c :: acc) (fun x hx => h x (by simp [hx]))]
    simp

theorem splitCharsAux_sep_cons (sep : Char) (xs ys acc : List Char) (h : ∀ c ∈ xs, c ≠ sep) :
    splitCharsAux sep (xs ++ sep :: ys) acc = (acc.reverse ++ xs) :: splitChars sep ys := by
  induction xs generalizing acc with
  | nil => simp [splitCharsAux, splitChars]
  | cons x xs ih =>
    have hx : x ≠ sep := h x (by simp)
    rw [List.cons_append, splitCharsAux, if_neg hx,
      ih (x :: acc) (fun c hc => h c (by simp [hc]))]
    simp

theorem splitChars_no_sep (sep : Char) (cs : List Char) (h : ∀ c ∈ cs, c ≠ sep) :
    splitChars sep cs = [cs] := by
  rw [splitChars, splitCharsAux_no_sep sep cs [] h]
  simp

theorem splitChars_sep_cons (sep : Char) (xs ys : List Char) (h : ∀ c ∈ xs, c ≠ sep) :
    splitChars sep (xs ++ sep :: ys) = xs :: splitChars sep ys := by
  rw [splitChars, splitCharsAux_sep_cons sep xs ys [] h]
  simp

theorem splitCharsAux_parts_no_sep (sep : Char) (cs : List Char) :
    ∀ acc, (∀ c ∈ acc, c ≠ sep) →
      ∀ part ∈ splitCharsAux sep cs acc, ∀ c ∈ part, c ≠ sep := by
  induction cs with
  | nil =>
    intro acc hacc part hpart c hc
    simp [splitCharsAux] at hpart
    subst hpart
    exact hacc c (List.mem_reverse.mp hc)
  | cons x cs ih =>
    intro acc hacc part hpart c hc
    by_cases hx : x = sep
    · rw [splitCharsAux, if_pos hx] at hpart
      rcases List.mem_cons.mp hpart with h1 | h1
      · subst h1
        exact hacc c (List.mem_reverse.mp hc)
      · exact ih [] (by simp) part h1 c hc
    · rw [splitCharsAux, if_neg hx] at hpart
      refine ih (x :: acc) ?_ part hpart c hc
      intro y hy
      rcases List.mem_cons.mp hy with h1 | h1
      · exact h1 ▸ hx
      · exact hacc y h1

theorem splitChars_parts_no_sep (sep : Char) (cs : List Char) :
    ∀ part ∈ splitChars sep cs, ∀ c ∈ part, c ≠ sep :=
  splitCharsAux_parts_no_sep sep cs [] (by simp)

theorem dropPre_append (P R : List Char) : dropPre P (P ++ R) = some R := by
  induction P with
  | nil => rfl
  | cons p ps ih => simp [dropPre, ih]

theorem dropPre_eq_some (P : List Char) :
    ∀ L R, dropPre P L = some R → L = P ++ R := by
  induction P with
  | nil =>
    intro L R h
    simp [dropPre] at h
    simp [h]
  | cons p ps ih =>
    intro L R h
    cases L with
    | nil => simp [dropPre] at h
    | cons c cs =>
      rw [dropPre] at h
      by_cases hc : c = p
      · rw [if_pos hc] at h
        rw [List.cons_append, hc]
        exact congrArg (p :: ·) (ih cs R h)
      · rw [if_neg hc] at h
        exact absurd h (by simp)

theorem seg_cons_inj : ∀ (a b x y : List Char),
    (∀ c ∈ a, c ≠ '/') → (∀ c ∈ b, c ≠ '/') →
    a ++ '/' :: x = b ++ '/' :: y → a = b ∧ x = y := by
  intro a
  induction a with
  | nil =>
    intro b x y _ hb h
    cases b with
    | nil => simpa using h
    | cons bh bt =>
      exfalso
      rw [List.nil_append, List.cons_append] at h
      have : '/' = bh := (List.cons_eq_cons.mp h).1
      exact hb bh (by simp) this.symm
  | cons ah as_ ih =>
    intro b x y ha hb h
    cases b with
    | nil =>
      exfalso
      rw [List.nil_append, List.cons_append] at h
      have : ah = '/' := (List.cons_eq_cons.mp h).1
      exact ha ah (by simp) this
    | cons bh bt =>
      rw [List.cons_append, List.cons_append] at h
      obtain ⟨h1, h2⟩ := List.cons_eq_cons.mp h
      obtain ⟨h3, h4⟩ := ih bt x y (fun c hc => ha c (by simp [hc]))
        (fun c hc => hb c (by simp [hc])) h2
      exact ⟨by rw [h1, h3], h4⟩

theorem peel_last_seg (X Y u v : String)
    (hu : ∀ c ∈ u.data, c ≠ '/') (hv : ∀ c ∈ v.data, c ≠ '/')
    (h : X ++ "/" ++ u = Y ++ "/" ++ v) : X = Y ∧ u = v := by
  have hslash : ("/" : String).data = ['/'] := rfl
  have hd : X.data ++ '/' :: u.data = Y.data ++ '/' :: v.data := by
    have h' := congrArg String.data h
    simpa [String.data_append, hslash] using h'
  have hrev : u.data.reverse ++ '/' :: X.data.reverse =
      v.data.reverse ++ '/' :: Y.data.reverse := by
    have h' := congrArg List.reverse hd
    simpa [List.reverse_append, List.append_assoc] using h'
  obtain ⟨h1, h2⟩ := seg_cons_inj u.data.reverse v.data.reverse X.data.reverse Y.data.reverse
    (fun c hc => hu c (List.mem_reverse.mp hc))
    (fun c hc => hv c (List.mem_reverse.mp hc)) hrev
  exact ⟨string_ext (List.reverse_injective h2), string_ext (List.reverse_injective h1)⟩

theorem str_append_cancel_left (a b c : String) (h : a ++ b = a ++ c) : b = c := by
  have hd := congrArg String.data h
  simp only [String.data_append] at hd
  exact string_ext (List.append_cancel_left hd)

theorem mainTitle_inj (q p k1 k2 : String)
    (h1 : ∀ c ∈ k1.data, c ≠ '/') (h2 : ∀ c ∈ k2.data, c ≠ '/')
    (h : mainTitle q k1 = mainTitle p k2) : q = p ∧ k1 = k2 := by
  obtain ⟨hx, hk⟩ := peel_last_seg ("Template:VPM/" ++ q) ("Template:VPM/" ++ p) k1 k2 h1 h2 h
  exact ⟨str_append_cancel_left "Template:VPM/" q p hx, hk⟩

theorem subTitle_inj (q p path1 path2 s1 s2 : String)
    (hp1 : ∀ c ∈ path1.data, c ≠ '/') (hp2 : ∀ c ∈ path2.data, c ≠ '/')
    (hs1 : ∀ c ∈ s1.data, c ≠ '/') (hs2 : ∀ c ∈ s2.data, c ≠ '/')
    (h : subTitle q path1 s1 = subTitle p path2 s2) : q = p ∧ path1 = path2 ∧ s1 = s2 := by
  obtain ⟨hx, hs⟩ := peel_last_seg ("Template:VPM/" ++ q ++ "/" ++ path1)
    ("Template:VPM/" ++ p ++ "/" ++ path2) s1 s2 hs1 hs2 h
  obtain ⟨hx2, hpath⟩ := peel_last_seg ("Template:VPM/" ++ q) ("Template:VPM/" ++ p)
    path1 path2 hp1 hp2 hx
  exact ⟨str_append_cancel_left "Template:VPM/" q p hx2, hpath, hs⟩

theorem subTitle_eq_mainTitle (q p path s k : String)
    (hs : ∀ c ∈ s.data, c ≠ '/') (hk : ∀ c ∈ k.data, c ≠ '/')
    (h : subTitle q path s = mainTitle p k) : s = k := by
  obtain ⟨_, hsk⟩ := peel_last_seg ("Template:VPM/" ++ q ++ "/" ++ path)
    ("Template:VPM/" ++ p) s k hs hk h
  exact hsk

theorem mem_forbiddenTitles {p t : String} : t ∈ forbiddenTitles p ↔
    (∃ k ∈ latestKinds, mainTitle p k = t) ∨
    ∃ k ∈ latestKinds, ∃ s ∈ metaSubNames, subTitle p k s = t := by
  simp [forbiddenTitles]

theorem latestKinds_slash_free : ∀ k ∈ latestKinds, ∀ c ∈ k.data, c ≠ '/' := by decide

theorem metaSubNames_slash_free : ∀ s ∈ metaSubNames, ∀ c ∈ s.data, c ≠ '/' := by decide

theorem metaSub_ne_latest : ∀ s ∈ metaSubNames, ∀ k ∈ latestKinds, s ≠ k := by decide

theorem main_mem_forbidden (p k : String) (hk : k ∈ latestKinds) :
    mainTitle p k ∈ forbiddenTitles p :=
  mem_forbiddenTitles.mpr (Or.inl ⟨k, hk, rfl⟩)

theorem main_notin_forbidden (q p k : String) (hq : q ≠ p) (hk : k ∈ latestKinds) :
    mainTitle q k ∉ forbiddenTitles p := by
  intro hmem
  rcases mem_forbiddenTitles.mp hmem with ⟨k', hk', heq⟩ | ⟨k', hk', s', hs', heq⟩
  · obtain ⟨hqp, _⟩ := mainTitle_inj p q k' k (latestKinds_slash_free k' hk')
      (latestKinds_slash_free k hk) heq
    exact hq hqp.symm
  · have := subTitle_eq_mainTitle p q k' s' k (metaSubNames_slash_free s' hs')
      (latestKinds_slash_free k hk) heq
    exact metaSub_ne_latest s' hs' k hk this

theorem sub_notin_forbidden_of_latest (q p path s : String) (hq : q ≠ p)
    (hpath : path ∈ latestKinds) (hs : s ∈ metaSubNames) :
    subTitle q path s ∉ forbiddenTitles p := by
  intro hmem
  rcases mem_forbiddenTitles.mp hmem with ⟨k', hk', heq⟩ | ⟨k', hk', s', hs', heq⟩
  · have := subTitle_eq_mainTitle q p path s k' (metaSubNames_slash_free s hs)
      (latestKinds_slash_free k' hk') heq.symm
    exact metaSub_ne_latest s hs k' hk' this
  · obtain ⟨hqp, _, _⟩ := subTitle_inj p q k' path s' s
      (latestKinds_slash_free k' hk') (latestKinds_slash_free path hpath)
      (metaSubNames_slash_free s' hs') (metaSubNames_slash_free s hs) heq
    exact hq hqp.symm

theorem sub_notin_forbidden_of_nonlatest (q p path s : String)
    (hpathnl : path ∉ latestKinds) (hpathsf : ∀ c ∈ path.data, c ≠ '/')
    (hs : s ∈ metaSubNames) :
    subTitle q path s ∉ forbiddenTitles p := by
  intro hmem
  rcases mem_forbiddenTitles.mp hmem with ⟨k', hk', heq⟩ | ⟨k', hk', s', hs', heq⟩
  · have := subTitle_eq_mainTitle q p path s k' (metaSubNames_slash_free s hs)
      (latestKinds_slash_free k' hk') heq.symm
    exact metaSub_ne_latest s hs k' hk' this
  · obtain ⟨_, hpk, _⟩ := subTitle_inj p q k' path s' s
      (latestKinds_slash_free k' hk') hpathsf
      (metaSubNames_slash_free s' hs') (metaSubNames_slash_free s hs) heq
    exact hpathnl (hpk ▸ hk')

theorem authorSeg_mem (j : Nat) (h1 : 1 ≤ j) (h4 : j ≤ 4) :
    ("Author_" ++ toString j) ∈ metaSubNames := by
  interval_cases j <;> decide

theorem getPageContent_content_lookup (env : WikiEnv) (pages : List (String × String))
    (title c : String) (h : getPageContent env pages title = .content c) :
    lookupAssoc pages title = some c := by
  unfold getPageContent at h
  by_cases hr : env.readFails title
  · simp [hr] at h
  · simp only [hr, Bool.false_eq_true, if_false] at h
    cases hl : lookupAssoc pages title <;> rw [hl] at h <;> simp_all

theorem editPage_pages_frame (env : WikiEnv) (st : WikiSt) (title text : String) (b : Bool)
    (t' : String) (h : t' ≠ title) :
    lookupAssoc ((EditPage env st title text b).1).pages t' = lookupAssoc st.pages t' := by
  cases hr : getPageContent env st.pages title with
  | fail => simp [EditPage, hr]
  | missing =>
    by_cases he : env.editFails title
    · simp [EditPage, hr, he]
    · simp [EditPage, hr, he, lookupAssoc_putAssoc_ne st.pages title t' text h]
  | content c =>
    by_cases ht : goTrim c = goTrim text
    · simp [EditPage, hr, ht]
    · by_cases he : env.editFails title
      · simp [EditPage, hr, ht, he]
      · simp [EditPage, hr, ht, he, lookupAssoc_putAssoc_ne st.pages title t' text h]

theorem editPage_delLog (env : WikiEnv) (st : WikiSt) (title text : String) (b : Bool) :
    ((EditPage env st title text b).1).delLog = st.delLog := by
  cases hr : getPageContent env st.pages title with
  | fail => simp [EditPage, hr]
  | missing =>
    by_cases he : env.editFails title <;> simp [EditPage, hr, he]
  | content c =>
    by_cases ht : goTrim c = goTrim text
    · simp [EditPage, hr, ht]
    · by_cases he : env.editFails title <;> simp [EditPage, hr, ht, he]

theorem editPage_post (env : WikiEnv) (st : WikiSt) (title text : String) (b : Bool)
    (hr : env.readFails title = false) (he : env.editFails title = false) :
    ∃ c, lookupAssoc ((EditPage env st title text b).1).pages title = some c ∧
      goTrim c = goTrim text := by
  have hg : getPageContent env st.pages title =
      (match lookupAssoc st.pages title with
       | some c => ReadRes.content c
       | none => ReadRes.missing) := by
    unfold getPageContent
    simp [hr]
  cases hl : lookupAssoc st.pages title with
  | none =>
    rw [hl] at hg
    refine ⟨text, ?_, rfl⟩
    simp [EditPage, hg, he, lookupAssoc_putAssoc_self]
  | some c =>
    rw [hl] at hg
    by_cases ht : goTrim c = goTrim text
    · exact ⟨c, by simp [EditPage, hg, ht, hl], ht⟩
    · refine ⟨text, ?_, rfl⟩
      simp [EditPage, hg, ht, he, lookupAssoc_putAssoc_self]

theorem deletePage_absent (env : WikiEnv) (st : WikiSt) (title reason t' : String)
    (h : lookupAssoc st.pages t' = none) :
    lookupAssoc ((DeletePage env st title reason).1).pages t' = none := by
  by_cases hd : env.deleteFails title
  · simpa [DeletePage, hd] using h
  · by_cases ht : t' = title
    · simp [DeletePage, hd, ht, lookupAssoc_filter_self]
    · simpa [DeletePage, hd, lookupAssoc_filter_ne st.pages title t' ht] using h

theorem noLatest_edit (env : WikiEnv) (st : WikiSt) (t x : String) (b : Bool) (p : String)
    (hnot : t ∉ forbiddenTitles p) (h : noLatestPages p st) :
    noLatestPages p (EditPage env st t x b).1 := by
  intro t' ht'
  have hne : t' ≠ t := fun heq => hnot (heq ▸ ht')
  rw [editPage_pages_frame env st t x b t' hne]
  exact h t' ht'

theorem noLatest_delete (env : WikiEnv) (st : WikiSt) (t r : String) (p : String)
    (h : noLatestPages p st) : noLatestPages p (DeletePage env st t r).1 := by
  intro t' ht'
  exact deletePage_absent env st t r t' (h t' ht')

theorem noLatest_cleanupAuthorSlot (env : WikiEnv) (q path p : String) (st : WikiSt) (i : Nat)
    (h : noLatestPages p st) : noLatestPages p (cleanupAuthorSlot env q path st i) := by
  have hdef : cleanupAuthorSlot env q path st i =
      match getPageContent env st.pages (authorTitle q path i) with
      | .content _ => (DeletePage env st (authorTitle q path i) "Author removed from package").1
      | _ => st := rfl
  rw [hdef]
  cases hr : getPageContent env st.pages (authorTitle q path i) with
  | fail => exact h
  | missing => exact h
  | content c => exact noLatest_delete env st _ _ p h

theorem safe_of_latest (q p path : String) (hq : q ≠ p) (hpath : path ∈ latestKinds) :
    safeSubWrites q path p :=
  fun s hs => sub_notin_forbidden_of_latest q p path s hq hpath hs

theorem safe_of_nonlatest (q p path : String) (hnl : path ∉ latestKinds)
    (hsf : ∀ c ∈ path.data, c ≠ '/') : safeSubWrites q path p :=
  fun s hs => sub_notin_forbidden_of_nonlatest q p path s hnl hsf hs

theorem noLatest_writeAuthors (env : WikiEnv) (q path p : String)
    (hsafe : safeSubWrites q path p) :
    ∀ (authors : List String) (i : Nat) (st : WikiSt), i + authors.length ≤ 4 →
      noLatestPages p st → noLatestPages p (writeAuthors env q path st i authors).1 := by
  intro authors
  induction authors with
  | nil => intro i st _ h; exact h
  | cons a rest ih =>
    intro i st hbound h
    rw [writeAuthors]
    by_cases ha : a = ""
    · rw [if_pos ha]
      exact ih (i + 1) st (by simp at hbound; omega) h
    · rw [if_neg ha]
      have hmem : ("Author_" ++ toString (i + 1)) ∈ metaSubNames :=
        authorSeg_mem (i + 1) (by omega) (by simp at hbound; omega)
      have hst' : noLatestPages p (EditPage env st (authorTitle q path (i + 1))
          (sanitizeForWiki a) true).1 :=
        noLatest_edit env st _ _ true p (hsafe _ hmem) h
      cases hE : EditPage env st (authorTitle q path (i + 1)) (sanitizeForWiki a) true with
      | mk st' e =>
        rw [hE] at hst'
        cases e with
        | some err => exact hst'
        | none => exact ih (i + 1) st' (by simp at hbound; omega) hst'

theorem noLatest_updateVersionSubpages (env : WikiEnv) (st : WikiSt)
    (q path : String) (ver : Package) (p : String)
    (hsafe : safeSubWrites q path p) (h : noLatestPages p st) :
    noLatestPages p (updateVersionSubpages env st q path ver).1 := by
  rw [updateVersionSubpages]
  have h1 : noLatestPages p (EditPage env st (subTitle q path "Description")
      (sanitizeForWiki (strOpt ver.description)) true).1 :=
    noLatest_edit env st _ _ true p (hsafe "Description" (by decide)) h
  rcases hE1 : EditPage env st (subTitle q path "Description")
      (sanitizeForWiki (strOpt ver.description)) true with ⟨st1, e1⟩
  rw [hE1] at h1
  cases e1 with
  | some err => exact h1
  | none =>
    dsimp only at h1 ⊢
    have h2 : noLatestPages p (EditPage env st1 (subTitle q path "DisplayName")
        (sanitizeForWiki ver.displayName) true).1 :=
      noLatest_edit env st1 _ _ true p (hsafe "DisplayName" (by decide)) h1
    rcases hE2 : EditPage env st1 (subTitle q path "DisplayName")
        (sanitizeForWiki ver.displayName) true with ⟨st2, e2⟩
    rw [hE2] at h2
    cases e2 with
    | some err => exact h2
    | none =>
      dsimp only at h2 ⊢
      have h3 : noLatestPages p (EditPage env st2 (subTitle q path "License")
          (sanitizeForWiki (strOpt ver.license)) true).1 :=
        noLatest_edit env st2 _ _ true p (hsafe "License" (by decide)) h2
      rcases hE3 : EditPage env st2 (subTitle q path "License")
          (sanitizeForWiki (strOpt ver.license)) true with ⟨st3, e3⟩
      rw [hE3] at h3
      cases e3 with
      | some err => exact h3
      | none =>
        dsimp only at h3 ⊢
        have h4 : noLatestPages p (EditPage env st3 (subTitle q path "VPM")
            (sanitizeForWiki (firstListingURL ver.urls)) true).1 :=
          noLatest_edit env st3 _ _ true p (hsafe "VPM" (by decide)) h3
        rcases hE4 : EditPage env st3 (subTitle q path "VPM")
            (sanitizeForWiki (firstListingURL ver.urls)) true with ⟨st4, e4⟩
        rw [hE4] at h4
        cases e4 with
        | some err => exact h4
        | none =>
          dsimp only at h4 ⊢
          by_cases hAu : goTrim (strOpt ver.authorName) = ""
          · rw [if_pos hAu]
            exact foldl_preserve (noLatestPages p) _ _ st4
              (fun x b hx => noLatest_cleanupAuthorSlot env q path p x b hx) h4
          · rw [if_neg hAu]
            have h5 := noLatest_writeAuthors env q path p hsafe
              (authorsOf (strOpt ver.authorName)) 0 st4
              (by simpa [authorsOf] using List.length_take_le 4 _) h4
            rcases hW : writeAuthors env q path st4 0
                (authorsOf (strOpt ver.authorName)) with ⟨st5, e5⟩
            rw [hW] at h5
            cases e5 with
            | some err => exact h5
            | none =>
              exact foldl_preserve (noLatestPages p) _ _ st5
                (fun x b hx => noLatest_cleanupAuthorSlot env q path p x b hx) h5

theorem noLatest_UpdateLatestVersionPages (env : WikiEnv) (st : WikiSt) (v : Package)
    (p : String) (h : noLatestPages p st) :
    noLatestPages p (UpdateLatestVersionPages env st v).1 := by
  rw [UpdateLatestVersionPages]
  cases hr : getPageContent env st.pages (mainTitle v.name "Latest_version") with
  | fail => exact h
  | missing => exact h
  | content c =>
    have hlk := getPageContent_content_lookup env st.pages _ c hr
    have hnotmem : mainTitle v.name "Latest_version" ∉ forbiddenTitles p := by
      intro hmem
      rw [h _ hmem] at hlk
      exact absurd hlk (by simp)
    have hq : v.name ≠ p := by
      intro heq
      exact hnotmem (heq ▸ main_mem_forbidden p "Latest_version" (by decide))
    have h1 : noLatestPages p (EditPage env st (mainTitle v.name "Latest_version")
        (sanitizeForWiki v.version) true).1 :=
      noLatest_edit env st _ _ true p hnotmem h
    rcases hE : EditPage env st (mainTitle v.name "Latest_version")
        (sanitizeForWiki v.version) true with ⟨st1, e1⟩
    rw [hE] at h1
    cases e1 with
    | some err => exact h1
    | none =>
      dsimp only at h1 ⊢
      exact noLatest_updateVersionSubpages env st1 v.name "Latest_version" v p
        (safe_of_latest v.name p "Latest_version" hq (by decide)) h1

theorem noLatest_UpdateLatestStableVersionPages (env : WikiEnv) (st : WikiSt) (v : Package)
    (p : String) (h : noLatestPages p st) :
    noLatestPages p (UpdateLatestStableVersionPages env st v).1 := by
  rw [UpdateLatestStableVersionPages]
  cases hr : getPageContent env st.pages (mainTitle v.name "Latest_stable_version") with
  | fail => exact h
  | missing => exact h
  | content c =>
    have hlk := getPageContent_content_lookup env st.pages _ c hr
    have hnotmem : mainTitle v.name "Latest_stable_version" ∉ forbiddenTitles p := by
      intro hmem
      rw [h _ hmem] at hlk
      exact absurd hlk (by simp)
    have hq : v.name ≠ p := by
      intro heq
      exact hnotmem (heq ▸ main_mem_forbidden p "Latest_stable_version" (by decide))
    have h1 : noLatestPages p (EditPage env st (mainTitle v.name "Latest_stable_version")
        (sanitizeForWiki v.version) true).1 :=
      noLatest_edit env st _ _ true p hnotmem h
    rcases hE : EditPage env st (mainTitle v.name "Latest_stable_version")
        (sanitizeForWiki v.version) true with ⟨st1, e1⟩
    rw [hE] at h1
    cases e1 with
    | some err => exact h1
    | none =>
      dsimp only at h1 ⊢
      exact noLatest_updateVersionSubpages env st1 v.name "Latest_stable_version" v p
        (safe_of_latest v.name p "Latest_stable_version" hq (by decide)) h1

theorem noLatest_UpdateLatestUnstableVersionPages (env : WikiEnv) (st : WikiSt) (v : Package)
    (p : String) (h : noLatestPages p st) :
    noLatestPages p (UpdateLatestUnstableVersionPages env st v).1 := by
  rw [UpdateLatestUnstableVersionPages]
  cases hr : getPageContent env st.pages (mainTitle v.name "Latest_unstable_version") with
  | fail => exact h
  | missing => exact h
  | content c =>
    have hlk := getPageContent_content_lookup env st.pages _ c hr
    have hnotmem : mainTitle v.name "Latest_unstable_version" ∉ forbiddenTitles p := by
      intro hmem
      rw [h _ hmem] at hlk
      exact absurd hlk (by simp)
    have hq : v.name ≠ p := by
      intro heq
      exact hnotmem (heq ▸ main_mem_forbidden p "Latest_unstable_version" (by decide))
    have h1 : noLatestPages p (EditPage env st (mainTitle v.name "Latest_unstable_version")
        (sanitizeForWiki v.version) true).1 :=
      noLatest_edit env st _ _ true p hnotmem h
    rcases hE : EditPage env st (mainTitle v.name "Latest_unstable_version")
        (sanitizeForWiki v.version) true with ⟨st1, e1⟩
    rw [hE] at h1
    cases e1 with
    | some err => exact h1
    | none =>
      dsimp only at h1 ⊢
      exact noLatest_updateVersionSubpages env st1 v.name "Latest_unstable_version" v p
        (safe_of_latest v.name p "Latest_unstable_version" hq (by decide)) h1

theorem foldl_preserve_mem {α β : Type} (P : α → Prop) (f : α → β → α) (l : List β) (a : α)
    (hstep : ∀ x b, b ∈ l → P x → P (f x b)) (ha : P a) : P (l.foldl f a) := by
  induction l generalizing a with
  | nil => exact ha
  | cons b l ih =>
    exact ih (f a b) (fun x y hy hx => hstep x y (by simp [hy]) hx) (hstep a b (by simp) ha)

theorem appendAssoc_cons_ne {α : Type} (e : String × List α) (m : List (String × List α))
    (k : String) (v : α) (h : e.1 ≠ k) : appendAssoc (e :: m) k v = e :: appendAssoc m k v := by
  have hbe : (e.1 == k) = false := by simp [h]
  by_cases hf : (m.find? (fun x => x.1 == k)).isSome <;>
    simp [appendAssoc, List.find?_cons, hbe, hf, h]

theorem appendAssoc_cons_eq {α : Type} (e : String × List α) (m : List (String × List α))
    (k : String) (v : α) (h : e.1 = k) :
    appendAssoc (e :: m) k v =
      (e.1, e.2 ++ [v]) :: m.map (fun x => if x.1 == k then (x.1, x.2 ++ [v]) else x) := by
  have hbe : (e.1 == k) = true := by simp [h]
  simp [appendAssoc, List.find?_cons, hbe, h]

theorem lookupAssoc_appendMap_ne {α : Type} (m : List (String × List α)) (k k' : String)
    (v : α) (h : k' ≠ k) :
    lookupAssoc (m.map (fun x => if x.1 == k then (x.1, x.2 ++ [v]) else x)) k' =
      lookupAssoc m k' := by
  induction m with
  | nil => rfl
  | cons e m ih =>
    by_cases he : e.1 = k
    · have hbe : (e.1 == k) = true := by simp [he]
      rw [List.map_cons, if_pos hbe, lookupAssoc_cons, lookupAssoc_cons]
      simp only
      rw [if_neg (he ▸ fun h' => h h'.symm), if_neg (he ▸ fun h' => h h'.symm)]
      exact ih
    · have hbe : ¬ ((e.1 == k) = true) := by simp [he]
      rw [List.map_cons, if_neg hbe, lookupAssoc_cons, lookupAssoc_cons]
      by_cases he' : e.1 = k'
      · simp [he']
      · rw [if_neg he', if_neg he']
        exact ih

theorem lookupListA_eq {α : Type} (m : List (String × List α)) (k : String) :
    lookupListA m k = match lookupAssoc m k with
      | some l => l
      | none => [] := by
  unfold lookupListA lookupAssoc
  cases m.find? (fun e => e.1 == k) <;> rfl

theorem lookupAssoc_appendAssoc_self {α : Type} (m : List (String × List α)) (k : String)
    (v : α) : lookupAssoc (appendAssoc m k v) k = some (lookupListA m k ++ [v]) := by
  induction m with
  | nil => simp [appendAssoc, lookupAssoc, lookupListA]
  | cons e m ih =>
    by_cases h : e.1 = k
    · rw [appendAssoc_cons_eq e m k v h, lookupAssoc_cons]
      simp only [h, if_pos rfl]
      rw [lookupListA_eq, lookupAssoc_cons, if_pos h]
      simp
    · rw [appendAssoc_cons_ne e m k v h, lookupAssoc_cons, if_neg h, ih,
        lookupListA_eq, lookupListA_eq, lookupAssoc_cons, if_neg h]

theorem lookupAssoc_appendAssoc_ne {α : Type} (m : List (String × List α)) (k k' : String)
    (v : α) (h : k' ≠ k) : lookupAssoc (appendAssoc m k v) k' = lookupAssoc m k' := by
  induction m with
  | nil =>
    have hk : (k == k') = false := by simp; exact fun h' => h h'.symm
    simp [appendAssoc, lookupAssoc, List.find?_cons, hk]
  | cons e m ih =>
    by_cases he : e.1 = k
    · rw [appendAssoc_cons_eq e m k v he, lookupAssoc_cons]
      simp only
      rw [if_neg (he ▸ fun h' => h h'.symm), lookupAssoc_cons, if_neg (he ▸ fun h' => h h'.symm)]
      exact lookupAssoc_appendMap_ne m k k' v h
    · rw [appendAssoc_cons_ne e m k v he, lookupAssoc_cons, lookupAssoc_cons]
      by_cases he' : e.1 = k'
      · simp [he']
      · rw [if_neg he', if_neg he']
        exact ih

theorem parse_version_facts (t pkg ty tag : String)
    (hP : parseVPMPageTitle t = (pkg, ty, tag)) (hty : ty = "version") :
    (∀ c ∈ tag.data, c ≠ '/') ∧ tag ∉ latestKinds := by
  subst hty
  unfold parseVPMPageTitle at hP
  cases hdp : dropPre "Template:VPM/".toList t.toList with
  | none =>
    rw [hdp] at hP
    dsimp only at hP
    exact absurd (show ("" : String) = "version" from congrArg (fun x => x.2.1) hP) (by decide)
  | some rem =>
    rw [hdp] at hP
    dsimp only at hP
    cases hsp : (splitChars '/' rem).map String.mk with
    | nil =>
      rw [hsp] at hP
      dsimp only at hP
      exact absurd (show ("" : String) = "version" from congrArg (fun x => x.2.1) hP) (by decide)
    | cons p0 tail =>
      cases tail with
      | nil =>
        rw [hsp] at hP
        dsimp only at hP
        exact absurd (show ("" : String) = "version" from congrArg (fun x => x.2.1) hP) (by decide)
      | cons p1 rest =>
        rw [hsp] at hP
        dsimp only at hP
        by_cases h1 : normalizeSeg p1 = "Latest version"
        · rw [if_pos h1] at hP
          cases rest with
          | nil =>
            dsimp only at hP
            exact absurd (show ("latest_version" : String) = "version" from
              congrArg (fun x => x.2.1) hP) (by decide)
          | cons r0 rr =>
            dsimp only at hP
            exact absurd (show ("latest_version_subpage" : String) = "version" from
              congrArg (fun x => x.2.1) hP) (by decide)
        · rw [if_neg h1] at hP
          by_cases h2 : normalizeSeg p1 = "Latest stable version"
          · rw [if_pos h2] at hP
            cases rest with
            | nil =>
              dsimp only at hP
              exact absurd (show ("latest_stable_version" : String) = "version" from
                congrArg (fun x => x.2.1) hP) (by decide)
            | cons r0 rr =>
              dsimp only at hP
              exact absurd (show ("latest_stable_version_subpage" : String) = "version" from
                congrArg (fun x => x.2.1) hP) (by decide)
          · rw [if_neg h2] at hP
            by_cases h3 : normalizeSeg p1 = "Latest unstable version"
            · rw [if_pos h3] at hP
              cases rest with
              | nil =>
                dsimp only at hP
                exact absurd (show ("latest_unstable_version" : String) = "version" from
                  congrArg (fun x => x.2.1) hP) (by decide)
              | cons r0 rr =>
                dsimp only at hP
                exact absurd (show ("latest_unstable_version_subpage" : String) = "version" from
                  congrArg (fun x => x.2.1) hP) (by decide)
            · rw [if_neg h3] at hP
              cases rest with
              | cons r0 rr =>
                dsimp only at hP
                exact absurd (show ("version_subpage" : String) = "version" from
                  congrArg (fun x => x.2.1) hP) (by decide)
              | nil =>
                dsimp only at hP
                have htag : p1 = tag := congrArg (fun x => x.2.2) hP
                have hmem : p1 ∈ (splitChars '/' rem).map String.mk := by
                  rw [hsp]; simp
                obtain ⟨part, hpart, heq⟩ := List.mem_map.mp hmem
                have hdata : tag.data = part := by
                  rw [← htag]
                  have := congrArg String.data heq
                  simpa using this.symm
                refine ⟨?_, ?_⟩
                · intro c hc
                  rw [hdata] at hc
                  exact splitChars_parts_no_sep '/' rem part hpart c hc
                · intro hmemL
                  rw [← htag] at hmemL
                  simp only [latestKinds, List.mem_cons, List.not_mem_nil, or_false] at hmemL
                  rcases hmemL with h | h | h
                  · rw [h] at h1; exact h1 (by decide)
                  · rw [h] at h2; exact h2 (by decide)
                  · rw [h] at h3; exact h3 (by decide)

theorem scan_wv_inv (env : WikiEnv) (st : WikiSt)
    (pp wv : List (String × List String))
    (h : ScanVpmPages env st = some (pp, wv)) :
    ∀ name tags, lookupAssoc wv name = some tags →
      ∀ tag ∈ tags, (∀ c ∈ tag.data, c ≠ '/') ∧ tag ∉ latestKinds := by
  unfold ScanVpmPages at h
  cases hga : getAllPages env st.pages "Template:VPM/" with
  | none => rw [hga] at h; exact absurd h (by simp)
  | some pages =>
    rw [hga] at h
    have hfold : pages.foldl scanStep ([], []) = (pp, wv) := by simpa using h
    have hP := foldl_preserve
      (fun acc : List (String × List String) × List (String × List String) =>
        ∀ name tags, lookupAssoc acc.2 name = some tags →
          ∀ tag ∈ tags, (∀ c ∈ tag.data, c ≠ '/') ∧ tag ∉ latestKinds)
      scanStep pages ([], [])
      (fun acc pTitle hacc => by
        rcases hPt : parseVPMPageTitle pTitle with ⟨pkg, rest2⟩
        rcases rest2 with ⟨ty, tag⟩
        simp only [scanStep, hPt]
        by_cases hpkg : pkg = ""
        · simpa [hpkg] using hacc
        · rw [if_neg hpkg]
          by_cases hcond : (ty = "version" && goTrim tag != "" &&
              !((lookupListA acc.2 pkg).contains tag)) = true
          · rw [if_pos hcond]
            have hty : ty = "version" := by
              simp only [Bool.and_eq_true, decide_eq_true_eq] at hcond
              exact hcond.1.1
            have htagp := parse_version_facts pTitle pkg ty tag hPt hty
            intro name tags hlk tag' htag'
            by_cases hname : name = pkg
            · subst hname
              rw [lookupAssoc_appendAssoc_self] at hlk
              have htags : tags = lookupListA acc.2 name ++ [tag] := by
                simpa using hlk.symm
              subst htags
              rcases List.mem_append.mp htag' with hold | hnew
              · rw [lookupListA_eq] at hold
                cases hlk2 : lookupAssoc acc.2 name with
                | none => rw [hlk2] at hold; simp at hold
                | some l =>
                  rw [hlk2] at hold
                  exact hacc name l hlk2 tag' hold
              · have : tag' = tag := by simpa using hnew
                exact this ▸ htagp
            · rw [lookupAssoc_appendAssoc_ne acc.2 pkg name tag hname] at hlk
              exact hacc name tags hlk tag' htag'
          · rw [if_neg hcond]
            exact hacc)
      (fun name tags hlk => by simp [lookupAssoc] at hlk)
    rw [hfold] at hP
    exact hP

theorem noLatest_Process (env : WikiEnv) (st : WikiSt) (pkgName tag : String)
    (known : List (String × Package)) (p : String)
    (hsf : ∀ c ∈ tag.data, c ≠ '/') (hnl : tag ∉ latestKinds)
    (h : noLatestPages p st) :
    noLatestPages p (ProcessSpecificVersionPage env st pkgName tag known).1 := by
  rw [ProcessSpecificVersionPage]
  cases hr : getPageContent env st.pages (mainTitle pkgName tag) with
  | fail => exact h
  | missing => exact h
  | content c =>
    dsimp only
    cases hp : strictNewVersion (goTrim c) with
    | none => exact h
    | some v =>
      dsimp only
      cases hk : lookupAssoc known (svString v) with
      | none => exact h
      | some pkgVersion =>
        dsimp only
        exact noLatest_updateVersionSubpages env st pkgName tag pkgVersion p
          (safe_of_nonlatest pkgName p tag hnl hsf) h

theorem noLatest_syncPackageStep (env : WikiEnv)
    (latestM stableM unstableM : List (String × Package))
    (allByPkg : List (String × List (String × Package)))
    (pp wv : List (String × List String))
    (hwv : ∀ name tags, lookupAssoc wv name = some tags →
      ∀ tag ∈ tags, (∀ c ∈ tag.data, c ≠ '/') ∧ tag ∉ latestKinds)
    (p : String) (acc : WikiSt × List String) (hacc : noLatestPages p acc.1)
    (name : String) :
    noLatestPages p (syncPackageStep env latestM stableM unstableM allByPkg pp wv acc name).1 := by
  rw [syncPackageStep]
  have step1 : ∀ a : WikiSt × List String, noLatestPages p a.1 →
      noLatestPages p (match lookupAssoc latestM name with
        | some v =>
          if (lookupListA pp name).contains (mainTitle name "Latest_version") then
            match UpdateLatestVersionPages env a.1 v with
            | (st', some e) => (st', a.2 ++ ["latest " ++ name ++ ": " ++ e])
            | (st', none) => (st', a.2)
          else a
        | none => a).1 := by
    intro a ha
    cases lookupAssoc latestM name with
    | none => exact ha
    | some v =>
      dsimp only
      by_cases hc : (lookupListA pp name).contains (mainTitle name "Latest_version")
      · rw [if_pos hc]
        have := noLatest_UpdateLatestVersionPages env a.1 v p ha
        rcases hU : UpdateLatestVersionPages env a.1 v with ⟨st', e⟩
        rw [hU] at this
        cases e with
        | some err => exact this
        | none => exact this
      · rw [if_neg hc]; exact ha
  have step2 : ∀ a : WikiSt × List String, noLatestPages p a.1 →
      noLatestPages p (match lookupAssoc stableM name with
        | some v =>
          if (lookupListA pp name).contains (mainTitle name "Latest_stable_version") then
            match UpdateLatestStableVersionPages env a.1 v with
            | (st', some e) => (st', a.2 ++ ["stable " ++ name ++ ": " ++ e])
            | (st', none) => (st', a.2)
          else a
        | none => a).1 := by
    intro a ha
    cases lookupAssoc stableM name with
    | none => exact ha
    | some v =>
      dsimp only
      by_cases hc : (lookupListA pp name).contains (mainTitle name "Latest_stable_version")
      · rw [if_pos hc]
        have := noLatest_UpdateLatestStableVersionPages env a.1 v p ha
        rcases hU : UpdateLatestStableVersionPages env a.1 v with ⟨st', e⟩
        rw [hU] at this
        cases e with
        | some err => exact this
        | none => exact this
      · rw [if_neg hc]; exact ha
  have step3 : ∀ a : WikiSt × List String, noLatestPages p a.1 →
      noLatestPages p (match lookupAssoc unstableM name with
        | some v =>
          if (lookupListA pp name).contains (mainTitle name "Latest_unstable_version") then
            match UpdateLatestUnstableVersionPages env a.1 v with
            | (st', some e) => (st', a.2 ++ ["unstable " ++ name ++ ": " ++ e])
            | (st', none) => (st', a.2)
          else a
        | none => a).1 := by
    intro a ha
    cases lookupAssoc unstableM name with
    | none => exact ha
    | some v =>
      dsimp only
      by_cases hc : (lookupListA pp name).contains (mainTitle name "Latest_unstable_version")
      · rw [if_pos hc]
        have := noLatest_UpdateLatestUnstableVersionPages env a.1 v p ha
        rcases hU : UpdateLatestUnstableVersionPages env a.1 v with ⟨st', e⟩
        rw [hU] at this
        cases e with
        | some err => exact this
        | none => exact this
      · rw [if_neg hc]; exact ha
  have h3 := step3 _ (step2 _ (step1 acc hacc))
  cases hkn : lookupAssoc allByPkg name with
  | none => exact h3
  | some known =>
    cases hver : lookupAssoc wv name with
    | none => exact h3
    | some versions =>
      dsimp only
      by_cases hlen : versions.length > 0
      · rw [if_pos hlen]
        refine foldl_preserve_mem (fun a : WikiSt × List String => noLatestPages p a.1)
          _ versions _ ?_ h3
        intro x tg htg hx
        obtain ⟨hsf, hnl⟩ := hwv name versions hver tg htg
        have := noLatest_Process env x.1 name tg known p hsf hnl hx
        rcases hPr : ProcessSpecificVersionPage env x.1 name tg known with ⟨st', e⟩
        rw [hPr] at this
        cases e with
        | some err => exact this
        | none => exact this
      · rw [if_neg hlen]; exact h3

theorem noLatest_SyncExistingPages (env : WikiEnv) (st : WikiSt)
    (latestM stableM unstableM : List (String × Package))
    (allByPkg : List (String × List (String × Package)))
    (names : List String) (p : String) (h : noLatestPages p st) :
    noLatestPages p (SyncExistingPages env st latestM stableM unstableM allByPkg names).1 := by
  rw [SyncExistingPages]
  cases hscan : ScanVpmPages env st with
  | none => exact h
  | some scan =>
    dsimp only
    have hwv := scan_wv_inv env st scan.1 scan.2 (by rw [hscan])
    have hfold : noLatestPages p
        ((names.foldl (syncPackageStep env latestM stableM unstableM allByPkg scan.1 scan.2)
          (st, [])).1) := by
      refine foldl_preserve (fun a : WikiSt × List String => noLatestPages p a.1)
        _ names (st, []) ?_ h
      intro x nm hx
      exact noLatest_syncPackageStep env latestM stableM unstableM allByPkg scan.1 scan.2
        hwv p x hx nm
    by_cases hl : (names.foldl (syncPackageStep env latestM stableM unstableM allByPkg
        scan.1 scan.2) (st, [])).2.length > 0
    · rw [if_pos hl]; exact hfold
    · rw [if_neg hl]; exact hfold

/-- Claim C1 (counterexample): starting from an empty wiki (which has no
`Latest_*` main page for package `Foo`), the exported entry point
`UpdateSinglePackage` — included in the claim's quantification — creates the
`Template:VPM/Foo/Latest_version` main page (and its subpages) from nothing,
so the post-state does contain `Latest_*` pages for `Foo`. -/
theorem C1_counterexample :
    noLatestPages "Foo" stEmpty ∧
    lookupAssoc (UpdateSinglePackage honestEnv stEmpty (mkPkg "Foo" "1.2.3")).1.pages
      (mainTitle "Foo" "Latest_version") = some "1.2.3" ∧
    ¬ noLatestPages "Foo" (UpdateSinglePackage honestEnv stEmpty (mkPkg "Foo" "1.2.3")).1 := by
  refine ⟨by unfold noLatestPages; decide, by decide, by unfold noLatestPages; decide⟩

/-- Claim C1 (amended): for every failure oracle and every wiki state holding
no `Latest_*` main page and no `Latest_*` metadata subpage for a package, the
gated entry points `UpdateLatestVersionPages`, `UpdateLatestStableVersionPages`,
`UpdateLatestUnstableVersionPages` and `SyncExistingPages` leave the post-state
without any such page — they never originate a `Latest_*` page from nothing.
`UpdateSinglePackage` is excluded: by design it creates the missing
`Latest_version` subtree unconditionally. -/
theorem C1_amended :
    (∀ (env : WikiEnv) (st : WikiSt) (v : Package) (p : String),
      noLatestPages p st → noLatestPages p (UpdateLatestVersionPages env st v).1) ∧
    (∀ (env : WikiEnv) (st : WikiSt) (v : Package) (p : String),
      noLatestPages p st → noLatestPages p (UpdateLatestStableVersionPages env st v).1) ∧
    (∀ (env : WikiEnv) (st : WikiSt) (v : Package) (p : String),
      noLatestPages p st → noLatestPages p (UpdateLatestUnstableVersionPages env st v).1) ∧
    (∀ (env : WikiEnv) (st : WikiSt)
      (latestM stableM unstableM : List (String × Package))
      (allByPkg : List (String × List (String × Package)))
      (names : List String) (p : String),
      noLatestPages p st →
      noLatestPages p (SyncExistingPages env st latestM stableM unstableM allByPkg names).1) :=
  ⟨noLatest_UpdateLatestVersionPages, noLatest_UpdateLatestStableVersionPages,
   noLatest_UpdateLatestUnstableVersionPages, noLatest_SyncExistingPages⟩

/-- Witness for C1 (amended) at concrete inputs: an update for package `Bar`
and a full existing-page sync leave the empty wiki without `Latest_*` pages
for `Foo`. -/
theorem C1_amended_witness :
    noLatestPages "Foo" (UpdateLatestVersionPages honestEnv stEmpty (mkPkg "Bar" "1.0.0")).1 ∧
    noLatestPages "Foo" (SyncExistingPages honestEnv stEmpty [] [] [] [] ["Foo"]).1 :=
  ⟨C1_amended.1 honestEnv stEmpty (mkPkg "Bar" "1.0.0") "Foo"
    (by unfold noLatestPages; decide),
   C1_amended.2.2.2 honestEnv stEmpty [] [] [] [] ["Foo"] "Foo"
    (by unfold noLatestPages; decide)⟩

/-- Claim C7: when the corresponding `Latest_*` main page does not exist (the
existence check succeeds and reports absence), each gated update function
leaves the state completely unchanged and returns success (`none`). -/
theorem C7_gated_noop :
    ∀ (env : WikiEnv) (st : WikiSt) (v : Package),
      (getPageContent env st.pages (mainTitle v.name "Latest_version") = .missing →
        UpdateLatestVersionPages env st v = (st, none)) ∧
      (getPageContent env st.pages (mainTitle v.name "Latest_stable_version") = .missing →
        UpdateLatestStableVersionPages env st v = (st, none)) ∧
      (getPageContent env st.pages (mainTitle v.name "Latest_unstable_version") = .missing →
        UpdateLatestUnstableVersionPages env st v = (st, none)) := by
  intro env st v
  refine ⟨fun h => ?_, fun h => ?_, fun h => ?_⟩
  · rw [UpdateLatestVersionPages, h]
  · rw [UpdateLatestStableVersionPages, h]
  · rw [UpdateLatestUnstableVersionPages, h]

/-- Witness for C7 at a concrete input: on the empty wiki, updating package
`Foo` is a successful no-op for all three kinds. -/
theorem C7_gated_noop_witness :
    UpdateLatestVersionPages honestEnv stEmpty (mkPkg "Foo" "1.2.3") = (stEmpty, none) ∧
    UpdateLatestStableVersionPages honestEnv stEmpty (mkPkg "Foo" "1.2.3") = (stEmpty, none) ∧
    UpdateLatestUnstableVersionPages honestEnv stEmpty (mkPkg "Foo" "1.2.3") = (stEmpty, none) :=
  ⟨(C7_gated_noop honestEnv stEmpty (mkPkg "Foo" "1.2.3")).1 (by decide),
   (C7_gated_noop honestEnv stEmpty (mkPkg "Foo" "1.2.3")).2.1 (by decide),
   (C7_gated_noop honestEnv stEmpty (mkPkg "Foo" "1.2.3")).2.2 (by decide)⟩

/-- Claim C9 (counterexample): the sixth consecutive SSE failure sleeps for 32
seconds, exceeding the claimed 30-second cap. -/
theorem C9_counterexample : backoffSeq 5 = 32 ∧ 30 < backoffSeq 5 := by decide

/-- Claim C9 (amended): the reconnect backoff starts at 1 second and doubles
after each consecutive failure while it is still below 30 seconds, so the
sleeps are `min (2^k) 32`: they plateau at 32 seconds (not 30) and never
exceed 32 seconds. -/
theorem C9_amended :
    backoffSeq 0 = 1 ∧
    (∀ k, backoffSeq k < 30 → backoffSeq (k + 1) = 2 * backoffSeq k) ∧
    (∀ k, 30 ≤ backoffSeq k → backoffSeq (k + 1) = backoffSeq k) ∧
    (∀ k, backoffSeq k = min (2 ^ k) 32) ∧
    (∀ k, backoffSeq k ≤ 32) := by
  have key : ∀ k, backoffSeq k = min (2 ^ k) 32 := by
    intro k
    induction k with
    | zero => rfl
    | succ k ih =>
      show (if backoffSeq k < 30 then 2 * backoffSeq k else backoffSeq k) = _
      rw [ih]
      rcases le_or_lt k 4 with h | h
      · have h16 : 2 ^ k ≤ 16 := by
          calc 2 ^ k ≤ 2 ^ 4 := Nat.pow_le_pow_right (by norm_num) h
            _ = 16 := rfl
        have hmin : min (2 ^ k) 32 = 2 ^ k := by omega
        rw [hmin, if_pos (by omega)]
        have hp : 2 ^ (k + 1) = 2 * 2 ^ k := by ring
        omega
      · have h32 : 32 ≤ 2 ^ k := by
          calc (32 : Nat) = 2 ^ 5 := rfl
            _ ≤ 2 ^ k := Nat.pow_le_pow_right (by norm_num) (by omega)
        have h64 : 32 ≤ 2 ^ (k + 1) :=
          le_trans h32 (Nat.pow_le_pow_right (by norm_num) (by omega))
        have hmin : min (2 ^ k) 32 = 32 := by omega
        rw [hmin, if_neg (by omega)]
        omega
  refine ⟨rfl, ?_, ?_, key, ?_⟩
  · intro k h
    show (if backoffSeq k < 30 then 2 * backoffSeq k else backoffSeq k) = _
    rw [if_pos h]
  · intro k h
    show (if backoffSeq k < 30 then 2 * backoffSeq k else backoffSeq k) = _
    rw [if_neg (by omega)]
  · intro k
    rw [key k]
    omega

/-- Witness for C9 (amended) at concrete inputs. -/
theorem C9_amended_witness :
    backoffSeq 1 = 2 * backoffSeq 0 ∧ backoffSeq 6 = backoffSeq 5 ∧ backoffSeq 7 ≤ 32 :=
  ⟨C9_amended.2.1 0 (by decide), C9_amended.2.2.1 5 (by decide), C9_amended.2.2.2.2 7⟩

theorem getPageContent_missing_elim (env : WikiEnv) (pages : List (String × String))
    (t : String) (h : getPageContent env pages t = .missing) :
    env.readFails t = false ∧ lookupAssoc pages t = none := by
  unfold getPageContent at h
  by_cases hrf : env.readFails t
  · simp [hrf] at h
  · refine ⟨by simp [hrf], ?_⟩
    simp only [hrf, Bool.false_eq_true, if_false] at h
    cases hl : lookupAssoc pages t <;> rw [hl] at h <;> simp_all

theorem getPageContent_content_elim (env : WikiEnv) (pages : List (String × String))
    (t c : String) (h : getPageContent env pages t = .content c) :
    env.readFails t = false := by
  unfold getPageContent at h
  by_cases hrf : env.readFails t
  · simp [hrf] at h
  · simp [hrf]

theorem editPage_log_le (env : WikiEnv) (st : WikiSt) (t x : String) (b : Bool) :
    ((EditPage env st t x b).1).editLog.length ≤ st.editLog.length + 1 := by
  cases hr : getPageContent env st.pages t with
  | fail => simp [EditPage, hr]
  | missing =>
    by_cases he : env.editFails t <;> simp [EditPage, hr, he]
  | content c =>
    by_cases ht : goTrim c = goTrim x
    · simp [EditPage, hr, ht]
    · by_cases he : env.editFails t <;> simp [EditPage, hr, ht, he]

/-- Claim C3: if the page exists, its read succeeds, and the stored content
equals the new text after trimming, `EditPage` performs no state change and
returns success; consequently two successive `EditPage` calls with the same
text perform at most one successful write in total (under any failure
oracle). -/
theorem C3_editPage_idempotent :
    (∀ (env : WikiEnv) (st : WikiSt) (title text : String) (b : Bool) (c : String),
      env.readFails title = false →
      lookupAssoc st.pages title = some c →
      goTrim c = goTrim text →
      EditPage env st title text b = (st, none)) ∧
    (∀ (env : WikiEnv) (st : WikiSt) (title text : String) (b1 b2 : Bool),
      ((EditPage env (EditPage env st title text b1).1 title text b2).1).editLog.length ≤
        st.editLog.length + 1) := by
  constructor
  · intro env st title text b c hrf hlk ht
    have hg : getPageContent env st.pages title = .content c := by
      unfold getPageContent
      simp [hrf, hlk]
    unfold EditPage
    rw [hg]
    dsimp only
    rw [if_pos ht]
  · intro env st title text b1 b2
    cases hr : getPageContent env st.pages title with
    | fail =>
      have h1 : EditPage env st title text b1 = (st, some ("get current content for page " ++ title)) := by
        unfold EditPage; rw [hr]
      rw [h1]
      exact editPage_log_le env st title text b2
    | missing =>
      obtain ⟨hrf, hlk⟩ := getPageContent_missing_elim env st.pages title hr
      by_cases he : env.editFails title
      · have h1 : EditPage env st title text b1 = (st, some ("edit request failed: " ++ title)) := by
          unfold EditPage; rw [hr]; dsimp only; rw [if_pos he]
        rw [h1]
        exact editPage_log_le env st title text b2
      · have h1 : EditPage env st title text b1 =
            ({ st with pages := putAssoc st.pages title text,
                       editLog := st.editLog ++ [(title, text)] }, none) := by
          unfold EditPage; rw [hr]; dsimp only
          rw [if_neg he]
        rw [h1]
        dsimp only
        have hg2 : getPageContent env (putAssoc st.pages title text) title = .content text := by
          unfold getPageContent
          simp [hrf, lookupAssoc_putAssoc_self]
        have h2 : EditPage env ⟨putAssoc st.pages title text,
            st.editLog ++ [(title, text)], st.delLog⟩ title text b2 =
            (⟨putAssoc st.pages title text, st.editLog ++ [(title, text)], st.delLog⟩, none) := by
          unfold EditPage
          rw [show (WikiSt.mk (putAssoc st.pages title text)
            (st.editLog ++ [(title, text)]) st.delLog).pages = putAssoc st.pages title text from rfl]
          rw [hg2]
          dsimp only
          rw [if_pos rfl]
        rw [h2]
        simp
    | content c =>
      have hrf := getPageContent_content_elim env st.pages title c hr
      by_cases ht : goTrim c = goTrim text
      · have h1 : EditPage env st title text b1 = (st, none) := by
          unfold EditPage; rw [hr]; dsimp only; rw [if_pos ht]
        rw [h1]
        exact editPage_log_le env st title text b2
      · by_cases he : env.editFails title
        · have h1 : EditPage env st title text b1 = (st, some ("edit request failed: " ++ title)) := by
            unfold EditPage; rw [hr]; dsimp only; rw [if_neg ht, if_pos he]
          rw [h1]
          exact editPage_log_le env st title text b2
        · have h1 : EditPage env st title text b1 =
              ({ st with pages := putAssoc st.pages title text,
                         editLog := st.editLog ++ [(title, text)] }, none) := by
            unfold EditPage; rw [hr]; dsimp only; rw [if_neg ht, if_neg he]
          rw [h1]
          dsimp only
          have hg2 : getPageContent env (putAssoc st.pages title text) title = .content text := by
            unfold getPageContent
            simp [hrf, lookupAssoc_putAssoc_self]
          have h2 : EditPage env ⟨putAssoc st.pages title text,
              st.editLog ++ [(title, text)], st.delLog⟩ title text b2 =
              (⟨putAssoc st.pages title text, st.editLog ++ [(title, text)], st.delLog⟩, none) := by
            unfold EditPage
            rw [show (WikiSt.mk (putAssoc st.pages title text)
              (st.editLog ++ [(title, text)]) st.delLog).pages = putAssoc st.pages title text from rfl]
            rw [hg2]
            dsimp only
            rw [if_pos rfl]
          rw [h2]
          simp

/-- Witness for C3 at a concrete input: editing a page whose stored content
`" x "` trim-equals the new text `"x"` is a successful no-op, and editing the
same (initially missing) page twice writes it exactly once. -/
theorem C3_editPage_idempotent_witness :
    EditPage honestEnv ⟨[("T", " x ")], [], []⟩ "T" "x" true = (⟨[("T", " x ")], [], []⟩, none) ∧
    ((EditPage honestEnv (EditPage honestEnv stEmpty "T" "x" true).1 "T" "x" true).1).editLog.length ≤
      stEmpty.editLog.length + 1 :=
  ⟨C3_editPage_idempotent.1 honestEnv ⟨[("T", " x ")], [], []⟩ "T" "x" true " x " rfl
    (by decide) (by decide),
   C3_editPage_idempotent.2 honestEnv stEmpty "T" "x" true true⟩

theorem singleStep_id_of_editFail (env : WikiEnv) (hedit : ∀ t, env.editFails t = true)
    (acc : WikiSt × Nat) (e : String × String) : singleStep env acc e = acc := by
  rw [singleStep]
  cases hr : getPageContent env acc.1.pages e.1 with
  | fail =>
    dsimp only
    by_cases hne : (goTrim "" != goTrim e.2) = true
    · rw [if_pos hne]
      have hE : EditPage env acc.1 e.1 e.2 true =
          (acc.1, some ("get current content for page " ++ e.1)) := by
        unfold EditPage; rw [hr]
      rw [hE]
    · rw [if_neg hne]
  | missing =>
    dsimp only
    by_cases hne : (goTrim "" != goTrim e.2) = true
    · rw [if_pos hne]
      have hE : EditPage env acc.1 e.1 e.2 true =
          (acc.1, some ("edit request failed: " ++ e.1)) := by
        unfold EditPage; rw [hr]; dsimp only; rw [if_pos (hedit e.1)]
      rw [hE]
    · rw [if_neg hne]
  | content c =>
    dsimp only
    by_cases hne : (goTrim c != goTrim e.2) = true
    · rw [if_pos hne]
      have hteq : ¬ (goTrim c = goTrim e.2) := by simpa using hne
      have hE : EditPage env acc.1 e.1 e.2 true =
          (acc.1, some ("edit request failed: " ++ e.1)) := by
        unfold EditPage; rw [hr]; dsimp only; rw [if_neg hteq, if_pos (hedit e.1)]
      rw [hE]
    · rw [if_neg hne]

/-- Claim C10: `UpdateSinglePackage` returns `nil` for every oracle, state and
package (its error component is always `none`); moreover, when every edit
request fails, the call leaves the wiki state untouched and reports an updated
count of zero — a caller can never observe a per-page write failure through
the return value. -/
theorem C10_update_single_never_fails :
    (∀ (env : WikiEnv) (st : WikiSt) (pkg : Package),
      (UpdateSinglePackage env st pkg).2.2 = none) ∧
    (∀ (env : WikiEnv) (st : WikiSt) (pkg : Package),
      (∀ t, env.editFails t = true) →
      UpdateSinglePackage env st pkg = (st, 0, none)) := by
  constructor
  · intro env st pkg
    rfl
  · intro env st pkg hedit
    have hfold : (pagesToUpdate pkg).foldl (singleStep env) (st, 0) = (st, 0) := by
      have := foldl_preserve (fun acc : WikiSt × Nat => acc = (st, 0)) (singleStep env)
        (pagesToUpdate pkg) (st, 0)
        (fun x b hx => by rw [singleStep_id_of_editFail env hedit x b, hx]) rfl
      exact this
    rw [UpdateSinglePackage, hfold]

/-- Witness for C10 at a concrete input: with every edit failing, syncing a
package against the empty wiki changes nothing, counts zero updates, and still
returns success. -/
theorem C10_update_single_never_fails_witness :
    UpdateSinglePackage envAllEditsFail stEmpty (mkPkgA "Foo" "1.2.3" "A, B") =
      (stEmpty, 0, none) :=
  C10_update_single_never_fails.2 envAllEditsFail stEmpty (mkPkgA "Foo" "1.2.3" "A, B")
    (fun _ => rfl)

theorem mk_data (s : String) : String.mk s.data = s := by cases s; rfl

theorem dropPre_none_of_not_pref (P L : List Char) (h : ¬ P <+: L) : dropPre P L = none := by
  cases hd : dropPre P L with
  | none => rfl
  | some R => exact absurd ⟨R, (dropPre_eq_some P L R hd).symm⟩ h

theorem title2_toList (pkg seg : String) :
    ("Template:VPM/" ++ pkg ++ "/" ++ seg).toList =
      "Template:VPM/".toList ++ (pkg.toList ++ '/' :: seg.toList) := by
  show ("Template:VPM/" ++ pkg ++ "/" ++ seg).data =
    "Template:VPM/".data ++ (pkg.data ++ '/' :: seg.data)
  simp [String.data_append, show ("/" : String).data = ['/'] from rfl]

theorem title3_toList (pkg seg sub : String) :
    ("Template:VPM/" ++ pkg ++ "/" ++ seg ++ "/" ++ sub).toList =
      "Template:VPM/".toList ++ (pkg.toList ++ '/' :: (seg.toList ++ '/' :: sub.toList)) := by
  show ("Template:VPM/" ++ pkg ++ "/" ++ seg ++ "/" ++ sub).data =
    "Template:VPM/".data ++ (pkg.data ++ '/' :: (seg.data ++ '/' :: sub.data))
  simp [String.data_append, show ("/" : String).data = ['/'] from rfl]

/-- Claim C6 (counterexample): the second-segment match is case-sensitive, not
case-insensitive — `Latest_Version` (capital V) is classified as a literal
version tag, not as `latest_version`. -/
theorem C6_counterexample :
    parseVPMPageTitle "Template:VPM/Foo/Latest_Version" = ("Foo", "version", "Latest_Version") ∧
    parseVPMPageTitle "Template:VPM/Foo/Latest_Version" ≠ ("Foo", "latest_version", "") := by
  exact ⟨by decide, by decide⟩

/-- Claim C6 (amended): title parsing strips the `Template:VPM/` prefix,
splits on `/`, replaces underscores in the second segment by spaces, and
classifies it by an exact, case-sensitive match against "Latest version",
"Latest stable version", "Latest unstable version" (with the `_subpage`
variants when a third segment is present); any other segment is a literal
version tag; titles outside the prefix, or with fewer than two segments after
it, parse to an empty package name.  The claim's concrete examples hold. -/
theorem C6_amended :
    parseVPMPageTitle "Template:VPM/Foo/Latest_stable_version/Description" =
      ("Foo", "latest_stable_version_subpage", "Description") ∧
    parseVPMPageTitle "Template:VPM/Foo/2.1.0" = ("Foo", "version", "2.1.0") ∧
    parseVPMPageTitle "Template:VPM/Foo" = ("", "", "") ∧
    (∀ pkg seg : String, (∀ c ∈ pkg.toList, c ≠ '/') → (∀ c ∈ seg.toList, c ≠ '/') →
      parseVPMPageTitle ("Template:VPM/" ++ pkg ++ "/" ++ seg) =
        if normalizeSeg seg = "Latest version" then (pkg, "latest_version", "")
        else if normalizeSeg seg = "Latest stable version" then (pkg, "latest_stable_version", "")
        else if normalizeSeg seg = "Latest unstable version" then (pkg, "latest_unstable_version", "")
        else (pkg, "version", seg)) ∧
    (∀ pkg seg sub : String, (∀ c ∈ pkg.toList, c ≠ '/') → (∀ c ∈ seg.toList, c ≠ '/') →
      (∀ c ∈ sub.toList, c ≠ '/') →
      parseVPMPageTitle ("Template:VPM/" ++ pkg ++ "/" ++ seg ++ "/" ++ sub) =
        if normalizeSeg seg = "Latest version" then (pkg, "latest_version_subpage", sub)
        else if normalizeSeg seg = "Latest stable version" then
          (pkg, "latest_stable_version_subpage", sub)
        else if normalizeSeg seg = "Latest unstable version" then
          (pkg, "latest_unstable_version_subpage", sub)
        else (pkg, "version_subpage", seg)) ∧
    (∀ t : String, ¬ ("Template:VPM/".toList <+: t.toList) →
      parseVPMPageTitle t = ("", "", "")) := by
  refine ⟨by decide, by decide, by decide, ?_, ?_, ?_⟩
  · intro pkg seg hpkg hseg
    have hdp : dropPre "Template:VPM/".toList ("Template:VPM/" ++ pkg ++ "/" ++ seg).toList
        = some (pkg.toList ++ '/' :: seg.toList) := by
      rw [title2_toList]
      exact dropPre_append _ _
    have hsp : (splitChars '/' (pkg.toList ++ '/' :: seg.toList)).map String.mk
        = [pkg, seg] := by
      rw [splitChars_sep_cons '/' _ _ hpkg, splitChars_no_sep '/' _ hseg]
      simp [mk_data]
    unfold parseVPMPageTitle
    rw [hdp]
    dsimp only
    rw [hsp]
  · intro pkg seg sub hpkg hseg hsub
    have hdp : dropPre "Template:VPM/".toList
        ("Template:VPM/" ++ pkg ++ "/" ++ seg ++ "/" ++ sub).toList
        = some (pkg.toList ++ '/' :: (seg.toList ++ '/' :: sub.toList)) := by
      rw [title3_toList]
      exact dropPre_append _ _
    have hsp : (splitChars '/' (pkg.toList ++ '/' :: (seg.toList ++ '/' :: sub.toList))).map
        String.mk = [pkg, seg, sub] := by
      rw [splitChars_sep_cons '/' _ _ hpkg, splitChars_sep_cons '/' _ _ hseg,
        splitChars_no_sep '/' _ hsub]
      simp [mk_data]
    unfold parseVPMPageTitle
    rw [hdp]
    dsimp only
    rw [hsp]
  · intro t h
    unfold parseVPMPageTitle
    rw [dropPre_none_of_not_pref _ _ h]

/-- Witness for C6 (amended) at concrete inputs. -/
theorem C6_amended_witness :
    parseVPMPageTitle ("Template:VPM/" ++ "Pkg" ++ "/" ++ "1.0.0") = ("Pkg", "version", "1.0.0") ∧
    parseVPMPageTitle "User:Someone" = ("", "", "") := by
  constructor
  · rw [C6_amended.2.2.2.1 "Pkg" "1.0.0" (by decide) (by decide)]
    decide
  · exact C6_amended.2.2.2.2.2 "User:Someone" (by decide)

theorem relogin_eq (env : RetryEnv) (k : Nat) (hl : env.loginErr k = none) :
    reloginIfPossible env k = (none, if canRelogin env then 1 else 0) := by
  unfold reloginIfPossible canRelogin
  by_cases h : (env.offline || env.username == "" || env.password == "") = true
  · simp [h]
  · simp [h, hl]

theorem retryGo_bounds (env : RetryEnv) :
    ∀ (r ops logins : Nat) (le : Option String),
      (withCSRFWriteRetryGo env r ops logins le).attempts ≤ ops + r ∧
      (withCSRFWriteRetryGo env r ops logins le).loginCalls ≤ logins + r := by
  intro r
  induction r with
  | zero => intro ops logins le; exact ⟨Nat.le_refl _, Nat.le_refl _⟩
  | succ r ih =>
    intro ops logins le
    rw [withCSRFWriteRetryGo]
    have hrl2 : (reloginIfPossible env logins).2 ≤ 1 := by
      unfold reloginIfPossible
      by_cases h : (env.offline || env.username == "" || env.password == "") = true
      · simp [h]
      · simp only [h, Bool.false_eq_true, if_false]
        cases env.loginErr logins <;> simp
    constructor
    · split
      · show ops ≤ ops + (r + 1)
        omega
      · split
        · show ops + 1 ≤ ops + (r + 1)
          omega
        · split
          · show ops + 1 ≤ ops + (r + 1)
            omega
          · dsimp only
            split
            · show ops + 1 ≤ ops + (r + 1)
              omega
            · exact le_trans
                ((ih (ops + 1) (logins + (reloginIfPossible env logins).2) _).1) (by omega)
    · split
      · show logins ≤ logins + (r + 1)
        omega
      · split
        · show logins ≤ logins + (r + 1)
          omega
        · split
          · show logins ≤ logins + (r + 1)
            omega
          · dsimp only
            split
            · show logins + (reloginIfPossible env logins).2 ≤ logins + (r + 1)
              omega
            · exact le_trans
                ((ih (ops + 1) (logins + (reloginIfPossible env logins).2) _).2) (by omega)

/-- Claim C4 (counterexample): credentials configured and online, both write
attempts fail with a bad-token error, token fetches and logins succeed — the
call performs two attempts but also two `Login` calls, contradicting "at most
1 re-login per call" (the loop re-logins after the second bad-token failure as
well, before giving up). -/
theorem C4_counterexample :
    (withCSRFWriteRetry envTwoBadTokens).loginCalls = 2 ∧
    (withCSRFWriteRetry envTwoBadTokens).attempts = 2 ∧
    (withCSRFWriteRetry envTwoBadTokens).err =
      some "API error: badtoken - Invalid CSRF token." := by decide

/-- Claim C4 (amended): with CSRF-token fetches succeeding, a successful first
attempt makes exactly one attempt and no login; a non-auth error is returned
immediately after one attempt with no login; a first bad-token error leads
(when logins succeed) to exactly one more attempt — a second outcome of
success or non-auth error is returned after one re-login (when credentials
are configured and not offline), and a second bad-token error is returned
after a second re-login (two logins when re-login is possible, zero
otherwise).  In every case at most 2 attempts and at most 2 logins occur. -/
theorem C4_amended :
    (∀ env : RetryEnv, (withCSRFWriteRetry env).attempts ≤ 2 ∧
      (withCSRFWriteRetry env).loginCalls ≤ 2) ∧
    (∀ env : RetryEnv, (∀ k, env.csrfErr k = none) →
      ((env.opErr 0 = none → withCSRFWriteRetry env = ⟨none, 1, 0⟩) ∧
       (∀ e, env.opErr 0 = some e → isBadTokenError (some e) = false →
          withCSRFWriteRetry env = ⟨some e, 1, 0⟩) ∧
       (∀ e, env.opErr 0 = some e → isBadTokenError (some e) = true →
          (∀ k, env.loginErr k = none) →
          ((env.opErr 1 = none →
             withCSRFWriteRetry env = ⟨none, 2, if canRelogin env then 1 else 0⟩) ∧
           (∀ e1, env.opErr 1 = some e1 → isBadTokenError (some e1) = false →
             withCSRFWriteRetry env = ⟨some e1, 2, if canRelogin env then 1 else 0⟩) ∧
           (∀ e1, env.opErr 1 = some e1 → isBadTokenError (some e1) = true →
             withCSRFWriteRetry env = ⟨some e1, 2, if canRelogin env then 2 else 0⟩))))) := by
  constructor
  · intro env
    have := retryGo_bounds env 2 0 0 none
    exact ⟨this.1, this.2⟩
  · intro env hcs
    have stepS : ∀ (r ops logins : Nat) (le : Option String),
        withCSRFWriteRetryGo env (r + 1) ops logins le =
        (match env.opErr ops with
         | none => ⟨none, ops + 1, logins⟩
         | some e =>
           if !isBadTokenError (some e) then ⟨some e, ops + 1, logins⟩
           else
             match (reloginIfPossible env logins).1 with
             | some le' => ⟨some le', ops + 1, logins + (reloginIfPossible env logins).2⟩
             | none => withCSRFWriteRetryGo env r (ops + 1)
                 (logins + (reloginIfPossible env logins).2) (some e) : RetryResult) := by
      intro r ops logins le
      rw [withCSRFWriteRetryGo, hcs ops]
    have hstart : withCSRFWriteRetry env = withCSRFWriteRetryGo env (1 + 1) 0 0 none := rfl
    refine ⟨?_, ?_, ?_⟩
    · intro h0
      rw [hstart, stepS 1 0 0 none, h0]
    · intro e h0 hbad
      rw [hstart, stepS 1 0 0 none, h0]
      dsimp only
      rw [if_pos (by rw [hbad]; rfl)]
    · intro e h0 hbad hlog
      have hrl := relogin_eq env 0 (hlog 0)
      have hfirst : withCSRFWriteRetry env =
          withCSRFWriteRetryGo env (0 + 1) 1 (if canRelogin env then 1 else 0) (some e) := by
        rw [hstart, stepS 1 0 0 none, h0]
        dsimp only
        rw [if_neg (by rw [hbad]; simp), hrl]
        simp
      refine ⟨?_, ?_, ?_⟩
      · intro h1
        rw [hfirst, stepS 0 1 (if canRelogin env then 1 else 0) (some e), h1]
      · intro e1 h1 hbad1
        rw [hfirst, stepS 0 1 (if canRelogin env then 1 else 0) (some e), h1]
        dsimp only
        rw [if_pos (by rw [hbad1]; rfl)]
      · intro e1 h1 hbad1
        have hrl1 := relogin_eq env (if canRelogin env then 1 else 0) (hlog _)
        rw [hfirst, stepS 0 1 (if canRelogin env then 1 else 0) (some e), h1]
        dsimp only
        rw [if_neg (by rw [hbad1]; simp), hrl1]
        dsimp only
        rw [withCSRFWriteRetryGo]
        by_cases hc : canRelogin env = true
        · rw [hc]
          simp
        · have hc' : canRelogin env = false := by
            cases hcv : canRelogin env
            · rfl
            · exact absurd hcv hc
          rw [hc']
          simp

/-- Witness for C4 (amended) at concrete oracles: one bad-token failure
followed by success yields exactly one login and two attempts. -/
theorem C4_amended_witness :
    (withCSRFWriteRetry envOneBadToken).attempts ≤ 2 ∧
    withCSRFWriteRetry envOneBadToken =
      ⟨none, 2, if canRelogin envOneBadToken then 1 else 0⟩ :=
  ⟨(C4_amended.1 envOneBadToken).1,
   ((C4_amended.2 envOneBadToken (fun _ => rfl)).2.2
      "API error: badtoken - Invalid CSRF token." rfl (by decide) (fun _ => rfl)).1 rfl⟩

/-- Claim C5 (counterexample): with page listing failing (so the wiki scan
errors out) and an empty registry package list, the full-sync pass is *not*
aborted — it proceeds and writes the summary page.  The pre-state is empty;
the post-state contains the rendered (empty) summary table. -/
theorem C5_counterexample :
    ScanVpmPages envScanFail stEmpty = none ∧
    lookupAssoc (runFullSync (.ok []) envScanFail stEmpty []).pages
        "Template:VPM/Version summary" =
      some "\x7b| class=\"wikitable sortable\"\n|-\n! Name\n! Display Name\n! Latest Version(s)\n|\x7d\n" := by
  exact ⟨by decide, by decide⟩

/-- Claim C5 (amended): a failure to list registry packages (or an empty
response body) aborts the pass with no state change; a failure to enumerate
wiki pages does **not** abort the pass — the code logs it and continues with
empty scan maps, so per-package reconciliation and the summary-page write
still run. -/
theorem C5_amended :
    (∀ (env : WikiEnv) (st : WikiSt) (names : List String),
      runFullSync .fail env st names = st) ∧
    (∀ (env : WikiEnv) (st : WikiSt) (names : List String),
      runFullSync .emptyBody env st names = st) ∧
    (∀ (env : WikiEnv) (st : WikiSt) (names : List String) (pkgs : List Package),
      env.listFails = true →
      runFullSync (.ok pkgs) env st names = fullSyncBody env pkgs ([], []) names st) := by
  refine ⟨fun _ _ _ => rfl, fun _ _ _ => rfl, ?_⟩
  intro env st names pkgs h
  have hscan : ScanVpmPages env st = none := by
    unfold ScanVpmPages getAllPages
    rw [h]
    rfl
  rw [runFullSync, hscan]

/-- Witness for C5 (amended) at a concrete input: with listing broken, the
pass continues as the scan-less sync body. -/
theorem C5_amended_witness :
    runFullSync (.ok []) envScanFail stEmpty [] =
      fullSyncBody envScanFail [] ([], []) [] stEmpty :=
  C5_amended.2.2 envScanFail stEmpty [] [] rfl

theorem editPage_honest_ok (st : WikiSt) (t x : String) (b : Bool) :
    (EditPage honestEnv st t x b).2 = none := by
  cases hl : lookupAssoc st.pages t with
  | none => simp [EditPage, getPageContent, honestEnv, hl]
  | some c =>
    by_cases ht : goTrim c = goTrim x
    · simp [EditPage, getPageContent, honestEnv, hl, ht]
    · simp [EditPage, getPageContent, honestEnv, hl, ht]

theorem editPage_honest_pages_self (st : WikiSt) (t x : String) (b : Bool) :
    ∃ c, lookupAssoc ((EditPage honestEnv st t x b).1).pages t = some c ∧
      goTrim c = goTrim x :=
  editPage_post honestEnv st t x b rfl rfl

theorem subTitle_cancel (q path s1 s2 : String)
    (h : subTitle q path s1 = subTitle q path s2) : s1 = s2 :=
  str_append_cancel_left ("Template:VPM/" ++ q ++ "/" ++ path ++ "/") s1 s2 h

theorem authorTitle_ne (q path : String) (i j : Nat) (hi1 : 1 ≤ i) (hi4 : i ≤ 4)
    (hj1 : 1 ≤ j) (hj4 : j ≤ 4) (hij : i ≠ j) :
    authorTitle q path i ≠ authorTitle q path j := by
  intro h
  have h2 : ("Author_" ++ toString i) = ("Author_" ++ toString j) :=
    subTitle_cancel q path _ _ h
  have h3 : toString i = toString j := str_append_cancel_left "Author_" _ _ h2
  have : i = j := by
    interval_cases i <;> interval_cases j <;> revert h3 <;> decide
  exact hij this

theorem baseSub_ne_author (q path sub : String)
    (hsub : sub ∈ (["Description", "DisplayName", "License", "VPM"] : List String))
    (n : Nat) (hn1 : 1 ≤ n) (hn4 : n ≤ 4) :
    subTitle q path sub ≠ authorTitle q path n := by
  intro h
  have h2 : sub = "Author_" ++ toString n := subTitle_cancel q path _ _ h
  rw [h2] at hsub
  interval_cases n <;> exact absurd hsub (by decide)

theorem writeAuthors_delLog_any (env : WikiEnv) (q path : String) :
    ∀ (authors : List String) (i : Nat) (s : WikiSt),
      ((writeAuthors env q path s i authors).1).delLog = s.delLog := by
  intro authors
  induction authors with
  | nil => intro i s; rfl
  | cons a rest ih =>
    intro i s
    rw [writeAuthors]
    by_cases ha : a = ""
    · rw [if_pos ha]
      exact ih (i + 1) s
    · rw [if_neg ha]
      rcases hE : EditPage env s (authorTitle q path (i + 1)) (sanitizeForWiki a) true
        with ⟨s1, e⟩
      have hdl : s1.delLog = s.delLog := by
        have := editPage_delLog env s (authorTitle q path (i + 1)) (sanitizeForWiki a) true
        rw [hE] at this
        exact this
      cases e with
      | some err => exact hdl
      | none =>
        dsimp only
        rw [ih (i + 1) s1]
        exact hdl

theorem writeAuthors_honest (q path : String) :
    ∀ (authors : List String) (i : Nat) (s : WikiSt), i + authors.length ≤ 4 →
      (writeAuthors honestEnv q path s i authors).2 = none ∧
      (∀ j (hj : j < authors.length), authors.get ⟨j, hj⟩ ≠ "" →
        ∃ c, lookupAssoc ((writeAuthors honestEnv q path s i authors).1).pages
            (authorTitle q path (i + j + 1)) = some c ∧
          goTrim c = goTrim (sanitizeForWiki (authors.get ⟨j, hj⟩))) ∧
      (∀ t, (∀ j, j < authors.length → t ≠ authorTitle q path (i + j + 1)) →
        lookupAssoc ((writeAuthors honestEnv q path s i authors).1).pages t =
          lookupAssoc s.pages t) := by
  intro authors
  induction authors with
  | nil =>
    intro i s _
    exact ⟨rfl, fun j hj => absurd hj (by simp), fun t _ => rfl⟩
  | cons a rest ih =>
    intro i s hbound
    have hbound2 : (i + 1) + rest.length ≤ 4 := by
      simp only [List.length_cons] at hbound
      omega
    rw [writeAuthors]
    by_cases ha : a = ""
    · rw [if_pos ha]
      obtain ⟨hok, hcontent, hframe⟩ := ih (i + 1) s hbound2
      refine ⟨hok, ?_, ?_⟩
      · intro j hj hne
        cases j with
        | zero =>
          simp only [List.get] at hne
          exact absurd ha hne
        | succ j1 =>
          have hj1 : j1 < rest.length := by simpa using hj
          have hc := hcontent j1 hj1 (by simpa using hne)
          have harith : i + 1 + j1 + 1 = i + (j1 + 1) + 1 := by omega
          rw [harith] at hc
          simpa using hc
      · intro t ht
        refine hframe t ?_
        intro j hj
        have h1 := ht (j + 1) (by simpa using Nat.succ_lt_succ hj)
        have harith : i + (j + 1) + 1 = i + 1 + j + 1 := by omega
        rw [harith] at h1
        exact h1
    · rw [if_neg ha]
      rcases hE : EditPage honestEnv s (authorTitle q path (i + 1)) (sanitizeForWiki a) true
        with ⟨s1, e⟩
      have hok : e = none := by
        have := editPage_honest_ok s (authorTitle q path (i + 1)) (sanitizeForWiki a) true
        rw [hE] at this
        exact this
      subst hok
      dsimp only
      obtain ⟨hok1, hcontent, hframe⟩ := ih (i + 1) s1 hbound2
      refine ⟨hok1, ?_, ?_⟩
      · intro j hj hne
        cases j with
        | zero =>
          have hc := editPage_honest_pages_self s (authorTitle q path (i + 1))
            (sanitizeForWiki a) true
          rw [hE] at hc
          obtain ⟨c, hlk, htr⟩ := hc
          refine ⟨c, ?_, by simpa using htr⟩
          have harith : i + 0 + 1 = i + 1 := by omega
          rw [harith]
          have hfr := hframe (authorTitle q path (i + 1))
            (fun j1 hj1 => authorTitle_ne q path (i + 1) (i + 1 + j1 + 1)
              (by omega) (by omega) (by omega) (by omega) (by omega))
          rw [hfr]
          exact hlk
        | succ j1 =>
          have hj1 : j1 < rest.length := by simpa using hj
          have hc := hcontent j1 hj1 (by simpa using hne)
          have harith : i + 1 + j1 + 1 = i + (j1 + 1) + 1 := by omega
          rw [harith] at hc
          simpa using hc
      · intro t ht
        have hfr := hframe t ?_
        · rw [hfr]
          have h1 := editPage_pages_frame honestEnv s (authorTitle q path (i + 1))
            (sanitizeForWiki a) true t (ht 0 (by simp))
          rw [hE] at h1
          simpa using h1
        · intro j hj
          have h1 := ht (j + 1) (by simpa using Nat.succ_lt_succ hj)
          have harith : i + (j + 1) + 1 = i + 1 + j + 1 := by omega
          rw [harith] at h1
          exact h1

theorem delExt_refl (s : WikiSt) : delExt s s :=
  ⟨[], by simp, by simp⟩

theorem delExt_of_eq (s s1 : WikiSt) (h : s1.delLog = s.delLog) : delExt s s1 :=
  ⟨[], by simp [h], by simp⟩

theorem delExt_trans {a b c : WikiSt} (h1 : delExt a b) (h2 : delExt b c) : delExt a c := by
  obtain ⟨d1, he1, hm1⟩ := h1
  obtain ⟨d2, he2, hm2⟩ := h2
  refine ⟨d1 ++ d2, by rw [he2, he1, List.append_assoc], ?_⟩
  intro e he
  rcases List.mem_append.mp he with h | h
  · exact hm1 e h
  · exact hm2 e h

theorem editPage_delExt (env : WikiEnv) (st : WikiSt) (t x : String) (b : Bool) :
    delExt st (EditPage env st t x b).1 :=
  delExt_of_eq st _ (editPage_delLog env st t x b)

theorem cleanupAuthorSlot_eq (env : WikiEnv) (q path : String) (st : WikiSt) (i : Nat) :
    cleanupAuthorSlot env q path st i =
      match getPageContent env st.pages (authorTitle q path i) with
      | .content _ =>
        (DeletePage env st (authorTitle q path i) "Author removed from package").1
      | _ => st := rfl

theorem cleanupAuthorSlot_delExt (env : WikiEnv) (q path : String) (st : WikiSt) (i : Nat)
    (h1 : 1 ≤ i) (h4 : i ≤ 4) : delExt st (cleanupAuthorSlot env q path st i) := by
  rw [cleanupAuthorSlot_eq]
  cases hg : getPageContent env st.pages (authorTitle q path i) with
  | fail => exact delExt_refl st
  | missing => exact delExt_refl st
  | content c =>
    dsimp only
    rw [DeletePage]
    by_cases hd : env.deleteFails (authorTitle q path i)
    · rw [if_pos hd]; exact delExt_refl st
    · rw [if_neg hd]
      refine ⟨[(authorTitle q path i, "Author removed from package")], rfl, ?_⟩
      intro e he
      have he2 := List.mem_singleton.mp he
      subst he2
      exact ⟨rfl, q, path, i, h1, h4, rfl⟩

theorem cleanup_fold_delExt (env : WikiEnv) (q path : String) :
    ∀ (l : List Nat), (∀ i ∈ l, 1 ≤ i ∧ i ≤ 4) → ∀ s : WikiSt,
      delExt s (l.foldl (cleanupAuthorSlot env q path) s) := by
  intro l
  induction l with
  | nil => intro _ s; exact delExt_refl s
  | cons i rest ih =>
    intro hb s
    rw [List.foldl_cons]
    obtain ⟨h1, h4⟩ := hb i (by simp)
    exact delExt_trans (cleanupAuthorSlot_delExt env q path s i h1 h4)
      (ih (fun j hj => hb j (by simp [hj])) _)

theorem authorsOf_length_le (an : String) : (authorsOf an).length ≤ 4 := by
  simpa [authorsOf] using List.length_take_le 4
    ((((splitChars ',' an.toList).map String.mk)).map goTrim)

theorem range'_stale_bounds (len : Nat) (hlen : len ≤ 4) :
    ∀ i ∈ List.range' (len + 1) (4 - len), 1 ≤ i ∧ i ≤ 4 := by
  intro i hi
  have := List.mem_range'_1.mp hi
  omega

theorem writeAuthors_delExt (env : WikiEnv) (q path : String) (s : WikiSt) (i : Nat)
    (authors : List String) : delExt s (writeAuthors env q path s i authors).1 :=
  delExt_of_eq s _ (writeAuthors_delLog_any env q path authors i s)

theorem updateVersionSubpages_delExt (env : WikiEnv) (st : WikiSt) (q path : String)
    (ver : Package) : delExt st (updateVersionSubpages env st q path ver).1 := by
  rw [updateVersionSubpages]
  rcases hE1 : EditPage env st (subTitle q path "Description")
      (sanitizeForWiki (strOpt ver.description)) true with ⟨st1, e1⟩
  have d1 : delExt st st1 := by
    have := editPage_delExt env st (subTitle q path "Description")
      (sanitizeForWiki (strOpt ver.description)) true
    rw [hE1] at this; exact this
  cases e1 with
  | some err => exact d1
  | none =>
    dsimp only
    rcases hE2 : EditPage env st1 (subTitle q path "DisplayName")
        (sanitizeForWiki ver.displayName) true with ⟨st2, e2⟩
    have d2 : delExt st st2 := by
      have := editPage_delExt env st1 (subTitle q path "DisplayName")
        (sanitizeForWiki ver.displayName) true
      rw [hE2] at this; exact delExt_trans d1 this
    cases e2 with
    | some err => exact d2
    | none =>
      dsimp only
      rcases hE3 : EditPage env st2 (subTitle q path "License")
          (sanitizeForWiki (strOpt ver.license)) true with ⟨st3, e3⟩
      have d3 : delExt st st3 := by
        have := editPage_delExt env st2 (subTitle q path "License")
          (sanitizeForWiki (strOpt ver.license)) true
        rw [hE3] at this; exact delExt_trans d2 this
      cases e3 with
      | some err => exact d3
      | none =>
        dsimp only
        rcases hE4 : EditPage env st3 (subTitle q path "VPM")
            (sanitizeForWiki (firstListingURL ver.urls)) true with ⟨st4, e4⟩
        have d4 : delExt st st4 := by
          have := editPage_delExt env st3 (subTitle q path "VPM")
            (sanitizeForWiki (firstListingURL ver.urls)) true
          rw [hE4] at this; exact delExt_trans d3 this
        cases e4 with
        | some err => exact d4
        | none =>
          dsimp only
          by_cases hAu : goTrim (strOpt ver.authorName) = ""
          · rw [if_pos hAu]
            exact delExt_trans d4
              (cleanup_fold_delExt env q path (List.range' 1 4) (by decide) st4)
          · rw [if_neg hAu]
            rcases hW : writeAuthors env q path st4 0
                (authorsOf (strOpt ver.authorName)) with ⟨st5, e5⟩
            have d5 : delExt st st5 := by
              have := writeAuthors_delExt env q path st4 0 (authorsOf (strOpt ver.authorName))
              rw [hW] at this; exact delExt_trans d4 this
            cases e5 with
            | some err => exact d5
            | none =>
              exact delExt_trans d5
                (cleanup_fold_delExt env q path _
                  (range'_stale_bounds (authorsOf (strOpt ver.authorName)).length
                    (authorsOf_length_le (strOpt ver.authorName))) st5)

theorem updateLatest_delExt (env : WikiEnv) (st : WikiSt) (v : Package) :
    delExt st (UpdateLatestVersionPages env st v).1 := by
  rw [UpdateLatestVersionPages]
  cases hr : getPageContent env st.pages (mainTitle v.name "Latest_version") with
  | fail => exact delExt_refl st
  | missing => exact delExt_refl st
  | content c =>
    dsimp only
    rcases hE : EditPage env st (mainTitle v.name "Latest_version")
        (sanitizeForWiki v.version) true with ⟨st1, e1⟩
    have d1 : delExt st st1 := by
      have := editPage_delExt env st (mainTitle v.name "Latest_version")
        (sanitizeForWiki v.version) true
      rw [hE] at this; exact this
    cases e1 with
    | some err => exact d1
    | none =>
      dsimp only
      exact delExt_trans d1 (updateVersionSubpages_delExt env st1 v.name "Latest_version" v)

theorem updateStable_delExt (env : WikiEnv) (st : WikiSt) (v : Package) :
    delExt st (UpdateLatestStableVersionPages env st v).1 := by
  rw [UpdateLatestStableVersionPages]
  cases hr : getPageContent env st.pages (mainTitle v.name "Latest_stable_version") with
  | fail => exact delExt_refl st
  | missing => exact delExt_refl st
  | content c =>
    dsimp only
    rcases hE : EditPage env st (mainTitle v.name "Latest_stable_version")
        (sanitizeForWiki v.version) true with ⟨st1, e1⟩
    have d1 : delExt st st1 := by
      have := editPage_delExt env st (mainTitle v.name "Latest_stable_version")
        (sanitizeForWiki v.version) true
      rw [hE] at this; exact this
    cases e1 with
    | some err => exact d1
    | none =>
      dsimp only
      exact delExt_trans d1
        (updateVersionSubpages_delExt env st1 v.name "Latest_stable_version" v)

theorem updateUnstable_delExt (env : WikiEnv) (st : WikiSt) (v : Package) :
    delExt st (UpdateLatestUnstableVersionPages env st v).1 := by
  rw [UpdateLatestUnstableVersionPages]
  cases hr : getPageContent env st.pages (mainTitle v.name "Latest_unstable_version") with
  | fail => exact delExt_refl st
  | missing => exact delExt_refl st
  | content c =>
    dsimp only
    rcases hE : EditPage env st (mainTitle v.name "Latest_unstable_version")
        (sanitizeForWiki v.version) true with ⟨st1, e1⟩
    have d1 : delExt st st1 := by
      have := editPage_delExt env st (mainTitle v.name "Latest_unstable_version")
        (sanitizeForWiki v.version) true
      rw [hE] at this; exact this
    cases e1 with
    | some err => exact d1
    | none =>
      dsimp only
      exact delExt_trans d1
        (updateVersionSubpages_delExt env st1 v.name "Latest_unstable_version" v)

theorem process_delExt (env : WikiEnv) (st : WikiSt) (pkgName tag : String)
    (known : List (String × Package)) :
    delExt st (ProcessSpecificVersionPage env st pkgName tag known).1 := by
  rw [ProcessSpecificVersionPage]
  cases hr : getPageContent env st.pages (mainTitle pkgName tag) with
  | fail => exact delExt_refl st
  | missing => exact delExt_refl st
  | content c =>
    dsimp only
    cases hp : strictNewVersion (goTrim c) with
    | none => exact delExt_refl st
    | some v =>
      dsimp only
      cases hk : lookupAssoc known (svString v) with
      | none => exact delExt_refl st
      | some pkgVersion =>
        dsimp only
        exact updateVersionSubpages_delExt env st pkgName tag pkgVersion

theorem singleStep_delLog (env : WikiEnv) (acc : WikiSt × Nat) (e : String × String) :
    ((singleStep env acc e).1).delLog = acc.1.delLog := by
  rw [singleStep]
  rcases hE : EditPage env acc.1 e.1 e.2 true with ⟨st1, e1⟩
  have hdl : st1.delLog = acc.1.delLog := by
    have := editPage_delLog env acc.1 e.1 e.2 true
    rw [hE] at this; exact this
  split
  · cases e1 with
    | none => exact hdl
    | some err => exact hdl
  · rfl

theorem foldl_singleStep_delLog (env : WikiEnv) :
    ∀ (l : List (String × String)) (acc : WikiSt × Nat),
      ((l.foldl (singleStep env) acc).1).delLog = acc.1.delLog := by
  intro l
  induction l with
  | nil => intro acc; rfl
  | cons e rest ih =>
    intro acc
    rw [List.foldl_cons, ih (singleStep env acc e)]
    exact singleStep_delLog env acc e

theorem updateSingle_delLog (env : WikiEnv) (st : WikiSt) (pkg : Package) :
    ((UpdateSinglePackage env st pkg).1).delLog = st.delLog :=
  foldl_singleStep_delLog env (pagesToUpdate pkg) (st, 0)

theorem foldl_delExt_pair {β : Type} (f : (WikiSt × List String) → β → (WikiSt × List String))
    (l : List β) (hf : ∀ a b, b ∈ l → delExt a.1 (f a b).1) :
    ∀ a, delExt a.1 (l.foldl f a).1 := by
  induction l with
  | nil => intro a; exact delExt_refl a.1
  | cons b rest ih =>
    intro a
    rw [List.foldl_cons]
    exact delExt_trans (hf a b (by simp))
      (ih (fun a2 b2 hb2 => hf a2 b2 (by simp [hb2])) (f a b))

theorem foldl_delExt_st {β : Type} (f : WikiSt → β → WikiSt) (l : List β)
    (hf : ∀ s b, b ∈ l → delExt s (f s b)) : ∀ s, delExt s (l.foldl f s) := by
  induction l with
  | nil => intro s; exact delExt_refl s
  | cons b rest ih =>
    intro s
    rw [List.foldl_cons]
    exact delExt_trans (hf s b (by simp))
      (ih (fun s2 b2 hb2 => hf s2 b2 (by simp [hb2])) (f s b))

theorem syncPackageStep_delExt (env : WikiEnv)
    (latestM stableM unstableM : List (String × Package))
    (allByPkg : List (String × List (String × Package)))
    (pp wv : List (String × List String))
    (acc : WikiSt × List String) (name : String) :
    delExt acc.1 (syncPackageStep env latestM stableM unstableM allByPkg pp wv acc name).1 := by
  rw [syncPackageStep]
  have step1 : ∀ a : WikiSt × List String, delExt acc.1 a.1 →
      delExt acc.1 (match lookupAssoc latestM name with
        | some v =>
          if (lookupListA pp name).contains (mainTitle name "Latest_version") then
            match UpdateLatestVersionPages env a.1 v with
            | (st', some e) => (st', a.2 ++ ["latest " ++ name ++ ": " ++ e])
            | (st', none) => (st', a.2)
          else a
        | none => a).1 := by
    intro a ha
    cases lookupAssoc latestM name with
    | none => exact ha
    | some v =>
      dsimp only
      by_cases hc : (lookupListA pp name).contains (mainTitle name "Latest_version")
      · rw [if_pos hc]
        have hd := updateLatest_delExt env a.1 v
        rcases hU : UpdateLatestVersionPages env a.1 v with ⟨st', e⟩
        rw [hU] at hd
        cases e with
        | some err => exact delExt_trans ha hd
        | none => exact delExt_trans ha hd
      · rw [if_neg hc]; exact ha
  have step2 : ∀ a : WikiSt × List String, delExt acc.1 a.1 →
      delExt acc.1 (match lookupAssoc stableM name with
        | some v =>
          if (lookupListA pp name).contains (mainTitle name "Latest_stable_version") then
            match UpdateLatestStableVersionPages env a.1 v with
            | (st', some e) => (st', a.2 ++ ["stable " ++ name ++ ": " ++ e])
            | (st', none) => (st', a.2)
          else a
        | none => a).1 := by
    intro a ha
    cases lookupAssoc stableM name with
    | none => exact ha
    | some v =>
      dsimp only
      by_cases hc : (lookupListA pp name).contains (mainTitle name "Latest_stable_version")
      · rw [if_pos hc]
        have hd := updateStable_delExt env a.1 v
        rcases hU : UpdateLatestStableVersionPages env a.1 v with ⟨st', e⟩
        rw [hU] at hd
        cases e with
        | some err => exact delExt_trans ha hd
        | none => exact delExt_trans ha hd
      · rw [if_neg hc]; exact ha
  have step3 : ∀ a : WikiSt × List String, delExt acc.1 a.1 →
      delExt acc.1 (match lookupAssoc unstableM name with
        | some v =>
          if (lookupListA pp name).contains (mainTitle name "Latest_unstable_version") then
            match UpdateLatestUnstableVersionPages env a.1 v with
            | (st', some e) => (st', a.2 ++ ["unstable " ++ name ++ ": " ++ e])
            | (st', none) => (st', a.2)
          else a
        | none => a).1 := by
    intro a ha
    cases lookupAssoc unstableM name with
    | none => exact ha
    | some v =>
      dsimp only
      by_cases hc : (lookupListA pp name).contains (mainTitle name "Latest_unstable_version")
      · rw [if_pos hc]
        have hd := updateUnstable_delExt env a.1 v
        rcases hU : UpdateLatestUnstableVersionPages env a.1 v with ⟨st', e⟩
        rw [hU] at hd
        cases e with
        | some err => exact delExt_trans ha hd
        | none => exact delExt_trans ha hd
      · rw [if_neg hc]; exact ha
  have h3 := step3 _ (step2 _ (step1 acc (delExt_refl acc.1)))
  cases hkn : lookupAssoc allByPkg name with
  | none => exact h3
  | some known =>
    cases hver : lookupAssoc wv name with
    | none => exact h3
    | some versions =>
      dsimp only
      by_cases hlen : versions.length > 0
      · rw [if_pos hlen]
        refine foldl_preserve (fun a : WikiSt × List String => delExt acc.1 a.1)
          _ versions _ ?_ h3
        intro x tg hx
        have hd := process_delExt env x.1 name tg known
        rcases hPr : ProcessSpecificVersionPage env x.1 name tg known with ⟨st', e⟩
        rw [hPr] at hd
        cases e with
        | some err => exact delExt_trans hx hd
        | none => exact delExt_trans hx hd
      · rw [if_neg hlen]; exact h3

theorem syncExisting_delExt (env : WikiEnv) (st : WikiSt)
    (latestM stableM unstableM : List (String × Package))
    (allByPkg : List (String × List (String × Package)))
    (names : List String) :
    delExt st (SyncExistingPages env st latestM stableM unstableM allByPkg names).1 := by
  rw [SyncExistingPages]
  cases hscan : ScanVpmPages env st with
  | none => exact delExt_refl st
  | some scan =>
    dsimp only
    have hfold : delExt st
        ((names.foldl (syncPackageStep env latestM stableM unstableM allByPkg scan.1 scan.2)
          (st, [])).1) := by
      refine foldl_preserve (fun a : WikiSt × List String => delExt st a.1)
        _ names (st, []) ?_ (delExt_refl st)
      intro x nm hx
      exact delExt_trans hx
        (syncPackageStep_delExt env latestM stableM unstableM allByPkg scan.1 scan.2 x nm)
    by_cases hl : (names.foldl (syncPackageStep env latestM stableM unstableM allByPkg
        scan.1 scan.2) (st, [])).2.length > 0
    · rw [if_pos hl]; exact hfold
    · rw [if_neg hl]; exact hfold

theorem runFullSyncStep_delExt (env : WikiEnv)
    (latestM stableM unstableM : List (String × Package))
    (allVersionsMap : List (String × List Package))
    (wikiVersionsMap : List (String × List String))
    (st : WikiSt) (name : String) :
    delExt st (runFullSyncStep env latestM stableM unstableM allVersionsMap
      wikiVersionsMap st name) := by
  rw [runFullSyncStep]
  have step1 : ∀ s : WikiSt, delExt st s →
      delExt st (match lookupAssoc latestM name with
        | some v => (UpdateLatestVersionPages env s v).1
        | none => s) := by
    intro s hs
    cases lookupAssoc latestM name with
    | none => exact hs
    | some v => exact delExt_trans hs (updateLatest_delExt env s v)
  have step2 : ∀ s : WikiSt, delExt st s →
      delExt st (match lookupAssoc stableM name with
        | some v => (UpdateLatestStableVersionPages env s v).1
        | none => s) := by
    intro s hs
    cases lookupAssoc stableM name with
    | none => exact hs
    | some v => exact delExt_trans hs (updateStable_delExt env s v)
  have step3 : ∀ s : WikiSt, delExt st s →
      delExt st (match lookupAssoc unstableM name with
        | some v => (UpdateLatestUnstableVersionPages env s v).1
        | none => s) := by
    intro s hs
    cases lookupAssoc unstableM name with
    | none => exact hs
    | some v => exact delExt_trans hs (updateUnstable_delExt env s v)
  have h3 := step3 _ (step2 _ (step1 st (delExt_refl st)))
  cases hver : lookupAssoc wikiVersionsMap name with
  | none => exact h3
  | some tags =>
    dsimp only
    refine foldl_preserve (fun s : WikiSt => delExt st s) _ tags _ ?_ h3
    intro x tg hx
    exact delExt_trans hx (process_delExt env x name tg _)

theorem fullSyncBody_delExt (env : WikiEnv) (pkgs : List Package)
    (scan : List (String × List String) × List (String × List String))
    (names : List String) (st : WikiSt) :
    delExt st (fullSyncBody env pkgs scan names st) := by
  rw [fullSyncBody]
  have hfold : delExt st (names.foldl
      (runFullSyncStep env (ComputeLatestStableUnstable (BuildAllVersionsMapFromAPI pkgs)).1
        (ComputeLatestStableUnstable (BuildAllVersionsMapFromAPI pkgs)).2.1
        (ComputeLatestStableUnstable (BuildAllVersionsMapFromAPI pkgs)).2.2
        (BuildAllVersionsMapFromAPI pkgs) scan.2) st) := by
    refine foldl_preserve (fun s : WikiSt => delExt st s) _ names st ?_ (delExt_refl st)
    intro x nm hx
    exact delExt_trans hx (runFullSyncStep_delExt env _ _ _ _ _ x nm)
  exact delExt_trans hfold (editPage_delExt env _ "Template:VPM/Version summary" _ true)

theorem runFullSync_delExt (lp : ListPackagesRes) (env : WikiEnv) (st : WikiSt)
    (names : List String) : delExt st (runFullSync lp env st names) := by
  cases lp with
  | fail => exact delExt_refl st
  | emptyBody => exact delExt_refl st
  | ok pkgs =>
    have hdef : runFullSync (.ok pkgs) env st names =
        (match ScanVpmPages env st with
         | none => fullSyncBody env pkgs ([], []) names st
         | some scan => fullSyncBody env pkgs scan names st) := rfl
    rw [hdef]
    cases hscan : ScanVpmPages env st with
    | none => exact fullSyncBody_delExt env pkgs ([], []) names st
    | some scan => exact fullSyncBody_delExt env pkgs scan names st

theorem updateSingle_delExt (env : WikiEnv) (st : WikiSt) (pkg : Package) :
    delExt st (UpdateSinglePackage env st pkg).1 :=
  delExt_of_eq st _ (updateSingle_delLog env st pkg)

theorem cleanupAuthorSlot_honest_none (q path : String) (st : WikiSt) (i : Nat)
    (h : lookupAssoc st.pages (authorTitle q path i) = none) :
    cleanupAuthorSlot honestEnv q path st i = st := by
  rw [cleanupAuthorSlot_eq]
  simp [getPageContent, honestEnv, h]

theorem cleanupAuthorSlot_honest_some (q path : String) (st : WikiSt) (i : Nat) (c : String)
    (h : lookupAssoc st.pages (authorTitle q path i) = some c) :
    cleanupAuthorSlot honestEnv q path st i =
      ⟨st.pages.filter (fun e => e.1 != authorTitle q path i), st.editLog,
        st.delLog ++ [(authorTitle q path i, "Author removed from package")]⟩ := by
  rw [cleanupAuthorSlot_eq]
  simp [getPageContent, honestEnv, h, DeletePage]

theorem cleanup_fold_honest (q path : String) :
    ∀ (l : List Nat), l.Nodup → (∀ i ∈ l, 1 ≤ i ∧ i ≤ 4) → ∀ s : WikiSt,
      (∀ i ∈ l, lookupAssoc ((l.foldl (cleanupAuthorSlot honestEnv q path) s)).pages
        (authorTitle q path i) = none) ∧
      ((l.foldl (cleanupAuthorSlot honestEnv q path) s)).delLog = s.delLog ++
        (l.filter (fun i => (lookupAssoc s.pages (authorTitle q path i)).isSome)).map
          (fun i => (authorTitle q path i, "Author removed from package")) ∧
      (∀ t, (∀ i ∈ l, t ≠ authorTitle q path i) →
        lookupAssoc ((l.foldl (cleanupAuthorSlot honestEnv q path) s)).pages t =
          lookupAssoc s.pages t) := by
  intro l
  induction l with
  | nil =>
    intro _ _ s
    exact ⟨fun i hi => absurd hi (by simp), by simp, fun t _ => rfl⟩
  | cons i rest ih =>
    intro hnd hb s
    have hinotmem : i ∉ rest := (List.nodup_cons.mp hnd).1
    have hndr : rest.Nodup := (List.nodup_cons.mp hnd).2
    have hbr : ∀ j ∈ rest, 1 ≤ j ∧ j ≤ 4 := fun j hj => hb j (by simp [hj])
    obtain ⟨hi1, hi4⟩ := hb i (by simp)
    have hne_rest : ∀ j ∈ rest, authorTitle q path i ≠ authorTitle q path j := by
      intro j hj
      obtain ⟨hj1, hj4⟩ := hbr j hj
      exact authorTitle_ne q path i j hi1 hi4 hj1 hj4
        (fun he => hinotmem (he ▸ hj))
    rw [List.foldl_cons]
    cases hl : lookupAssoc s.pages (authorTitle q path i) with
    | none =>
      rw [cleanupAuthorSlot_honest_none q path s i hl]
      obtain ⟨ihnone, ihdel, ihframe⟩ := ih hndr hbr s
      refine ⟨?_, ?_, ?_⟩
      · intro j hj
        rcases List.mem_cons.mp hj with hj | hj
        · subst hj
          rw [ihframe (authorTitle q path j) (fun k hk => hne_rest k hk)]
          exact hl
        · exact ihnone j hj
      · have hpred : (lookupAssoc s.pages (authorTitle q path i)).isSome = false := by
          rw [hl]; rfl
        rw [ihdel, List.filter_cons, hpred]
        simp
      · intro t ht
        exact ihframe t (fun j hj => ht j (by simp [hj]))
    | some c =>
      rw [cleanupAuthorSlot_honest_some q path s i c hl]
      obtain ⟨ihnone, ihdel, ihframe⟩ := ih hndr hbr
        ⟨s.pages.filter (fun e => e.1 != authorTitle q path i), s.editLog,
          s.delLog ++ [(authorTitle q path i, "Author removed from package")]⟩
      refine ⟨?_, ?_, ?_⟩
      · intro j hj
        rcases List.mem_cons.mp hj with hj | hj
        · subst hj
          rw [ihframe (authorTitle q path j) (fun k hk => hne_rest k hk)]
          exact lookupAssoc_filter_self s.pages (authorTitle q path j)
        · exact ihnone j hj
      · rw [ihdel]
        have hfc : rest.filter (fun j =>
            (lookupAssoc (s.pages.filter (fun e => e.1 != authorTitle q path i))
              (authorTitle q path j)).isSome) =
            rest.filter (fun j => (lookupAssoc s.pages (authorTitle q path j)).isSome) := by
          refine List.filter_congr ?_
          intro j hj
          rw [lookupAssoc_filter_ne s.pages (authorTitle q path i) (authorTitle q path j)
            (fun he => hne_rest j hj he.symm)]
        rw [hfc]
        have hpred : (lookupAssoc s.pages (authorTitle q path i)).isSome = true := by
          rw [hl]; rfl
        rw [List.filter_cons, hpred]
        simp
      · intro t ht
        rw [ihframe t (fun j hj => ht j (by simp [hj]))]
        exact lookupAssoc_filter_ne s.pages (authorTitle q path i) t (ht i (by simp))

theorem updateVersionSubpages_honest (st : WikiSt) (q path : String) (v : Package)
    (hau : goTrim (strOpt v.authorName) ≠ "") :
    (updateVersionSubpages honestEnv st q path v).2 = none ∧
    (∀ j (hj : j < (authorsOf (strOpt v.authorName)).length),
       (authorsOf (strOpt v.authorName)).get ⟨j, hj⟩ ≠ "" →
       ∃ c, lookupAssoc ((updateVersionSubpages honestEnv st q path v).1).pages
           (authorTitle q path (j + 1)) = some c ∧
         goTrim c = goTrim (sanitizeForWiki ((authorsOf (strOpt v.authorName)).get ⟨j, hj⟩))) ∧
    (∀ i, i ∈ List.range' ((authorsOf (strOpt v.authorName)).length + 1)
        (4 - (authorsOf (strOpt v.authorName)).length) →
      lookupAssoc ((updateVersionSubpages honestEnv st q path v).1).pages
        (authorTitle q path i) = none) ∧
    ((updateVersionSubpages honestEnv st q path v).1).delLog = st.delLog ++
      ((List.range' ((authorsOf (strOpt v.authorName)).length + 1)
          (4 - (authorsOf (strOpt v.authorName)).length)).filter
        (fun i => (lookupAssoc st.pages (authorTitle q path i)).isSome)).map
        (fun i => (authorTitle q path i, "Author removed from package")) := by
  have hlen4 := authorsOf_length_le (strOpt v.authorName)
  rw [updateVersionSubpages]
  rcases hE1 : EditPage honestEnv st (subTitle q path "Description")
      (sanitizeForWiki (strOpt v.description)) true with ⟨st1, e1⟩
  have he1 : e1 = none := by
    have := editPage_honest_ok st (subTitle q path "Description")
      (sanitizeForWiki (strOpt v.description)) true
    rw [hE1] at this; exact this
  subst he1
  have hA1 : ∀ n, 1 ≤ n → n ≤ 4 → lookupAssoc st1.pages (authorTitle q path n) =
      lookupAssoc st.pages (authorTitle q path n) := by
    intro n h1 h4
    have := editPage_pages_frame honestEnv st (subTitle q path "Description")
      (sanitizeForWiki (strOpt v.description)) true (authorTitle q path n)
      (baseSub_ne_author q path "Description" (by decide) n h1 h4).symm
    rw [hE1] at this; exact this
  have hD1 : st1.delLog = st.delLog := by
    have := editPage_delLog honestEnv st (subTitle q path "Description")
      (sanitizeForWiki (strOpt v.description)) true
    rw [hE1] at this; exact this
  dsimp only
  rcases hE2 : EditPage honestEnv st1 (subTitle q path "DisplayName")
      (sanitizeForWiki v.displayName) true with ⟨st2, e2⟩
  have he2 : e2 = none := by
    have := editPage_honest_ok st1 (subTitle q path "DisplayName")
      (sanitizeForWiki v.displayName) true
    rw [hE2] at this; exact this
  subst he2
  have hA2 : ∀ n, 1 ≤ n → n ≤ 4 → lookupAssoc st2.pages (authorTitle q path n) =
      lookupAssoc st.pages (authorTitle q path n) := by
    intro n h1 h4
    have := editPage_pages_frame honestEnv st1 (subTitle q path "DisplayName")
      (sanitizeForWiki v.displayName) true (authorTitle q path n)
      (baseSub_ne_author q path "DisplayName" (by decide) n h1 h4).symm
    rw [hE2] at this
    rw [this]
    exact hA1 n h1 h4
  have hD2 : st2.delLog = st.delLog := by
    have := editPage_delLog honestEnv st1 (subTitle q path "DisplayName")
      (sanitizeForWiki v.displayName) true
    rw [hE2] at this
    rw [this]; exact hD1
  dsimp only
  rcases hE3 : EditPage honestEnv st2 (subTitle q path "License")
      (sanitizeForWiki (strOpt v.license)) true with ⟨st3, e3⟩
  have he3 : e3 = none := by
    have := editPage_honest_ok st2 (subTitle q path "License")
      (sanitizeForWiki (strOpt v.license)) true
    rw [hE3] at this; exact this
  subst he3
  have hA3 : ∀ n, 1 ≤ n → n ≤ 4 → lookupAssoc st3.pages (authorTitle q path n) =
      lookupAssoc st.pages (authorTitle q path n) := by
    intro n h1 h4
    have := editPage_pages_frame honestEnv st2 (subTitle q path "License")
      (sanitizeForWiki (strOpt v.license)) true (authorTitle q path n)
      (baseSub_ne_author q path "License" (by decide) n h1 h4).symm
    rw [hE3] at this
    rw [this]
    exact hA2 n h1 h4
  have hD3 : st3.delLog = st.delLog := by
    have := editPage_delLog honestEnv st2 (subTitle q path "License")
      (sanitizeForWiki (strOpt v.license)) true
    rw [hE3] at this
    rw [this]; exact hD2
  dsimp only
  rcases hE4 : EditPage honestEnv st3 (subTitle q path "VPM")
      (sanitizeForWiki (firstListingURL v.urls)) true with ⟨st4, e4⟩
  have he4 : e4 = none := by
    have := editPage_honest_ok st3 (subTitle q path "VPM")
      (sanitizeForWiki (firstListingURL v.urls)) true
    rw [hE4] at this; exact this
  subst he4
  have hA4 : ∀ n, 1 ≤ n → n ≤ 4 → lookupAssoc st4.pages (authorTitle q path n) =
      lookupAssoc st.pages (authorTitle q path n) := by
    intro n h1 h4
    have := editPage_pages_frame honestEnv st3 (subTitle q path "VPM")
      (sanitizeForWiki (firstListingURL v.urls)) true (authorTitle q path n)
      (baseSub_ne_author q path "VPM" (by decide) n h1 h4).symm
    rw [hE4] at this
    rw [this]
    exact hA3 n h1 h4
  have hD4 : st4.delLog = st.delLog := by
    have := editPage_delLog honestEnv st3 (subTitle q path "VPM")
      (sanitizeForWiki (firstListingURL v.urls)) true
    rw [hE4] at this
    rw [this]; exact hD3
  dsimp only
  rw [if_neg hau]
  rcases hW : writeAuthors honestEnv q path st4 0 (authorsOf (strOpt v.authorName))
    with ⟨st5, e5⟩
  obtain ⟨hWok, hWcontent, hWframe⟩ :=
    writeAuthors_honest q path (authorsOf (strOpt v.authorName)) 0 st4 (by omega)
  rw [hW] at hWok hWcontent hWframe
  subst hWok
  dsimp only
  have hD5 : st5.delLog = st.delLog := by
    have := writeAuthors_delLog_any honestEnv q path (authorsOf (strOpt v.authorName)) 0 st4
    rw [hW] at this
    rw [this]; exact hD4
  have hA5stale : ∀ n, (authorsOf (strOpt v.authorName)).length + 1 ≤ n → n ≤ 4 →
      lookupAssoc st5.pages (authorTitle q path n) = lookupAssoc st.pages (authorTitle q path n) := by
    intro n hn1 hn4
    have hfr := hWframe (authorTitle q path n) ?_
    · rw [hfr]
      exact hA4 n (by omega) hn4
    · intro j hj
      exact (authorTitle_ne q path (0 + j + 1) n (by omega)
        (by omega) (by omega) hn4 (by omega)).symm
  obtain ⟨hCnone, hCdel, hCframe⟩ := cleanup_fold_honest q path
    (List.range' ((authorsOf (strOpt v.authorName)).length + 1)
      (4 - (authorsOf (strOpt v.authorName)).length))
    (List.nodup_range' _ _)
    (range'_stale_bounds (authorsOf (strOpt v.authorName)).length hlen4) st5
  refine ⟨rfl, ?_, ?_, ?_⟩
  · intro j hj hne
    have hc := hWcontent j hj hne
    obtain ⟨c, hlk, htr⟩ := hc
    refine ⟨c, ?_, htr⟩
    have harith : 0 + j + 1 = j + 1 := by omega
    rw [harith] at hlk
    rw [hCframe (authorTitle q path (j + 1)) ?_]
    · exact hlk
    · intro n hn
      have hb := List.mem_range'_1.mp hn
      exact authorTitle_ne q path (j + 1) n (by omega) (by omega) (by omega)
        (by omega) (by omega)
  · intro n hn
    exact hCnone n hn
  · rw [hCdel, hD5]
    have hfc : (List.range' ((authorsOf (strOpt v.authorName)).length + 1)
          (4 - (authorsOf (strOpt v.authorName)).length)).filter
        (fun n => (lookupAssoc st5.pages (authorTitle q path n)).isSome) =
        (List.range' ((authorsOf (strOpt v.authorName)).length + 1)
          (4 - (authorsOf (strOpt v.authorName)).length)).filter
        (fun n => (lookupAssoc st.pages (authorTitle q path n)).isSome) := by
      refine List.filter_congr ?_
      intro n hn
      have hb := List.mem_range'_1.mp hn
      rw [hA5stale n (by omega) (by omega)]
    rw [hfc]

theorem updateVersionSubpages_honest_blank (st : WikiSt) (q path : String) (v : Package)
    (hau : goTrim (strOpt v.authorName) = "") :
    (updateVersionSubpages honestEnv st q path v).2 = none ∧
    (∀ i, 1 ≤ i → i ≤ 4 →
      lookupAssoc ((updateVersionSubpages honestEnv st q path v).1).pages
        (authorTitle q path i) = none) ∧
    ((updateVersionSubpages honestEnv st q path v).1).delLog = st.delLog ++
      ((List.range' 1 4).filter
        (fun i => (lookupAssoc st.pages (authorTitle q path i)).isSome)).map
        (fun i => (authorTitle q path i, "Author removed from package")) := by
  rw [updateVersionSubpages]
  rcases hE1 : EditPage honestEnv st (subTitle q path "Description")
      (sanitizeForWiki (strOpt v.description)) true with ⟨st1, e1⟩
  have he1 : e1 = none := by
    have := editPage_honest_ok st (subTitle q path "Description")
      (sanitizeForWiki (strOpt v.description)) true
    rw [hE1] at this; exact this
  subst he1
  have hA1 : ∀ n, 1 ≤ n → n ≤ 4 → lookupAssoc st1.pages (authorTitle q path n) =
      lookupAssoc st.pages (authorTitle q path n) := by
    intro n h1 h4
    have := editPage_pages_frame honestEnv st (subTitle q path "Description")
      (sanitizeForWiki (strOpt v.description)) true (authorTitle q path n)
      (baseSub_ne_author q path "Description" (by decide) n h1 h4).symm
    rw [hE1] at this; exact this
  have hD1 : st1.delLog = st.delLog := by
    have := editPage_delLog honestEnv st (subTitle q path "Description")
      (sanitizeForWiki (strOpt v.description)) true
    rw [hE1] at this; exact this
  dsimp only
  rcases hE2 : EditPage honestEnv st1 (subTitle q path "DisplayName")
      (sanitizeForWiki v.displayName) true with ⟨st2, e2⟩
  have he2 : e2 = none := by
    have := editPage_honest_ok st1 (subTitle q path "DisplayName")
      (sanitizeForWiki v.displayName) true
    rw [hE2] at this; exact this
  subst he2
  have hA2 : ∀ n, 1 ≤ n → n ≤ 4 → lookupAssoc st2.pages (authorTitle q path n) =
      lookupAssoc st.pages (authorTitle q path n) := by
    intro n h1 h4
    have := editPage_pages_frame honestEnv st1 (subTitle q path "DisplayName")
      (sanitizeForWiki v.displayName) true (authorTitle q path n)
      (baseSub_ne_author q path "DisplayName" (by decide) n h1 h4).symm
    rw [hE2] at this
    rw [this]
    exact hA1 n h1 h4
  have hD2 : st2.delLog = st.delLog := by
    have := editPage_delLog honestEnv st1 (subTitle q path "DisplayName")
      (sanitizeForWiki v.displayName) true
    rw [hE2] at this
    rw [this]; exact hD1
  dsimp only
  rcases hE3 : EditPage honestEnv st2 (subTitle q path "License")
      (sanitizeForWiki (strOpt v.license)) true with ⟨st3, e3⟩
  have he3 : e3 = none := by
    have := editPage_honest_ok st2 (subTitle q path "License")
      (sanitizeForWiki (strOpt v.license)) true
    rw [hE3] at this; exact this
  subst he3
  have hA3 : ∀ n, 1 ≤ n → n ≤ 4 → lookupAssoc st3.pages (authorTitle q path n) =
      lookupAssoc st.pages (authorTitle q path n) := by
    intro n h1 h4
    have := editPage_pages_frame honestEnv st2 (subTitle q path "License")
      (sanitizeForWiki (strOpt v.license)) true (authorTitle q path n)
      (baseSub_ne_author q path "License" (by decide) n h1 h4).symm
    rw [hE3] at this
    rw [this]
    exact hA2 n h1 h4
  have hD3 : st3.delLog = st.delLog := by
    have := editPage_delLog honestEnv st2 (subTitle q path "License")
      (sanitizeForWiki (strOpt v.license)) true
    rw [hE3] at this
    rw [this]; exact hD2
  dsimp only
  rcases hE4 : EditPage honestEnv st3 (subTitle q path "VPM")
      (sanitizeForWiki (firstListingURL v.urls)) true with ⟨st4, e4⟩
  have he4 : e4 = none := by
    have := editPage_honest_ok st3 (subTitle q path "VPM")
      (sanitizeForWiki (firstListingURL v.urls)) true
    rw [hE4] at this; exact this
  subst he4
  have hA4 : ∀ n, 1 ≤ n → n ≤ 4 → lookupAssoc st4.pages (authorTitle q path n) =
      lookupAssoc st.pages (authorTitle q path n) := by
    intro n h1 h4
    have := editPage_pages_frame honestEnv st3 (subTitle q path "VPM")
      (sanitizeForWiki (firstListingURL v.urls)) true (authorTitle q path n)
      (baseSub_ne_author q path "VPM" (by decide) n h1 h4).symm
    rw [hE4] at this
    rw [this]
    exact hA3 n h1 h4
  have hD4 : st4.delLog = st.delLog := by
    have := editPage_delLog honestEnv st3 (subTitle q path "VPM")
      (sanitizeForWiki (firstListingURL v.urls)) true
    rw [hE4] at this
    rw [this]; exact hD3
  dsimp only
  rw [if_pos hau]
  obtain ⟨hCnone, hCdel, hCframe⟩ := cleanup_fold_honest q path (List.range' 1 4)
    (List.nodup_range' _ _) (by decide) st4
  refine ⟨rfl, ?_, ?_⟩
  · intro i h1 h4
    exact hCnone i (by rw [List.mem_range'_1]; omega)
  · rw [hCdel, hD4]
    have hfc : (List.range' 1 4).filter
        (fun n => (lookupAssoc st4.pages (authorTitle q path n)).isSome) =
        (List.range' 1 4).filter
        (fun n => (lookupAssoc st.pages (authorTitle q path n)).isSome) := by
      refine List.filter_congr ?_
      intro n hn
      have hb := List.mem_range'_1.mp hn
      rw [hA4 n (by omega) (by omega)]
    rw [hfc]

set_option maxRecDepth 20000 in
/-- Claim C8: subpage reconciliation splits the author field on commas, trims
each entry and caps the list at four; with an honest backend it writes one
`Author_N` subpage per non-empty author at the slot matching its position,
and deletes — with reason "Author removed from package" — exactly those
author slots beyond the current author count up to 4 that currently exist
(all four slots when the author field is blank); across every failure oracle,
every deletion the engine (`updateVersionSubpages`, `runFullSync`,
`SyncExistingPages`) ever journals is such an author-slot cleanup, and
`UpdateSinglePackage` deletes nothing.  In particular, when a package's
author count shrinks from three (`Alice, Bob, Carol`) to one (`Alan`),
exactly `Author_2` and `Author_3` are deleted and `Author_1` is updated. -/
theorem C8_author_reconciliation :
    (∀ an : String,
      authorsOf an = ((((splitChars ',' an.toList).map String.mk).map goTrim)).take 4)
    ∧
    (∀ (st : WikiSt) (q path : String) (v : Package),
      goTrim (strOpt v.authorName) ≠ "" →
      (updateVersionSubpages honestEnv st q path v).2 = none ∧
      (∀ j (hj : j < (authorsOf (strOpt v.authorName)).length),
         (authorsOf (strOpt v.authorName)).get ⟨j, hj⟩ ≠ "" →
         ∃ c, lookupAssoc ((updateVersionSubpages honestEnv st q path v).1).pages
             (authorTitle q path (j + 1)) = some c ∧
           goTrim c = goTrim (sanitizeForWiki ((authorsOf (strOpt v.authorName)).get ⟨j, hj⟩))) ∧
      (∀ i, i ∈ List.range' ((authorsOf (strOpt v.authorName)).length + 1)
          (4 - (authorsOf (strOpt v.authorName)).length) →
        lookupAssoc ((updateVersionSubpages honestEnv st q path v).1).pages
          (authorTitle q path i) = none) ∧
      ((updateVersionSubpages honestEnv st q path v).1).delLog = st.delLog ++
        ((List.range' ((authorsOf (strOpt v.authorName)).length + 1)
            (4 - (authorsOf (strOpt v.authorName)).length)).filter
          (fun i => (lookupAssoc st.pages (authorTitle q path i)).isSome)).map
          (fun i => (authorTitle q path i, "Author removed from package"))) ∧
    (∀ (st : WikiSt) (q path : String) (v : Package),
      goTrim (strOpt v.authorName) = "" →
      (updateVersionSubpages honestEnv st q path v).2 = none ∧
      (∀ i, 1 ≤ i → i ≤ 4 →
        lookupAssoc ((updateVersionSubpages honestEnv st q path v).1).pages
          (authorTitle q path i) = none) ∧
      ((updateVersionSubpages honestEnv st q path v).1).delLog = st.delLog ++
        ((List.range' 1 4).filter
          (fun i => (lookupAssoc st.pages (authorTitle q path i)).isSome)).map
          (fun i => (authorTitle q path i, "Author removed from package")))
    ∧
    (∀ (env : WikiEnv) (st : WikiSt) (q path : String) (v : Package),
      delExt st (updateVersionSubpages env st q path v).1)
    ∧
    (∀ (lp : ListPackagesRes) (env : WikiEnv) (st : WikiSt) (names : List String),
      delExt st (runFullSync lp env st names))
    ∧
    (∀ (env : WikiEnv) (st : WikiSt)
       (latestM stableM unstableM : List (String × Package))
       (allByPkg : List (String × List (String × Package))) (names : List String),
      delExt st (SyncExistingPages env st latestM stableM unstableM allByPkg names).1)
    ∧
    (∀ (env : WikiEnv) (st : WikiSt) (pkg : Package),
      ((UpdateSinglePackage env st pkg).1).delLog = st.delLog)
    ∧
    (c8After.delLog =
      [(authorTitle "Foo" "Latest_version" 2, "Author removed from package"),
       (authorTitle "Foo" "Latest_version" 3, "Author removed from package")] ∧
     lookupAssoc c8After.pages (authorTitle "Foo" "Latest_version" 1) =
       some (sanitizeForWiki "Alan") ∧
     lookupAssoc c8After.pages (authorTitle "Foo" "Latest_version" 2) = none ∧
     lookupAssoc c8After.pages (authorTitle "Foo" "Latest_version" 3) = none ∧
     lookupAssoc c8Prior.pages (authorTitle "Foo" "Latest_version" 1) =
       some (sanitizeForWiki "Alice") ∧
     lookupAssoc c8Prior.pages (authorTitle "Foo" "Latest_version" 2) =
       some (sanitizeForWiki "Bob") ∧
     lookupAssoc c8Prior.pages (authorTitle "Foo" "Latest_version" 3) =
       some (sanitizeForWiki "Carol") ∧
     c8Prior.delLog = [] ∧
     authorsOf "Alice, Bob, Carol" = ["Alice", "Bob", "Carol"] ∧
     authorsOf "Alan" = ["Alan"]) :=
  ⟨fun _ => rfl,
   fun st q path v hau => updateVersionSubpages_honest st q path v hau,
   fun st q path v hau => updateVersionSubpages_honest_blank st q path v hau,
   fun env st q path v => updateVersionSubpages_delExt env st q path v,
   fun lp env st names => runFullSync_delExt lp env st names,
   fun env st lM sM uM aP names => syncExisting_delExt env st lM sM uM aP names,
   fun env st pkg => updateSingle_delLog env st pkg,
   by decide⟩

/-- Witness for claim C8 at a concrete input: the author field
`" Alice , Bob "` is split, trimmed and capped, and the honest reconciliation
of package `Foo` succeeds. -/
theorem C8_author_reconciliation_witness :
    goTrim (strOpt (mkPkgA "Foo" "1.0.0" " Alice , Bob ").authorName) ≠ "" ∧
    (updateVersionSubpages honestEnv stEmpty "Foo" "Latest_version"
      (mkPkgA "Foo" "1.0.0" " Alice , Bob ")).2 = none :=
  ⟨by decide,
   (C8_author_reconciliation.2.1 stEmpty "Foo" "Latest_version"
     (mkPkgA "Foo" "1.0.0" " Alice , Bob ") (by decide)).1⟩

theorem cpp_self (s : String) : comparePrePart s s = 0 := by
  unfold comparePrePart
  rw [if_pos rfl]

theorem cpp_ne_zero (s o : String) (h : s ≠ o) : comparePrePart s o ≠ 0 := by
  unfold comparePrePart
  rw [if_neg h]
  by_cases hs : s = ""
  · rw [if_pos hs]
    have ho : o ≠ "" := fun he => h (hs.trans he.symm)
    rw [if_pos ho]
    decide
  · rw [if_neg hs]
    by_cases ho : o = ""
    · rw [if_pos ho, if_pos hs]
      decide
    · rw [if_neg ho]
      cases hpo : parseUint64 o with
      | none =>
        cases hps : parseUint64 s with
        | none =>
          dsimp only
          by_cases hlt : o < s
          · rw [if_pos hlt]; decide
          · rw [if_neg hlt]; decide
        | some n => dsimp only; decide
      | some n =>
        cases hps : parseUint64 s with
        | none => dsimp only; decide
        | some m =>
          dsimp only
          by_cases hlt : n < m
          · rw [if_pos hlt]; decide
          · rw [if_neg hlt]; decide

theorem cpp_eq_zero_iff (s o : String) : comparePrePart s o = 0 ↔ s = o := by
  constructor
  · intro h
    by_contra hne
    exact cpp_ne_zero s o hne h
  · intro h
    subst h
    exact cpp_self s

theorem cpp_eq_one_iff (s o : String) : comparePrePart s o = 1 ↔
    (s ≠ "" ∧ o = "") ∨
    (s ≠ "" ∧ o ≠ "" ∧
      ((∃ oi si, parseUint64 o = some oi ∧ parseUint64 s = some si ∧ oi < si) ∨
       (parseUint64 o = none ∧ parseUint64 s = none ∧ o < s) ∨
       ((∃ oi, parseUint64 o = some oi) ∧ parseUint64 s = none))) := by
  constructor
  · intro h
    by_cases hso : s = o
    · rw [hso, cpp_self] at h
      exact absurd h (by decide)
    · unfold comparePrePart at h
      rw [if_neg hso] at h
      by_cases hs : s = ""
      · rw [if_pos hs] at h
        have ho : o ≠ "" := fun he => hso (hs.trans he.symm)
        rw [if_pos ho] at h
        exact absurd h (by decide)
      · rw [if_neg hs] at h
        by_cases ho : o = ""
        · exact Or.inl ⟨hs, ho⟩
        · rw [if_neg ho] at h
          refine Or.inr ⟨hs, ho, ?_⟩
          cases hpo : parseUint64 o with
          | none =>
            rw [hpo] at h
            cases hps : parseUint64 s with
            | none =>
              rw [hps] at h
              dsimp only at h
              by_cases hlt : o < s
              · exact Or.inr (Or.inl ⟨rfl, rfl, hlt⟩)
              · rw [if_neg hlt] at h
                exact absurd h (by decide)
            | some n =>
              rw [hps] at h
              dsimp only at h
              exact absurd h (by decide)
          | some n =>
            rw [hpo] at h
            cases hps : parseUint64 s with
            | none => exact Or.inr (Or.inr ⟨⟨n, rfl⟩, rfl⟩)
            | some m =>
              rw [hps] at h
              dsimp only at h
              by_cases hlt : n < m
              · exact Or.inl ⟨n, m, rfl, rfl, hlt⟩
              · rw [if_neg hlt] at h
                exact absurd h (by decide)
  · intro h
    rcases h with ⟨hs, ho⟩ | ⟨hs, ho, hcase⟩
    · have hso : s ≠ o := fun he => hs (he.trans ho)
      unfold comparePrePart
      rw [if_neg hso, if_neg hs, if_pos ho, if_pos hs]
    · have hso : s ≠ o := by
        rcases hcase with ⟨oi, si, hpo, hps, hlt⟩ | ⟨hpo, hps, hlt⟩ | ⟨⟨oi, hpo⟩, hps⟩
        · intro he
          rw [he, hpo] at hps
          have : oi = si := Option.some.inj hps
          omega
        · intro he
          rw [he] at hlt
          exact absurd hlt (lt_irrefl o)
        · intro he
          rw [he, hpo] at hps
          exact Option.noConfusion hps
      unfold comparePrePart
      rw [if_neg hso, if_neg hs, if_neg ho]
      rcases hcase with ⟨oi, si, hpo, hps, hlt⟩ | ⟨hpo, hps, hlt⟩ | ⟨⟨oi, hpo⟩, hps⟩
      · rw [hpo, hps]
        dsimp only
        rw [if_pos hlt]
      · rw [hpo, hps]
        dsimp only
        rw [if_pos hlt]
      · rw [hpo, hps]

theorem cpp_range (s o : String) :
    comparePrePart s o = 0 ∨ comparePrePart s o = 1 ∨ comparePrePart s o = -1 := by
  unfold comparePrePart
  by_cases hso : s = o
  · rw [if_pos hso]; exact Or.inl rfl
  · rw [if_neg hso]
    by_cases hs : s = ""
    · rw [if_pos hs]
      by_cases ho : o ≠ ""
      · rw [if_pos ho]; exact Or.inr (Or.inr rfl)
      · rw [if_neg ho]; exact Or.inr (Or.inl rfl)
    · rw [if_neg hs]
      by_cases ho : o = ""
      · rw [if_pos ho, if_pos hs]; exact Or.inr (Or.inl rfl)
      · rw [if_neg ho]
        cases hpo : parseUint64 o with
        | none =>
          cases hps : parseUint64 s with
          | none =>
            dsimp only
            by_cases hlt : o < s
            · rw [if_pos hlt]; exact Or.inr (Or.inl rfl)
            · rw [if_neg hlt]; exact Or.inr (Or.inr rfl)
          | some n => exact Or.inr (Or.inr rfl)
        | some n =>
          cases hps : parseUint64 s with
          | none => exact Or.inr (Or.inl rfl)
          | some m =>
            dsimp only
            by_cases hlt : n < m
            · rw [if_pos hlt]; exact Or.inr (Or.inl rfl)
            · rw [if_neg hlt]; exact Or.inr (Or.inr rfl)

theorem cpp_asymm (s o : String) (h1 : comparePrePart s o = 1)
    (h2 : comparePrePart o s = 1) : False := by
  rw [cpp_eq_one_iff] at h1 h2
  rcases h1 with ⟨hs1, ho1⟩ | ⟨hs1, ho1, hc1⟩
  · rcases h2 with ⟨hs2, ho2⟩ | ⟨hs2, ho2, hc2⟩
    · exact hs2 ho1
    · exact hs2 ho1
  · rcases h2 with ⟨hs2, ho2⟩ | ⟨hs2, ho2, hc2⟩
    · exact hs1 ho2
    · rcases hc1 with ⟨oi, si, hpo, hps, hlt⟩ | ⟨hpo, hps, hlt⟩ | ⟨⟨oi, hpo⟩, hps⟩
      · rcases hc2 with ⟨oi2, si2, hpo2, hps2, hlt2⟩ | ⟨hpo2, hps2, hlt2⟩ | ⟨⟨oi2, hpo2⟩, hps2⟩
        · rw [hpo] at hps2
          rw [hps] at hpo2
          have h3 : si = oi2 := Option.some.inj hpo2
          have h4 : oi = si2 := Option.some.inj hps2
          omega
        · rw [hps] at hpo2
          exact Option.noConfusion hpo2
        · rw [hpo] at hps2
          exact Option.noConfusion hps2
      · rcases hc2 with ⟨oi2, si2, hpo2, hps2, hlt2⟩ | ⟨hpo2, hps2, hlt2⟩ | ⟨⟨oi2, hpo2⟩, hps2⟩
        · rw [hps] at hpo2
          exact Option.noConfusion hpo2
        · exact absurd hlt2 (asymm hlt)
        · rw [hps] at hpo2
          exact Option.noConfusion hpo2
      · rcases hc2 with ⟨oi2, si2, hpo2, hps2, hlt2⟩ | ⟨hpo2, hps2, hlt2⟩ | ⟨⟨oi2, hpo2⟩, hps2⟩
        · rw [hps] at hpo2
          exact Option.noConfusion hpo2
        · rw [hpo] at hps2
          exact Option.noConfusion hps2
        · rw [hpo] at hps2
          exact Option.noConfusion hps2

theorem cpp_trans (a b c : String) (h1 : comparePrePart a b = 1)
    (h2 : comparePrePart b c = 1) : comparePrePart a c = 1 := by
  rw [cpp_eq_one_iff] at h1 h2 ⊢
  rcases h1 with ⟨ha1, hb1⟩ | ⟨ha1, hb1, hc1⟩
  · rcases h2 with ⟨hb2, hc2⟩ | ⟨hb2, hc2, hcc2⟩
    · exact absurd hb1 hb2
    · exact absurd hb1 hb2
  · rcases h2 with ⟨hb2, hc2⟩ | ⟨hb2, hc2, hcc2⟩
    · exact Or.inl ⟨ha1, hc2⟩
    · refine Or.inr ⟨ha1, hc2, ?_⟩
      rcases hc1 with ⟨bi, ai, hpb, hpa, hlt⟩ | ⟨hpb, hpa, hlt⟩ | ⟨⟨bi, hpb⟩, hpa⟩
      · rcases hcc2 with ⟨ci, bi2, hpc, hpb2, hlt2⟩ | ⟨hpc, hpb2, hlt2⟩ | ⟨⟨ci, hpc⟩, hpb2⟩
        · rw [hpb] at hpb2
          have hbb : bi = bi2 := Option.some.inj hpb2
          exact Or.inl ⟨ci, ai, hpc, hpa, by omega⟩
        · rw [hpb] at hpb2
          exact absurd hpb2 (Option.noConfusion ·)
        · rw [hpb] at hpb2
          exact absurd hpb2 (Option.noConfusion ·)
      · rcases hcc2 with ⟨ci, bi2, hpc, hpb2, hlt2⟩ | ⟨hpc, hpb2, hlt2⟩ | ⟨⟨ci, hpc⟩, hpb2⟩
        · rw [hpb] at hpb2
          exact absurd hpb2 (Option.noConfusion ·)
        · exact Or.inr (Or.inl ⟨hpc, hpa, lt_trans hlt2 hlt⟩)
        · exact Or.inr (Or.inr ⟨⟨ci, hpc⟩, hpa⟩)
      · rcases hcc2 with ⟨ci, bi2, hpc, hpb2, hlt2⟩ | ⟨hpc, hpb2, hlt2⟩ | ⟨⟨ci, hpc⟩, hpb2⟩
        · exact Or.inr (Or.inr ⟨⟨ci, hpc⟩, hpa⟩)
        · rw [hpb] at hpb2
          exact absurd hpb2 (Option.noConfusion ·)
        · rw [hpb] at hpb2
          exact absurd hpb2 (Option.noConfusion ·)

theorem cppl_self : ∀ l : List String, comparePreParts l l = 0 := by
  intro l
  induction l with
  | nil => rw [comparePreParts]
  | cons s ss ih =>
    rw [comparePreParts]
    rw [cpp_self, if_pos rfl]
    exact ih

theorem cppl_nil_left : ∀ B : List String, comparePreParts [] B ≠ 1 := by
  intro B
  induction B with
  | nil =>
    rw [comparePreParts]
    decide
  | cons o os ih =>
    rw [comparePreParts]
    by_cases h : comparePrePart "" o = 0
    · rw [h, if_pos rfl]
      exact ih
    · rw [if_neg h]
      have ho : o ≠ "" := by
        intro he
        subst he
        exact h (cpp_self "")
      unfold comparePrePart
      have hso : ("" : String) ≠ o := fun he => ho he.symm
      rw [if_neg hso, if_pos rfl, if_pos ho]
      decide

theorem cppl_step (A B : List String) (h : ¬(A = [] ∧ B = [])) :
    comparePreParts A B =
      (if comparePrePart (A.headD "") (B.headD "") = 0
       then comparePreParts A.tail B.tail
       else comparePrePart (A.headD "") (B.headD "")) := by
  cases A with
  | nil =>
    cases B with
    | nil => exact absurd ⟨rfl, rfl⟩ h
    | cons o os =>
      rw [comparePreParts]
      simp only [List.headD_nil, List.headD_cons, List.tail_nil, List.tail_cons]
  | cons s ss =>
    cases B with
    | nil =>
      rw [comparePreParts]
      simp only [List.headD_nil, List.headD_cons, List.tail_nil, List.tail_cons]
    | cons o os =>
      rw [comparePreParts]
      simp only [List.headD_cons, List.tail_cons]

theorem cppl_trans_fuel : ∀ (n : Nat) (A B C : List String),
    A.length + B.length + C.length ≤ n →
    comparePreParts A B = 1 → comparePreParts B C = 1 → comparePreParts A C = 1 := by
  intro n
  induction n with
  | zero =>
    intro A B C hlen h1 h2
    have hA : A = [] := List.eq_nil_of_length_eq_zero (by omega)
    have hB : B = [] := List.eq_nil_of_length_eq_zero (by omega)
    subst hA; subst hB
    rw [comparePreParts] at h1
    exact absurd h1 (by decide)
  | succ n ih =>
    intro A B C hlen h1 h2
    cases hAe : A with
    | nil => exact absurd (hAe ▸ h1) (cppl_nil_left B)
    | cons a as =>
    cases hBe : B with
    | nil => exact absurd (hBe ▸ h2) (cppl_nil_left C)
    | cons b bs =>
    subst hAe; subst hBe
    rw [cppl_step (a :: as) (b :: bs) (by simp)] at h1
    rw [cppl_step (b :: bs) C (by simp)] at h2
    rw [cppl_step (a :: as) C (by simp)]
    simp only [List.headD_cons, List.tail_cons] at h1 h2 ⊢
    by_cases hab : comparePrePart a b = 0
    · have hheq : a = b := (cpp_eq_zero_iff a b).mp hab
      rw [if_pos hab] at h1
      by_cases hbc : comparePrePart b (C.headD "") = 0
      · have hheq2 : b = C.headD "" := (cpp_eq_zero_iff b (C.headD "")).mp hbc
        rw [if_pos hbc] at h2
        have hac : comparePrePart a (C.headD "") = 0 := by
          rw [hheq, hheq2]
          exact cpp_self _
        rw [if_pos hac]
        refine ih as bs C.tail ?_ h1 h2
        have := List.length_tail C
        simp only [List.length_cons] at hlen
        omega
      · rw [if_neg hbc] at h2
        have hac : comparePrePart a (C.headD "") = 1 := by
          rw [hheq]
          exact h2
        rw [if_neg (by rw [hac]; decide), hac]
    · rw [if_neg hab] at h1
      by_cases hbc : comparePrePart b (C.headD "") = 0
      · have hheq2 : b = C.headD "" := (cpp_eq_zero_iff b (C.headD "")).mp hbc
        have hac : comparePrePart a (C.headD "") = 1 := by
          rw [← hheq2]
          exact h1
        rw [if_neg (by rw [hac]; decide), hac]
      · rw [if_neg hbc] at h2
        have hac : comparePrePart a (C.headD "") = 1 := cpp_trans a b (C.headD "") h1 h2
        rw [if_neg (by rw [hac]; decide), hac]

theorem cppl_trans (A B C : List String) (h1 : comparePreParts A B = 1)
    (h2 : comparePreParts B C = 1) : comparePreParts A C = 1 :=
  cppl_trans_fuel (A.length + B.length + C.length) A B C (le_refl _) h1 h2

theorem cppl_asymm_fuel : ∀ (n : Nat) (A B : List String), A.length + B.length ≤ n →
    comparePreParts A B = 1 → comparePreParts B A = 1 → False := by
  intro n
  induction n with
  | zero =>
    intro A B hlen h1 _
    have hA : A = [] := List.eq_nil_of_length_eq_zero (by omega)
    have hB : B = [] := List.eq_nil_of_length_eq_zero (by omega)
    subst hA; subst hB
    rw [comparePreParts] at h1
    exact absurd h1 (by decide)
  | succ n ih =>
    intro A B hlen h1 h2
    cases hAe : A with
    | nil => exact absurd (hAe ▸ h1) (cppl_nil_left B)
    | cons a as =>
    cases hBe : B with
    | nil => exact absurd (hBe ▸ h2) (cppl_nil_left A)
    | cons b bs =>
    subst hAe; subst hBe
    rw [cppl_step (a :: as) (b :: bs) (by simp)] at h1
    rw [cppl_step (b :: bs) (a :: as) (by simp)] at h2
    simp only [List.headD_cons, List.tail_cons] at h1 h2
    by_cases hab : comparePrePart a b = 0
    · have hheq : a = b := (cpp_eq_zero_iff a b).mp hab
      have hba : comparePrePart b a = 0 := by
        rw [hheq]
        exact cpp_self b
      rw [if_pos hab] at h1
      rw [if_pos hba] at h2
      refine ih as bs ?_ h1 h2
      simp only [List.length_cons] at hlen
      omega
    · rw [if_neg hab] at h1
      by_cases hba : comparePrePart b a = 0
      · have hheq : b = a := (cpp_eq_zero_iff b a).mp hba
        exact hab (by rw [hheq]; exact cpp_self a)
      · rw [if_neg hba] at h2
        exact cpp_asymm a b h1 h2

theorem cppl_asymm (A B : List String) (h1 : comparePreParts A B = 1)
    (h2 : comparePreParts B A = 1) : False :=
  cppl_asymm_fuel (A.length + B.length) A B (le_refl _) h1 h2

theorem cppl_range_fuel : ∀ (n : Nat) (A B : List String), A.length + B.length ≤ n →
    comparePreParts A B = -1 ∨ comparePreParts A B = 0 ∨ comparePreParts A B = 1 := by
  intro n
  induction n with
  | zero =>
    intro A B hlen
    have hA : A = [] := List.eq_nil_of_length_eq_zero (by omega)
    have hB : B = [] := List.eq_nil_of_length_eq_zero (by omega)
    subst hA; subst hB
    rw [comparePreParts]
    exact Or.inr (Or.inl rfl)
  | succ n ih =>
    intro A B hlen
    by_cases hnil : A = [] ∧ B = []
    · obtain ⟨hA, hB⟩ := hnil
      subst hA; subst hB
      rw [comparePreParts]
      exact Or.inr (Or.inl rfl)
    · rw [cppl_step A B hnil]
      by_cases h0 : comparePrePart (A.headD "") (B.headD "") = 0
      · rw [if_pos h0]
        refine ih A.tail B.tail ?_
        have hA := List.length_tail A
        have hB := List.length_tail B
        have : 1 ≤ A.length + B.length := by
          rcases Decidable.not_and_iff_or_not.mp hnil with h | h
          · have : A ≠ [] := h
            have : 0 < A.length := List.length_pos.mpr this
            omega
          · have : B ≠ [] := h
            have : 0 < B.length := List.length_pos.mpr this
            omega
        omega
      · rw [if_neg h0]
        rcases cpp_range (A.headD "") (B.headD "") with h | h | h
        · exact absurd h h0
        · exact Or.inr (Or.inr h)
        · exact Or.inl h

theorem cppl_range (A B : List String) :
    comparePreParts A B = -1 ∨ comparePreParts A B = 0 ∨ comparePreParts A B = 1 :=
  cppl_range_fuel (A.length + B.length) A B (le_refl _)

theorem cppr_trans (p q r : String) (h1 : comparePrerelease p q = 1)
    (h2 : comparePrerelease q r = 1) : comparePrerelease p r = 1 :=
  cppl_trans _ _ _ h1 h2

theorem cppr_asymm (p q : String) (h1 : comparePrerelease p q = 1)
    (h2 : comparePrerelease q p = 1) : False :=
  cppl_asymm _ _ h1 h2

theorem cppr_range (p q : String) :
    comparePrerelease p q = -1 ∨ comparePrerelease p q = 0 ∨ comparePrerelease p q = 1 :=
  cppl_range _ _

theorem cs_lt {v o : Nat} (h : v < o) : compareSegment v o = -1 := by
  unfold compareSegment
  rw [if_pos h]

theorem cs_gt {v o : Nat} (h : o < v) : compareSegment v o = 1 := by
  unfold compareSegment
  rw [if_neg (by omega), if_pos h]

theorem cs_eq {v o : Nat} (h : v = o) : compareSegment v o = 0 := by
  unfold compareSegment
  rw [if_neg (by omega), if_neg (by omega)]

theorem svCompare_def (v o : SemVer) : svCompare v o =
    (if compareSegment v.major o.major ≠ 0 then compareSegment v.major o.major
     else if compareSegment v.minor o.minor ≠ 0 then compareSegment v.minor o.minor
     else if compareSegment v.patch o.patch ≠ 0 then compareSegment v.patch o.patch
     else if v.pre = "" && o.pre = "" then 0
     else if v.pre = "" then 1
     else if o.pre = "" then -1
     else comparePrerelease v.pre o.pre) := rfl

theorem svCompare_eq_one_iff (v o : SemVer) : svCompare v o = 1 ↔
    (o.major < v.major ∨ (v.major = o.major ∧
      (o.minor < v.minor ∨ (v.minor = o.minor ∧
        (o.patch < v.patch ∨ (v.patch = o.patch ∧
          ((v.pre = "" ∧ o.pre ≠ "") ∨
           (v.pre ≠ "" ∧ o.pre ≠ "" ∧ comparePrerelease v.pre o.pre = 1)))))))) := by
  rw [svCompare_def]
  rcases Nat.lt_trichotomy v.major o.major with h1 | h1 | h1
  · rw [cs_lt h1, if_pos (by decide)]
    refine iff_of_false (by decide) ?_
    rintro (h | ⟨he, _⟩) <;> omega
  · rw [cs_eq h1, if_neg (not_not_intro (cs_eq h1 ▸ rfl))]
    rcases Nat.lt_trichotomy v.minor o.minor with h2 | h2 | h2
    · rw [cs_lt h2, if_pos (by decide)]
      refine iff_of_false (by decide) ?_
      rintro (h | ⟨he, h | ⟨he2, _⟩⟩) <;> omega
    · rw [cs_eq h2, if_neg (not_not_intro rfl)]
      rcases Nat.lt_trichotomy v.patch o.patch with h3 | h3 | h3
      · rw [cs_lt h3, if_pos (by decide)]
        refine iff_of_false (by decide) ?_
        rintro (h | ⟨he, h | ⟨he2, h | ⟨he3, _⟩⟩⟩) <;> omega
      · rw [cs_eq h3, if_neg (not_not_intro rfl)]
        by_cases hv : v.pre = ""
        · by_cases ho : o.pre = ""
          · rw [if_pos (by rw [hv, ho]; rfl)]
            refine iff_of_false (by decide) ?_
            rintro (h | ⟨he, h | ⟨he2, h | ⟨he3, ⟨_, hone⟩ | ⟨hone, _⟩⟩⟩⟩)
            · omega
            · omega
            · omega
            · exact hone ho
            · exact hone hv
          · rw [if_neg (by rw [hv]; simpa using ho), if_pos hv]
            refine iff_of_true rfl ?_
            exact Or.inr ⟨h1, Or.inr ⟨h2, Or.inr ⟨h3, Or.inl ⟨hv, ho⟩⟩⟩⟩
        · by_cases ho : o.pre = ""
          · rw [if_neg (by simpa using fun h => absurd h hv), if_neg hv, if_pos ho]
            refine iff_of_false (by decide) ?_
            rintro (h | ⟨he, h | ⟨he2, h | ⟨he3, ⟨hve, _⟩ | ⟨_, hoe, _⟩⟩⟩⟩)
            · omega
            · omega
            · omega
            · exact hv hve
            · exact hoe ho
          · rw [if_neg (by simpa using fun h => absurd h hv), if_neg hv, if_neg ho]
            constructor
            · intro h
              exact Or.inr ⟨h1, Or.inr ⟨h2, Or.inr ⟨h3, Or.inr ⟨hv, ho, h⟩⟩⟩⟩
            · rintro (h | ⟨he, h | ⟨he2, h | ⟨he3, ⟨hve, _⟩ | ⟨_, _, hone⟩⟩⟩⟩)
              · omega
              · omega
              · omega
              · exact absurd hve hv
              · exact hone
      · rw [cs_gt h3, if_pos (by decide)]
        exact iff_of_true rfl (Or.inr ⟨h1, Or.inr ⟨h2, Or.inl h3⟩⟩)
    · rw [cs_gt h2, if_pos (by decide)]
      exact iff_of_true rfl (Or.inr ⟨h1, Or.inl h2⟩)
  · rw [cs_gt h1, if_pos (by decide)]
    exact iff_of_true rfl (Or.inl h1)

theorem svCompare_self (v : SemVer) : svCompare v v = 0 := by
  rw [svCompare_def]
  rw [cs_eq rfl, if_neg (not_not_intro rfl), cs_eq rfl, if_neg (not_not_intro rfl),
    cs_eq rfl, if_neg (not_not_intro rfl)]
  by_cases hp : v.pre = ""
  · rw [if_pos (by rw [hp]; rfl)]
  · rw [if_neg (by simp [hp]), if_neg hp, if_neg hp]
    exact cppl_self _

theorem svCompare_range (v o : SemVer) :
    svCompare v o = -1 ∨ svCompare v o = 0 ∨ svCompare v o = 1 := by
  rw [svCompare_def]
  rcases Nat.lt_trichotomy v.major o.major with h1 | h1 | h1
  · rw [cs_lt h1, if_pos (by decide)]
    exact Or.inl rfl
  · rw [cs_eq h1, if_neg (not_not_intro rfl)]
    rcases Nat.lt_trichotomy v.minor o.minor with h2 | h2 | h2
    · rw [cs_lt h2, if_pos (by decide)]
      exact Or.inl rfl
    · rw [cs_eq h2, if_neg (not_not_intro rfl)]
      rcases Nat.lt_trichotomy v.patch o.patch with h3 | h3 | h3
      · rw [cs_lt h3, if_pos (by decide)]
        exact Or.inl rfl
      · rw [cs_eq h3, if_neg (not_not_intro rfl)]
        by_cases hv : v.pre = ""
        · by_cases ho : o.pre = ""
          · rw [if_pos (by rw [hv, ho]; rfl)]
            exact Or.inr (Or.inl rfl)
          · rw [if_neg (by rw [hv]; simpa using ho), if_pos hv]
            exact Or.inr (Or.inr rfl)
        · by_cases ho : o.pre = ""
          · rw [if_neg (by simpa using fun h => absurd h hv), if_neg hv, if_pos ho]
            exact Or.inl rfl
          · rw [if_neg (by simpa using fun h => absurd h hv), if_neg hv, if_neg ho]
            exact cppr_range v.pre o.pre
      · rw [cs_gt h3, if_pos (by decide)]
        exact Or.inr (Or.inr rfl)
    · rw [cs_gt h2, if_pos (by decide)]
      exact Or.inr (Or.inr rfl)
  · rw [cs_gt h1, if_pos (by decide)]
    exact Or.inr (Or.inr rfl)

theorem svGT_iff (v o : SemVer) : svGreaterThan v o = true ↔ svCompare v o = 1 := by
  unfold svGreaterThan
  rcases svCompare_range v o with h | h | h <;> rw [h] <;> constructor <;> intro h2
  · exact absurd h2 (by decide)
  · exact absurd h2 (by decide)
  · exact absurd h2 (by decide)
  · exact absurd h2 (by decide)
  · rfl
  · decide

theorem svGT_irrefl (v : SemVer) : svGreaterThan v v = false := by
  unfold svGreaterThan
  rw [svCompare_self]
  decide

theorem svGT_trans (a b c : SemVer) (h1 : svGreaterThan a b = true)
    (h2 : svGreaterThan b c = true) : svGreaterThan a c = true := by
  rw [svGT_iff] at h1 h2 ⊢
  rw [svCompare_eq_one_iff] at h1 h2 ⊢
  rcases h1 with h1M | ⟨h1M, h1r⟩
  · rcases h2 with h2M | ⟨h2M, h2r⟩
    · exact Or.inl (by omega)
    · exact Or.inl (by omega)
  · rcases h2 with h2M | ⟨h2M, h2r⟩
    · exact Or.inl (by omega)
    · refine Or.inr ⟨by omega, ?_⟩
      rcases h1r with h1m | ⟨h1m, h1r⟩
      · rcases h2r with h2m | ⟨h2m, h2r⟩
        · exact Or.inl (by omega)
        · exact Or.inl (by omega)
      · rcases h2r with h2m | ⟨h2m, h2r⟩
        · exact Or.inl (by omega)
        · refine Or.inr ⟨by omega, ?_⟩
          rcases h1r with h1p | ⟨h1p, h1pre⟩
          · rcases h2r with h2p | ⟨h2p, h2pre⟩
            · exact Or.inl (by omega)
            · exact Or.inl (by omega)
          · rcases h2r with h2p | ⟨h2p, h2pre⟩
            · exact Or.inl (by omega)
            · refine Or.inr ⟨by omega, ?_⟩
              rcases h1pre with ⟨hva, hvb⟩ | ⟨hva, hvb, hcab⟩
              · rcases h2pre with ⟨hvb2, hvc⟩ | ⟨hvb2, hvc, hcbc⟩
                · exact absurd hvb2 hvb
                · exact Or.inl ⟨hva, hvc⟩
              · rcases h2pre with ⟨hvb2, hvc⟩ | ⟨hvb2, hvc, hcbc⟩
                · exact absurd hvb2 hvb
                · exact Or.inr ⟨hva, hvc, cppr_trans a.pre b.pre c.pre hcab hcbc⟩

theorem svGT_asymm (a b : SemVer) (h1 : svGreaterThan a b = true)
    (h2 : svGreaterThan b a = true) : False := by
  rw [svGT_iff] at h1 h2
  rw [svCompare_eq_one_iff] at h1 h2
  rcases h1 with h1M | ⟨h1M, h1r⟩
  · rcases h2 with h2M | ⟨h2M, h2r⟩
    · omega
    · omega
  · rcases h2 with h2M | ⟨h2M, h2r⟩
    · omega
    · rcases h1r with h1m | ⟨h1m, h1r⟩
      · rcases h2r with h2m | ⟨h2m, h2r⟩
        · omega
        · omega
      · rcases h2r with h2m | ⟨h2m, h2r⟩
        · omega
        · rcases h1r with h1p | ⟨h1p, h1pre⟩
          · rcases h2r with h2p | ⟨h2p, h2pre⟩
            · omega
            · omega
          · rcases h2r with h2p | ⟨h2p, h2pre⟩
            · omega
            · rcases h1pre with ⟨hva, hvb⟩ | ⟨hva, hvb, hcab⟩
              · rcases h2pre with ⟨hvb2, hvc⟩ | ⟨hvb2, hvc, hcba⟩
                · exact hvb hvb2
                · exact hvc hva
              · rcases h2pre with ⟨hvb2, hvc⟩ | ⟨hvb2, hvc, hcba⟩
                · exact hvb hvb2
                · exact cppr_asymm a.pre b.pre hcab hcba

theorem trioStep_fields (st : TrioState) (v : Package) :
    (trioStep st v).bestLatest = updMax (fun _ => true) st.bestLatest v ∧
    (trioStep st v).bestStable = updMax (fun sv => sv.pre == "") st.bestStable v ∧
    (trioStep st v).bestUnstable = updMax (fun sv => sv.pre != "") st.bestUnstable v := by
  unfold trioStep updMax
  cases hp : newVersion (goTrim v.version) with
  | none => exact ⟨rfl, rfl, rfl⟩
  | some sv =>
    dsimp only
    by_cases hpre : sv.pre = ""
    · rw [if_pos hpre]
      refine ⟨?_, ?_, ?_⟩
      · rw [if_pos rfl]
      · rw [if_pos (by simp [hpre])]
      · rw [if_neg (by simp [hpre])]
    · rw [if_neg hpre]
      refine ⟨?_, ?_, ?_⟩
      · rw [if_pos rfl]
      · rw [if_neg (by simp [hpre])]
      · rw [if_pos (by simp [hpre])]

theorem computeTrio_fields : ∀ (l : List Package) (st : TrioState),
    (l.foldl trioStep st).bestLatest = l.foldl (updMax (fun _ => true)) st.bestLatest ∧
    (l.foldl trioStep st).bestStable =
      l.foldl (updMax (fun sv => sv.pre == "")) st.bestStable ∧
    (l.foldl trioStep st).bestUnstable =
      l.foldl (updMax (fun sv => sv.pre != "")) st.bestUnstable := by
  intro l
  induction l with
  | nil => intro st; exact ⟨rfl, rfl, rfl⟩
  | cons v rest ih =>
    intro st
    simp only [List.foldl_cons]
    obtain ⟨h1, h2, h3⟩ := ih (trioStep st v)
    obtain ⟨g1, g2, g3⟩ := trioStep_fields st v
    exact ⟨by rw [h1, g1], by rw [h2, g2], by rw [h3, g3]⟩

theorem updMax_some_step (φ : SemVer → Bool) (b0 : SemVer) (bp0 v : Package) :
    updMax φ (some (b0, bp0)) v = some (b0, bp0) ∨
    (∃ sv, updMax φ (some (b0, bp0)) v = some (sv, v) ∧
      newVersion (goTrim v.version) = some sv ∧ φ sv = true ∧
      svGreaterThan sv b0 = true) := by
  unfold updMax
  cases hp : newVersion (goTrim v.version) with
  | none => exact Or.inl rfl
  | some sv =>
    dsimp only
    by_cases hφ : φ sv = true
    · rw [if_pos hφ]
      by_cases hgt : svGreaterThan sv b0 = true
      · rw [if_pos hgt]
        exact Or.inr ⟨sv, rfl, rfl, hφ, hgt⟩
      · rw [if_neg hgt]
        exact Or.inl rfl
    · rw [if_neg hφ]
      exact Or.inl rfl

theorem updMax_none_step (φ : SemVer → Bool) (v : Package) :
    updMax φ none v = none ∨
    (∃ sv, updMax φ none v = some (sv, v) ∧
      newVersion (goTrim v.version) = some sv ∧ φ sv = true) := by
  unfold updMax
  cases hp : newVersion (goTrim v.version) with
  | none => exact Or.inl rfl
  | some sv =>
    dsimp only
    by_cases hφ : φ sv = true
    · rw [if_pos hφ]
      exact Or.inr ⟨sv, rfl, rfl, hφ⟩
    · rw [if_neg hφ]
      exact Or.inl rfl

theorem updMax_none_eq (φ : SemVer → Bool) (v : Package)
    (h : ∀ sv, newVersion (goTrim v.version) = some sv → φ sv = false) :
    updMax φ none v = none := by
  unfold updMax
  cases hp : newVersion (goTrim v.version) with
  | none => rfl
  | some sv =>
    dsimp only
    rw [if_neg (by rw [h sv hp]; decide)]

theorem updMax_fold_some (φ : SemVer → Bool) :
    ∀ (l : List Package) (b : SemVer) (bp : Package),
      ∃ b2 bp2, l.foldl (updMax φ) (some (b, bp)) = some (b2, bp2) := by
  intro l
  induction l with
  | nil => intro b bp; exact ⟨b, bp, rfl⟩
  | cons v rest ih =>
    intro b bp
    rw [List.foldl_cons]
    rcases updMax_some_step φ b bp v with h | ⟨sv, h, _, _, _⟩
    · rw [h]; exact ih b bp
    · rw [h]; exact ih sv v

theorem updMax_fold_none_iff (φ : SemVer → Bool) :
    ∀ (l : List Package), l.foldl (updMax φ) none = none ↔
      ∀ p ∈ l, ∀ sv, newVersion (goTrim p.version) = some sv → φ sv = false := by
  intro l
  induction l with
  | nil =>
    constructor
    · intro _ p hp
      exact absurd hp (by simp)
    · intro _
      rfl
  | cons v rest ih =>
    rw [List.foldl_cons]
    constructor
    · intro h
      rcases updMax_none_step φ v with h0 | ⟨sv, h0, hpv, hφv⟩
      · rw [h0] at h
        intro p hp sv hsv
        rcases List.mem_cons.mp hp with hp | hp
        · subst hp
          unfold updMax at h0
          rw [hsv] at h0
          dsimp only at h0
          cases hφ : φ sv with
          | false => rfl
          | true =>
            rw [if_pos hφ] at h0
            exact absurd h0 (by simp)
        · exact (ih.mp h) p hp sv hsv
      · rw [h0] at h
        obtain ⟨b2, bp2, hsome⟩ := updMax_fold_some φ rest sv v
        rw [hsome] at h
        exact absurd h (by simp)
    · intro h
      have h0 : updMax φ none v = none :=
        updMax_none_eq φ v (fun sv hsv => h v (by simp) sv hsv)
      rw [h0]
      exact ih.mpr (fun p hp sv hsv => h p (by simp [hp]) sv hsv)

theorem updMax_fold_mem (φ : SemVer → Bool) :
    ∀ (l : List Package) (cur : Option (SemVer × Package)) (b : SemVer) (bp : Package),
      l.foldl (updMax φ) cur = some (b, bp) →
      (cur = some (b, bp) ∨ (bp ∈ l ∧ newVersion (goTrim bp.version) = some b ∧ φ b = true)) := by
  intro l
  induction l with
  | nil =>
    intro cur b bp h
    exact Or.inl h
  | cons v rest ih =>
    intro cur b bp h
    rw [List.foldl_cons] at h
    rcases ih (updMax φ cur v) b bp h with hstep | ⟨hm, hpar, hφ⟩
    · cases cur with
      | none =>
        rcases updMax_none_step φ v with h0 | ⟨sv, h0, hpv, hφv⟩
        · rw [h0] at hstep
          exact Or.inl hstep
        · rw [h0] at hstep
          have hb : sv = b ∧ v = bp := by
            have := Option.some.inj hstep
            exact ⟨congrArg Prod.fst this, congrArg Prod.snd this⟩
          obtain ⟨hb1, hb2⟩ := hb
          subst hb1; subst hb2
          exact Or.inr ⟨by simp, hpv, hφv⟩
      | some cb =>
        rcases updMax_some_step φ cb.1 cb.2 v with h0 | ⟨sv, h0, hpv, hφv, _⟩
        · rw [← h0]
          exact Or.inl hstep
        · rw [h0] at hstep
          have hb : sv = b ∧ v = bp := by
            have := Option.some.inj hstep
            exact ⟨congrArg Prod.fst this, congrArg Prod.snd this⟩
          obtain ⟨hb1, hb2⟩ := hb
          subst hb1; subst hb2
          exact Or.inr ⟨by simp, hpv, hφv⟩
    · exact Or.inr ⟨by simp [hm], hpar, hφ⟩

theorem updMax_fold_chain (φ : SemVer → Bool) :
    ∀ (l : List Package) (b0 : SemVer) (bp0 : Package) (b : SemVer) (bp : Package),
      l.foldl (updMax φ) (some (b0, bp0)) = some (b, bp) →
      (b = b0 ∨ svGreaterThan b b0 = true) := by
  intro l
  induction l with
  | nil =>
    intro b0 bp0 b bp h
    have := Option.some.inj h
    exact Or.inl (congrArg Prod.fst this).symm
  | cons v rest ih =>
    intro b0 bp0 b bp h
    rw [List.foldl_cons] at h
    rcases updMax_some_step φ b0 bp0 v with h0 | ⟨sv, h0, hpv, hφv, hgt⟩
    · rw [h0] at h
      exact ih b0 bp0 b bp h
    · rw [h0] at h
      rcases ih sv v b bp h with hb | hb
      · subst hb
        exact Or.inr hgt
      · exact Or.inr (svGT_trans b sv b0 hb hgt)

theorem updMax_fold_max (φ : SemVer → Bool) :
    ∀ (l : List Package) (cur : Option (SemVer × Package)) (b : SemVer) (bp : Package),
      l.foldl (updMax φ) cur = some (b, bp) →
      ∀ p ∈ l, ∀ sv, newVersion (goTrim p.version) = some sv → φ sv = true →
        svGreaterThan sv b = false := by
  intro l
  induction l with
  | nil =>
    intro cur b bp h p hp
    exact absurd hp (by simp)
  | cons v rest ih =>
    intro cur b bp h p hp sv hsv hφ
    rw [List.foldl_cons] at h
    rcases List.mem_cons.mp hp with hpv | hpr
    · subst hpv
      cases hc : cur with
      | none =>
        have hupd : updMax φ none p = some (sv, p) := by
          simp [updMax, hsv, hφ]
        rw [hc] at h
        rw [hupd] at h
        rcases updMax_fold_chain φ rest sv p b bp h with hb | hb
        · subst hb
          exact svGT_irrefl b
        · cases hgt : svGreaterThan sv b with
          | false => rfl
          | true => exact absurd (svGT_asymm sv b hgt hb) (fun f => f)
      | some c =>
        rcases c with ⟨c0, cp0⟩
        have hupd : updMax φ (some (c0, cp0)) p =
            (if svGreaterThan sv c0 = true then some (sv, p) else some (c0, cp0)) := by
          simp [updMax, hsv, hφ]
        rw [hc] at h
        rw [hupd] at h
        by_cases hgt0 : svGreaterThan sv c0 = true
        · rw [if_pos hgt0] at h
          rcases updMax_fold_chain φ rest sv p b bp h with hb | hb
          · subst hb
            exact svGT_irrefl b
          · cases hgt : svGreaterThan sv b with
            | false => rfl
            | true => exact absurd (svGT_asymm sv b hgt hb) (fun f => f)
        · rw [if_neg hgt0] at h
          rcases updMax_fold_chain φ rest c0 cp0 b bp h with hb | hb
          · subst hb
            exact Bool.eq_false_iff.mpr (fun hg => hgt0 hg)
          · cases hgt : svGreaterThan sv b with
            | false => rfl
            | true => exact absurd (svGT_trans sv b c0 hgt hb) hgt0
    · exact ih (updMax φ cur v) b bp h p hpr sv hsv hφ

theorem updMax_fold_spec (φ : SemVer → Bool) (versions : List Package) :
    (versions.foldl (updMax φ) none = none ↔
      ∀ p ∈ versions, ∀ sv, newVersion (goTrim p.version) = some sv → φ sv = false) ∧
    (∀ b bp, versions.foldl (updMax φ) none = some (b, bp) →
      bp ∈ versions ∧ newVersion (goTrim bp.version) = some b ∧ φ b = true ∧
      ∀ p ∈ versions, ∀ sv, newVersion (goTrim p.version) = some sv → φ sv = true →
        svGreaterThan sv b = false) := by
  refine ⟨updMax_fold_none_iff φ versions, ?_⟩
  intro b bp h
  rcases updMax_fold_mem φ versions none b bp h with hc | ⟨hm, hpar, hφ⟩
  · exact absurd hc (by simp)
  · exact ⟨hm, hpar, hφ, updMax_fold_max φ versions none b bp h⟩

theorem computeTrio_latest (versions : List Package) :
    ((computeTrio versions).bestLatest = none ↔
      ∀ p ∈ versions, newVersion (goTrim p.version) = none) ∧
    (∀ b bp, (computeTrio versions).bestLatest = some (b, bp) →
      bp ∈ versions ∧ newVersion (goTrim bp.version) = some b ∧
      ∀ p ∈ versions, ∀ sv, newVersion (goTrim p.version) = some sv →
        svGreaterThan sv b = false) := by
  have hf := (computeTrio_fields versions ⟨none, none, none⟩).1
  have hct : computeTrio versions = versions.foldl trioStep ⟨none, none, none⟩ := rfl
  rw [hct, hf]
  constructor
  · rw [updMax_fold_none_iff]
    constructor
    · intro h p hp
      cases hpar : newVersion (goTrim p.version) with
      | none => rfl
      | some sv => exact absurd (h p hp sv hpar) (by decide)
    · intro h p hp sv hpar
      rw [h p hp] at hpar
      exact Option.noConfusion hpar
  · intro b bp h
    obtain ⟨hm, hpar, _, hmax⟩ := (updMax_fold_spec (fun _ => true) versions).2 b bp h
    exact ⟨hm, hpar, fun p hp sv hsv => hmax p hp sv hsv rfl⟩

theorem computeTrio_stable (versions : List Package) :
    ((computeTrio versions).bestStable = none ↔
      ∀ p ∈ versions, ∀ sv, newVersion (goTrim p.version) = some sv → sv.pre ≠ "") ∧
    (∀ b bp, (computeTrio versions).bestStable = some (b, bp) →
      bp ∈ versions ∧ newVersion (goTrim bp.version) = some b ∧ b.pre = "" ∧
      ∀ p ∈ versions, ∀ sv, newVersion (goTrim p.version) = some sv → sv.pre = "" →
        svGreaterThan sv b = false) := by
  have hf := (computeTrio_fields versions ⟨none, none, none⟩).2.1
  have hct : computeTrio versions = versions.foldl trioStep ⟨none, none, none⟩ := rfl
  rw [hct, hf]
  constructor
  · rw [updMax_fold_none_iff]
    constructor
    · intro h p hp sv hpar
      have := h p hp sv hpar
      simpa using this
    · intro h p hp sv hpar
      have := h p hp sv hpar
      simpa using this
  · intro b bp h
    obtain ⟨hm, hpar, hφ, hmax⟩ := (updMax_fold_spec (fun sv => sv.pre == "") versions).2 b bp h
    refine ⟨hm, hpar, by simpa using hφ, ?_⟩
    intro p hp sv hsv hpre
    exact hmax p hp sv hsv (by simpa using hpre)

theorem computeTrio_unstable (versions : List Package) :
    ((computeTrio versions).bestUnstable = none ↔
      ∀ p ∈ versions, ∀ sv, newVersion (goTrim p.version) = some sv → sv.pre = "") ∧
    (∀ b bp, (computeTrio versions).bestUnstable = some (b, bp) →
      bp ∈ versions ∧ newVersion (goTrim bp.version) = some b ∧ b.pre ≠ "" ∧
      ∀ p ∈ versions, ∀ sv, newVersion (goTrim p.version) = some sv → sv.pre ≠ "" →
        svGreaterThan sv b = false) := by
  have hf := (computeTrio_fields versions ⟨none, none, none⟩).2.2
  have hct : computeTrio versions = versions.foldl trioStep ⟨none, none, none⟩ := rfl
  rw [hct, hf]
  constructor
  · rw [updMax_fold_none_iff]
    constructor
    · intro h p hp sv hpar
      have := h p hp sv hpar
      simpa using this
    · intro h p hp sv hpar
      have := h p hp sv hpar
      simpa using this
  · intro b bp h
    obtain ⟨hm, hpar, hφ, hmax⟩ := (updMax_fold_spec (fun sv => sv.pre != "") versions).2 b bp h
    refine ⟨hm, hpar, by simpa using hφ, ?_⟩
    intro p hp sv hsv hpre
    exact hmax p hp sv hsv (by simpa using hpre)

theorem CLSU_eq (m : List (String × List Package)) :
    ComputeLatestStableUnstable m = m.foldl clsuStep ([], [], []) := rfl

theorem clsuStep_lookup_ne
    (acc : List (String × Package) × List (String × Package) × List (String × Package))
    (kv : String × List Package) (k : String) (hk : k ≠ kv.1) :
    lookupAssoc (clsuStep acc kv).1 k = lookupAssoc acc.1 k ∧
    lookupAssoc (clsuStep acc kv).2.1 k = lookupAssoc acc.2.1 k ∧
    lookupAssoc (clsuStep acc kv).2.2 k = lookupAssoc acc.2.2 k := by
  unfold clsuStep
  dsimp only
  refine ⟨?_, ?_, ?_⟩
  · cases hb : (computeTrio kv.2).bestLatest with
    | none => rfl
    | some x =>
      rcases x with ⟨sv, p⟩
      exact lookupAssoc_putAssoc_ne acc.1 kv.1 k p hk
  · cases hb : (computeTrio kv.2).bestStable with
    | none => rfl
    | some x =>
      rcases x with ⟨sv, p⟩
      exact lookupAssoc_putAssoc_ne acc.2.1 kv.1 k p hk
  · cases hb : (computeTrio kv.2).bestUnstable with
    | none => rfl
    | some x =>
      rcases x with ⟨sv, p⟩
      exact lookupAssoc_putAssoc_ne acc.2.2 kv.1 k p hk

theorem clsu_fold_frame :
    ∀ (m : List (String × List Package))
      (acc : List (String × Package) × List (String × Package) × List (String × Package))
      (k : String), k ∉ m.map Prod.fst →
      lookupAssoc (m.foldl clsuStep acc).1 k = lookupAssoc acc.1 k ∧
      lookupAssoc (m.foldl clsuStep acc).2.1 k = lookupAssoc acc.2.1 k ∧
      lookupAssoc (m.foldl clsuStep acc).2.2 k = lookupAssoc acc.2.2 k := by
  intro m
  induction m with
  | nil => intro acc k _; exact ⟨rfl, rfl, rfl⟩
  | cons kv rest ih =>
    intro acc k hk
    have hk1 : k ≠ kv.1 := by
      intro he
      exact hk (by simp [he])
    have hk2 : k ∉ rest.map Prod.fst := by
      intro he
      exact hk (by simp [he])
    rw [List.foldl_cons]
    obtain ⟨i1, i2, i3⟩ := ih (clsuStep acc kv) k hk2
    obtain ⟨s1, s2, s3⟩ := clsuStep_lookup_ne acc kv k hk1
    exact ⟨i1.trans s1, i2.trans s2, i3.trans s3⟩

theorem clsu_lookup :
    ∀ (m : List (String × List Package))
      (acc : List (String × Package) × List (String × Package) × List (String × Package))
      (k : String), (m.map Prod.fst).Nodup →
      (∀ k2, k2 ∈ m.map Prod.fst →
        lookupAssoc acc.1 k2 = none ∧ lookupAssoc acc.2.1 k2 = none ∧
        lookupAssoc acc.2.2 k2 = none) →
      k ∈ m.map Prod.fst →
      ∃ versions, lookupAssoc m k = some versions ∧
        lookupAssoc (m.foldl clsuStep acc).1 k =
          ((computeTrio versions).bestLatest).map (fun x => x.2) ∧
        lookupAssoc (m.foldl clsuStep acc).2.1 k =
          ((computeTrio versions).bestStable).map (fun x => x.2) ∧
        lookupAssoc (m.foldl clsuStep acc).2.2 k =
          ((computeTrio versions).bestUnstable).map (fun x => x.2) := by
  intro m
  induction m with
  | nil =>
    intro acc k _ _ hk
    exact absurd hk (by simp)
  | cons kv rest ih =>
    intro acc k hnd hacc hk
    rw [List.map_cons] at hnd hk
    have hnd1 : kv.1 ∉ rest.map Prod.fst := (List.nodup_cons.mp hnd).1
    have hnd2 : (rest.map Prod.fst).Nodup := (List.nodup_cons.mp hnd).2
    rw [List.foldl_cons]
    by_cases hkk : k = kv.1
    · subst hkk
      refine ⟨kv.2, ?_, ?_⟩
      · rw [lookupAssoc_cons, if_pos rfl]
      · obtain ⟨f1, f2, f3⟩ := clsu_fold_frame rest (clsuStep acc kv) kv.1 hnd1
        obtain ⟨a1, a2, a3⟩ := hacc kv.1 (by rw [List.map_cons]; exact List.mem_cons_self _ _)
        refine ⟨?_, ?_, ?_⟩
        · rw [f1]
          unfold clsuStep
          dsimp only
          cases hb : (computeTrio kv.2).bestLatest with
          | none => rw [a1]; rfl
          | some x =>
            rcases x with ⟨sv, p⟩
            rw [lookupAssoc_putAssoc_self]
            rfl
        · rw [f2]
          unfold clsuStep
          dsimp only
          cases hb : (computeTrio kv.2).bestStable with
          | none => rw [a2]; rfl
          | some x =>
            rcases x with ⟨sv, p⟩
            rw [lookupAssoc_putAssoc_self]
            rfl
        · rw [f3]
          unfold clsuStep
          dsimp only
          cases hb : (computeTrio kv.2).bestUnstable with
          | none => rw [a3]; rfl
          | some x =>
            rcases x with ⟨sv, p⟩
            rw [lookupAssoc_putAssoc_self]
            rfl
    · have hkrest : k ∈ rest.map Prod.fst := by
        rcases List.mem_cons.mp hk with h | h
        · exact absurd h hkk
        · exact h
      have hacc2 : ∀ k2, k2 ∈ rest.map Prod.fst →
          lookupAssoc (clsuStep acc kv).1 k2 = none ∧
          lookupAssoc (clsuStep acc kv).2.1 k2 = none ∧
          lookupAssoc (clsuStep acc kv).2.2 k2 = none := by
        intro k2 hk2
        have hk2ne : k2 ≠ kv.1 := by
          intro he
          exact hnd1 (he ▸ hk2)
        obtain ⟨s1, s2, s3⟩ := clsuStep_lookup_ne acc kv k2 hk2ne
        obtain ⟨a1, a2, a3⟩ := hacc k2
          (by rw [List.map_cons]; exact List.mem_cons_of_mem _ hk2)
        exact ⟨s1.trans a1, s2.trans a2, s3.trans a3⟩
      obtain ⟨versions, hv, h1, h2, h3⟩ := ih (clsuStep acc kv) k hnd2 hacc2 hkrest
      refine ⟨versions, ?_, h1, h2, h3⟩
      rw [lookupAssoc_cons, if_neg (fun he => hkk he.symm)]
      exact hv

theorem clsu_lookup_notin (m : List (String × List Package)) (k : String)
    (hk : k ∉ m.map Prod.fst) :
    lookupAssoc (ComputeLatestStableUnstable m).1 k = none ∧
    lookupAssoc (ComputeLatestStableUnstable m).2.1 k = none ∧
    lookupAssoc (ComputeLatestStableUnstable m).2.2 k = none := by
  rw [CLSU_eq]
  obtain ⟨f1, f2, f3⟩ := clsu_fold_frame m ([], [], []) k hk
  exact ⟨f1, f2, f3⟩

theorem CLSU_lookup (m : List (String × List Package)) (k : String)
    (hnd : (m.map Prod.fst).Nodup) (hk : k ∈ m.map Prod.fst) :
    ∃ versions, lookupAssoc m k = some versions ∧
      lookupAssoc (ComputeLatestStableUnstable m).1 k =
        ((computeTrio versions).bestLatest).map (fun x => x.2) ∧
      lookupAssoc (ComputeLatestStableUnstable m).2.1 k =
        ((computeTrio versions).bestStable).map (fun x => x.2) ∧
      lookupAssoc (ComputeLatestStableUnstable m).2.2 k =
        ((computeTrio versions).bestUnstable).map (fun x => x.2) := by
  rw [CLSU_eq]
  exact clsu_lookup m ([], [], []) k hnd (fun k2 _ => ⟨rfl, rfl, rfl⟩) hk

/-- Claim C2 (counterexample): the result of `ComputeLatestStableUnstable` is
not independent of the input list order.  The version strings `1.0.0` and
`v1.0.0` parse to the same semantic version; `GreaterThan` is strict, so the
first-seen record wins the tie, and reversing the version list changes the
`latest` entry. -/
theorem C2_counterexample :
    newVersion "1.0.0" = newVersion "v1.0.0" ∧
    ([mkPkg "p" "v1.0.0", mkPkg "p" "1.0.0"] =
      [mkPkg "p" "1.0.0", mkPkg "p" "v1.0.0"].reverse) ∧
    lookupAssoc (ComputeLatestStableUnstable
      [("p", [mkPkg "p" "1.0.0", mkPkg "p" "v1.0.0"])]).1 "p" =
      some (mkPkg "p" "1.0.0") ∧
    lookupAssoc (ComputeLatestStableUnstable
      [("p", [mkPkg "p" "v1.0.0", mkPkg "p" "1.0.0"])]).1 "p" =
      some (mkPkg "p" "v1.0.0") ∧
    lookupAssoc (ComputeLatestStableUnstable
      [("p", [mkPkg "p" "1.0.0", mkPkg "p" "v1.0.0"])]).1 "p" ≠
    lookupAssoc (ComputeLatestStableUnstable
      [("p", [mkPkg "p" "v1.0.0", mkPkg "p" "1.0.0"])]).1 "p" := by
  refine ⟨by decide, by decide, by decide, by decide, by decide⟩

/-- Claim C2 (amended): per package (under the key uniqueness that
`BuildAllVersionsMapFromAPI` guarantees), `ComputeLatestStableUnstable`
returns in `latest` a record of the package's list whose version parses and
which no other parsable version strictly exceeds (`GreaterThan`); `stable`
and `unstable` are the analogous maximal records among parsable versions with
empty / non-empty prerelease; unparsable strings are discarded and a package
with no parsable (resp. no stable / no unstable) version is absent from the
corresponding map.  Because `GreaterThan` is strict, ties keep the
first-seen record, so the result is only maximal, not order-independent.
The claim's two examples hold: for `{1.0.0, 1.1.0, 2.0.0-beta.1}` latest is
`2.0.0-beta.1`, stable `1.1.0`, unstable `2.0.0-beta.1`; for
`{1.0.0, 1.0.0-rc.1}` latest and stable are `1.0.0`, unstable `1.0.0-rc.1`. -/
theorem C2_amended :
    (∀ versions : List Package,
      ((computeTrio versions).bestLatest = none ↔
        ∀ p ∈ versions, newVersion (goTrim p.version) = none) ∧
      (∀ b bp, (computeTrio versions).bestLatest = some (b, bp) →
        bp ∈ versions ∧ newVersion (goTrim bp.version) = some b ∧
        ∀ p ∈ versions, ∀ sv, newVersion (goTrim p.version) = some sv →
          svGreaterThan sv b = false)) ∧
    (∀ versions : List Package,
      ((computeTrio versions).bestStable = none ↔
        ∀ p ∈ versions, ∀ sv, newVersion (goTrim p.version) = some sv → sv.pre ≠ "") ∧
      (∀ b bp, (computeTrio versions).bestStable = some (b, bp) →
        bp ∈ versions ∧ newVersion (goTrim bp.version) = some b ∧ b.pre = "" ∧
        ∀ p ∈ versions, ∀ sv, newVersion (goTrim p.version) = some sv → sv.pre = "" →
          svGreaterThan sv b = false)) ∧
    (∀ versions : List Package,
      ((computeTrio versions).bestUnstable = none ↔
        ∀ p ∈ versions, ∀ sv, newVersion (goTrim p.version) = some sv → sv.pre = "") ∧
      (∀ b bp, (computeTrio versions).bestUnstable = some (b, bp) →
        bp ∈ versions ∧ newVersion (goTrim bp.version) = some b ∧ b.pre ≠ "" ∧
        ∀ p ∈ versions, ∀ sv, newVersion (goTrim p.version) = some sv → sv.pre ≠ "" →
          svGreaterThan sv b = false)) ∧
    (∀ (m : List (String × List Package)) (k : String),
      (m.map Prod.fst).Nodup → k ∈ m.map Prod.fst →
      ∃ versions, lookupAssoc m k = some versions ∧
        lookupAssoc (ComputeLatestStableUnstable m).1 k =
          ((computeTrio versions).bestLatest).map (fun x => x.2) ∧
        lookupAssoc (ComputeLatestStableUnstable m).2.1 k =
          ((computeTrio versions).bestStable).map (fun x => x.2) ∧
        lookupAssoc (ComputeLatestStableUnstable m).2.2 k =
          ((computeTrio versions).bestUnstable).map (fun x => x.2)) ∧
    (∀ (m : List (String × List Package)) (k : String), k ∉ m.map Prod.fst →
      lookupAssoc (ComputeLatestStableUnstable m).1 k = none ∧
      lookupAssoc (ComputeLatestStableUnstable m).2.1 k = none ∧
      lookupAssoc (ComputeLatestStableUnstable m).2.2 k = none) ∧
    (lookupAssoc (ComputeLatestStableUnstable
        [("p", [mkPkg "p" "1.0.0", mkPkg "p" "1.1.0", mkPkg "p" "2.0.0-beta.1"])]).1 "p" =
      some (mkPkg "p" "2.0.0-beta.1") ∧
     lookupAssoc (ComputeLatestStableUnstable
        [("p", [mkPkg "p" "1.0.0", mkPkg "p" "1.1.0", mkPkg "p" "2.0.0-beta.1"])]).2.1 "p" =
      some (mkPkg "p" "1.1.0") ∧
     lookupAssoc (ComputeLatestStableUnstable
        [("p", [mkPkg "p" "1.0.0", mkPkg "p" "1.1.0", mkPkg "p" "2.0.0-beta.1"])]).2.2 "p" =
      some (mkPkg "p" "2.0.0-beta.1")) ∧
    (lookupAssoc (ComputeLatestStableUnstable
        [("p", [mkPkg "p" "1.0.0", mkPkg "p" "1.0.0-rc.1"])]).1 "p" =
      some (mkPkg "p" "1.0.0") ∧
     lookupAssoc (ComputeLatestStableUnstable
        [("p", [mkPkg "p" "1.0.0", mkPkg "p" "1.0.0-rc.1"])]).2.1 "p" =
      some (mkPkg "p" "1.0.0") ∧
     lookupAssoc (ComputeLatestStableUnstable
        [("p", [mkPkg "p" "1.0.0", mkPkg "p" "1.0.0-rc.1"])]).2.2 "p" =
      some (mkPkg "p" "1.0.0-rc.1")) :=
  ⟨computeTrio_latest, computeTrio_stable, computeTrio_unstable,
   fun m k hnd hk => CLSU_lookup m k hnd hk,
   fun m k hk => clsu_lookup_notin m k hk,
   by refine ⟨by decide, by decide, by decide⟩,
   by refine ⟨by decide, by decide, by decide⟩⟩

/-- Witness for claim C2 at a concrete input: the per-package lookup
characterization applied to a one-entry map. -/
theorem C2_amended_witness :
    (([("q", [mkPkg "q" "1.2.3"])].map Prod.fst : List String)).Nodup ∧
    "q" ∈ ([("q", [mkPkg "q" "1.2.3"])].map Prod.fst : List String) ∧
    (∃ versions, lookupAssoc [("q", [mkPkg "q" "1.2.3"])] "q" = some versions ∧
      lookupAssoc (ComputeLatestStableUnstable [("q", [mkPkg "q" "1.2.3"])]).1 "q" =
        ((computeTrio versions).bestLatest).map (fun x => x.2) ∧
      lookupAssoc (ComputeLatestStableUnstable [("q", [mkPkg "q" "1.2.3"])]).2.1 "q" =
        ((computeTrio versions).bestStable).map (fun x => x.2) ∧
      lookupAssoc (ComputeLatestStableUnstable [("q", [mkPkg "q" "1.2.3"])]).2.2 "q" =
        ((computeTrio versions).bestUnstable).map (fun x => x.2)) :=
  ⟨by decide, by decide,
   C2_amended.2.2.2.1 [("q", [mkPkg "q" "1.2.3"])] "q" (by decide) (by decide)⟩
